import Mathlib

/-!
# Digging3DMazeGenerator

A shallow embedding of `Maze::Digging3DMazeGenerator` (`Digging3DMazeGenerator.hpp`).

* The grid `matrix_` is a vector of slices, each slice a vector of rows, each row a
  vector of cells; it is addressed `matrix_[z][y][x]`.
* Every indexed access of the source is an `Option`-valued access here: `none` is the
  fault of indexing outside a container (or of `rand() % 0`).
* `std::size_t` is 64 bits wide and `int` is 32 bits wide; additions and conversions
  reduce modulo `2 ^ 64` and `2 ^ 32` where the source does.
* `rand()` is the function `rnd`: its `k`-th call returns `rnd k`.
* The `while` loop is run with a fuel that counts loop iterations.
-/

namespace Maze

/-- A grid `matrix_[z][y][x]`. -/
abbrev Matrix (α : Type) := List (List (List α))

/-- A `std::tuple<std::size_t, std::size_t, std::size_t>`, components x, y, z. -/
abbrev Triple := Nat × Nat × Nat

/-- Number of values of `std::size_t`. -/
def sizeMod : Nat := 2 ^ 64

/-- The cast `(int)pos` of a `std::size_t`: the low 32 bits, read in two's complement. -/
def toInt (n : Nat) : Int :=
  if n % 2 ^ 32 < 2 ^ 31 then ((n % 2 ^ 32 : Nat) : Int) else ((n % 2 ^ 32 : Nat) : Int) - 2 ^ 32

/-- The result of an `int` operation, wrapped to 32 bits two's complement (an `int` sum
that overflows is taken to wrap around, as the hardware addition does). -/
def wrapInt (i : Int) : Int := (i + 2 ^ 31) % 2 ^ 32 - 2 ^ 31

/-- The cast `(std::size_t)i` of an `int`: reduction modulo `2 ^ 64`. -/
def toSize (i : Int) : Nat := (i % 2 ^ 64).toNat

/-- The two configured values of the generator. -/
structure Digging3DMazeGenerator (α : Type) where
  empty_value : α
  wall_value : α

/-- The static table `dirs` of `GetCanDiggingDirs`. -/
def dirs : List (Int × Int × Int) :=
  [(-1, 0, 0), (1, 0, 0), (0, -1, 0), (0, 1, 0), (0, 0, -1), (0, 0, 1)]

set_option linter.unusedSectionVars false
set_option linter.unusedVariables false

variable {α : Type} [DecidableEq α]

/-- The read `matrix_[z][y][x]`. -/
def readCell (m : Matrix α) (x y z : Nat) : Option α := do
  let slice ← m[z]?
  let row ← slice[y]?
  row[x]?

/-- The write `matrix_[z][y][x] = v`. -/
def writeCell (m : Matrix α) (x y z : Nat) (v : α) : Option (Matrix α) := do
  let slice ← m[z]?
  let row ← slice[y]?
  if x < row.length then some (m.set z (slice.set y (row.set x v))) else none

/-- The query `matrix_[z].size()`. -/
def sliceSize (m : Matrix α) (z : Nat) : Option Nat := do
  let slice ← m[z]?
  some slice.length

/-- The query `matrix_[z][y].size()`. -/
def rowSize (m : Matrix α) (z y : Nat) : Option Nat := do
  let slice ← m[z]?
  let row ← slice[y]?
  some row.length

/-- The three nested loops at the head of `CreateMaze`. -/
def fillWall (g : Digging3DMazeGenerator α) (m : Matrix α) : Option (Matrix α) :=
  (List.range m.length).foldlM (fun m z => do
    let ny ← sliceSize m z
    (List.range ny).foldlM (fun m y => do
      let nx ← rowSize m z y
      (List.range nx).foldlM (fun m x => writeCell m x y z g.wall_value) m) m) m

/-- The test `matrix_.size() <= 2 || matrix_[0].size() <= 2 || matrix_[0][0].size() <= 2`. -/
def sizeCheck (m : Matrix α) : Option Bool :=
  if m.length ≤ 2 then some true
  else do
    let ny ← sliceSize m 0
    if ny ≤ 2 then some true
    else do
      let nx ← rowSize m 0 0
      some (decide (nx ≤ 2))

/-- `IsInRange`: the three comparisons with zero, then the three extents, left to right. -/
def IsInRange (m : Matrix α) (pos_x pos_y pos_z : Nat) : Option Bool :=
  if pos_z < 0 ∨ pos_y < 0 ∨ pos_x < 0 ∨ pos_z ≥ m.length then some false
  else do
    let ny ← sliceSize m pos_z
    if pos_y ≥ ny then some false
    else do
      let nx ← rowSize m pos_z pos_y
      some (decide (¬ pos_x ≥ nx))

/-- `SetMazeChip`. -/
def SetMazeChip (m : Matrix α) (pos_x pos_y pos_z : Nat) (new_state : α) :
    Option (Matrix α) := do
  if (← IsInRange m pos_x pos_y pos_z) then
    writeCell m pos_x pos_y pos_z new_state
  else
    some m

/-- `GetCanDiggingDirs`. -/
def GetCanDiggingDirs (g : Digging3DMazeGenerator α) (m : Matrix α) (pos_x pos_y pos_z : Nat) :
    Option (List Triple) :=
  dirs.foldlM (fun result dir => do
    let check_x := toSize (wrapInt (toInt pos_x + dir.1 * 2))
    let check_y := toSize (wrapInt (toInt pos_y + dir.2.1 * 2))
    let check_z := toSize (wrapInt (toInt pos_z + dir.2.2 * 2))
    if (← IsInRange m check_x check_y check_z) then
      if (← readCell m check_x check_y check_z) = g.wall_value then
        some (result ++ [(toSize dir.1, toSize dir.2.1, toSize dir.2.2)])
      else some result
    else some result) []

/-- `GetCanRespawnSeedPositions`. -/
def GetCanRespawnSeedPositions (g : Digging3DMazeGenerator α) (m : Matrix α) :
    Option (List Triple) :=
  (List.range (m.length / 2)).foldlM (fun result z => do
    let ny ← sliceSize m (z * 2 % sizeMod)
    (List.range (ny / 2)).foldlM (fun result y => do
      let nx ← rowSize m (z * 2 % sizeMod) (y * 2 % sizeMod)
      (List.range (nx / 2)).foldlM (fun result x => do
        let check_x := (x * 2 + 1) % sizeMod
        let check_y := (y * 2 + 1) % sizeMod
        let check_z := (z * 2 + 1) % sizeMod
        if (← IsInRange m check_x check_y check_z) then
          if (← readCell m check_x check_y check_z) = g.empty_value then
            if (← GetCanDiggingDirs g m check_x check_y check_z).length > 0 then
              some (result ++ [(check_x, check_y, check_z)])
            else some result
          else some result
        else some result) result) result) []

/-- The index `rand() % n`; `n = 0` is a fault. -/
def randMod (r n : Nat) : Option Nat := if n = 0 then none else some (r % n)

/-- The variables of `CreateMaze` that live across iterations of its `while` loop,
and the number of calls of `rand()` made so far. -/
structure LoopState (α : Type) where
  matrix_ : Matrix α
  seed_x : Nat
  seed_y : Nat
  seed_z : Nat
  finish_flag : Bool
  calls : Nat

/-- One iteration of the `while` loop of `CreateMaze`. -/
def loopBody (g : Digging3DMazeGenerator α) (rnd : Nat → Nat) (s : LoopState α) :
    Option (LoopState α) := do
  let can_digging_dirs ← GetCanDiggingDirs g s.matrix_ s.seed_x s.seed_y s.seed_z
  if can_digging_dirs.length > 0 then
    let i ← randMod (rnd s.calls) can_digging_dirs.length
    let digging_dir ← can_digging_dirs[i]?
    let dir_x := digging_dir.1
    let dir_y := digging_dir.2.1
    let dir_z := digging_dir.2.2
    let m1 ← SetMazeChip s.matrix_ ((s.seed_x + dir_x) % sizeMod) ((s.seed_y + dir_y) % sizeMod)
      ((s.seed_z + dir_z) % sizeMod) g.empty_value
    let m2 ← SetMazeChip m1 ((s.seed_x + dir_x * 2 % sizeMod) % sizeMod)
      ((s.seed_y + dir_y * 2 % sizeMod) % sizeMod) ((s.seed_z + dir_z * 2 % sizeMod) % sizeMod)
      g.empty_value
    some { matrix_ := m2
           seed_x := (s.seed_x + dir_x * 2 % sizeMod) % sizeMod
           seed_y := (s.seed_y + dir_y * 2 % sizeMod) % sizeMod
           seed_z := (s.seed_z + dir_z * 2 % sizeMod) % sizeMod
           finish_flag := s.finish_flag
           calls := s.calls + 1 }
  else
    let can_respawn_seed_positions ← GetCanRespawnSeedPositions g s.matrix_
    if can_respawn_seed_positions.length > 0 then
      let i ← randMod (rnd s.calls) can_respawn_seed_positions.length
      let respawn_pos ← can_respawn_seed_positions[i]?
      let m1 ← SetMazeChip s.matrix_ respawn_pos.1 respawn_pos.2.1 respawn_pos.2.2 g.empty_value
      some { matrix_ := m1
             seed_x := respawn_pos.1
             seed_y := respawn_pos.2.1
             seed_z := respawn_pos.2.2
             finish_flag := s.finish_flag
             calls := s.calls + 1 }
    else
      some { s with finish_flag := true }

/-- What a run of `CreateMaze` comes to: it returns with the grid `m`, or it performs a
faulty access, or the fuel is used up before the loop ends. -/
inductive Outcome (α : Type) where
  | returned (m : Matrix α)
  | fault
  | outOfFuel

/-- The loop `while (!finish_flag) { ... }`, at most `fuel` iterations of it. -/
def whileLoop (g : Digging3DMazeGenerator α) (rnd : Nat → Nat) :
    Nat → LoopState α → Outcome α
  | fuel, s =>
    if s.finish_flag then Outcome.returned s.matrix_
    else match fuel with
      | 0 => Outcome.outOfFuel
      | n + 1 =>
        match loopBody g rnd s with
        | none => Outcome.fault
        | some s1 => whileLoop g rnd n s1

/-- `CreateMaze`, its loop run for at most `fuel` iterations. -/
def CreateMaze (g : Digging3DMazeGenerator α) (rnd : Nat → Nat) (fuel : Nat) (m : Matrix α) :
    Outcome α :=
  match fillWall g m with
  | none => Outcome.fault
  | some m0 =>
    match sizeCheck m0 with
    | none => Outcome.fault
    | some true => Outcome.returned m0
    | some false =>
      match SetMazeChip m0 1 1 1 g.empty_value with
      | none => Outcome.fault
      | some m1 =>
        whileLoop g rnd fuel
          { matrix_ := m1, seed_x := 1, seed_y := 1, seed_z := 1, finish_flag := false, calls := 0 }

/-! ## The functions of the embedding without the access checks -/

/-- Whether `(x, y, z)` addresses a cell of the grid. -/
def inGrid (m : Matrix α) (x y z : Nat) : Bool := (readCell m x y z).isSome

/-- The grid with the cell `(x, y, z)`, when there is one, set to `v`. -/
def setCell (m : Matrix α) (x y z : Nat) (v : α) : Matrix α := (writeCell m x y z v).getD m

/-- The grid is a box: `Dz` slices of `Dy` rows of `Dx` cells. -/
def Rect (m : Matrix α) (Dx Dy Dz : Nat) : Prop :=
  m.length = Dz ∧ ∀ slice ∈ m, slice.length = Dy ∧ ∀ row ∈ slice, row.length = Dx

/-- The coordinate tested by `GetCanDiggingDirs` along one axis: `(std::size_t)((int)pos + d * 2)`. -/
def checkCoord (pos : Nat) (d : Int) : Nat := toSize (wrapInt (toInt pos + d * 2))

/-- A direction of `dirs` as the tuple of `std::size_t` that `GetCanDiggingDirs` returns. -/
def dirTriple (dir : Int × Int × Int) : Triple := (toSize dir.1, toSize dir.2.1, toSize dir.2.2)

/-- The list `GetCanDiggingDirs` returns. -/
def digDirs (g : Digging3DMazeGenerator α) (m : Matrix α) (x y z : Nat) : List Triple :=
  (dirs.filter (fun dir =>
    decide (readCell m (checkCoord x dir.1) (checkCoord y dir.2.1) (checkCoord z dir.2.2)
      = some g.wall_value))).map dirTriple

/-- The list `GetCanRespawnSeedPositions` returns. -/
def respawnSeeds (g : Digging3DMazeGenerator α) (m : Matrix α) : List Triple :=
  (List.range (m.length / 2)).flatMap fun z =>
    (List.range ((sliceSize m (z * 2 % sizeMod)).getD 0 / 2)).flatMap fun y =>
      (List.range ((rowSize m (z * 2 % sizeMod) (y * 2 % sizeMod)).getD 0 / 2)).flatMap fun x =>
        if readCell m ((x * 2 + 1) % sizeMod) ((y * 2 + 1) % sizeMod) ((z * 2 + 1) % sizeMod)
              = some g.empty_value ∧
            digDirs g m ((x * 2 + 1) % sizeMod) ((y * 2 + 1) % sizeMod) ((z * 2 + 1) % sizeMod) ≠ []
        then [((x * 2 + 1) % sizeMod, (y * 2 + 1) % sizeMod, (z * 2 + 1) % sizeMod)]
        else []

/-- The grid the three fill loops of `CreateMaze` leave: the same shape, every cell `wall_value`. -/
def filled (g : Digging3DMazeGenerator α) (m : Matrix α) : Matrix α :=
  m.map fun slice => slice.map fun row => row.map fun _ => g.wall_value

/-- The state after the branch of the loop body that digs in direction `d`
(a tuple of `std::size_t`). -/
def digStep (g : Digging3DMazeGenerator α) (s : LoopState α) (d : Triple) : LoopState α :=
  { matrix_ :=
      setCell
        (setCell s.matrix_ ((s.seed_x + d.1) % sizeMod) ((s.seed_y + d.2.1) % sizeMod)
          ((s.seed_z + d.2.2) % sizeMod) g.empty_value)
        ((s.seed_x + d.1 * 2 % sizeMod) % sizeMod) ((s.seed_y + d.2.1 * 2 % sizeMod) % sizeMod)
        ((s.seed_z + d.2.2 * 2 % sizeMod) % sizeMod) g.empty_value
    seed_x := (s.seed_x + d.1 * 2 % sizeMod) % sizeMod
    seed_y := (s.seed_y + d.2.1 * 2 % sizeMod) % sizeMod
    seed_z := (s.seed_z + d.2.2 * 2 % sizeMod) % sizeMod
    finish_flag := s.finish_flag
    calls := s.calls + 1 }

/-- The state after the branch of the loop body that moves the seed to the candidate `p`. -/
def respawnStep (g : Digging3DMazeGenerator α) (s : LoopState α) (p : Triple) : LoopState α :=
  { matrix_ := setCell s.matrix_ p.1 p.2.1 p.2.2 g.empty_value
    seed_x := p.1
    seed_y := p.2.1
    seed_z := p.2.2
    finish_flag := s.finish_flag
    calls := s.calls + 1 }

/-- The state one iteration of the loop body leaves. -/
def stepPure (g : Digging3DMazeGenerator α) (rnd : Nat → Nat) (s : LoopState α) : LoopState α :=
  if digDirs g s.matrix_ s.seed_x s.seed_y s.seed_z ≠ [] then
    digStep g s ((digDirs g s.matrix_ s.seed_x s.seed_y s.seed_z).getD
      (rnd s.calls % (digDirs g s.matrix_ s.seed_x s.seed_y s.seed_z).length) (0, 0, 0))
  else if respawnSeeds g s.matrix_ ≠ [] then
    respawnStep g s ((respawnSeeds g s.matrix_).getD
      (rnd s.calls % (respawnSeeds g s.matrix_).length) (0, 0, 0))
  else { s with finish_flag := true }

/-- The state in which `CreateMaze` enters its loop, the grid being `m`. -/
def initState (m : Matrix α) : LoopState α :=
  { matrix_ := m, seed_x := 1, seed_y := 1, seed_z := 1, finish_flag := false, calls := 0 }

/-! ## Rooms, corridor links, pillars and the loop invariant -/

/-- The content of the cell at the position `p = (x, y, z)`. -/
def cellAt (m : Matrix α) (p : Triple) : Option α := readCell m p.1 p.2.1 p.2.2

/-- A room cell: all three coordinates odd. -/
def isRoom (x y z : Nat) : Prop := x % 2 = 1 ∧ y % 2 = 1 ∧ z % 2 = 1

instance (x y z : Nat) : Decidable (isRoom x y z) := by unfold isRoom; infer_instance

/-- The number of even coordinates of `(x, y, z)`. -/
def evenCount (x y z : Nat) : Nat := (1 - x % 2) + (1 - y % 2) + (1 - z % 2)

/-- A corridor link cell: exactly one coordinate even. -/
def isLink (x y z : Nat) : Prop := evenCount x y z = 1

instance (x y z : Nat) : Decidable (isLink x y z) := by unfold isLink; infer_instance

/-- A pillar cell: two or more coordinates even. -/
def isPillar (x y z : Nat) : Prop := 2 ≤ evenCount x y z

instance (x y z : Nat) : Decidable (isPillar x y z) := by unfold isPillar; infer_instance

/-- On one axis: `a` and `b` differ by 2 and `c` lies between them. -/
def Between (a c b : Nat) : Prop := (b = a + 2 ∧ c = a + 1) ∨ (a = b + 2 ∧ c = b + 1)

/-- The positions `p` and `q` differ by 2 in exactly one axis and `mid` is the cell between
them. -/
def Link (p mid q : Triple) : Prop :=
  (Between p.1 mid.1 q.1 ∧ mid.2.1 = p.2.1 ∧ q.2.1 = p.2.1 ∧ mid.2.2 = p.2.2 ∧ q.2.2 = p.2.2) ∨
  (mid.1 = p.1 ∧ q.1 = p.1 ∧ Between p.2.1 mid.2.1 q.2.1 ∧ mid.2.2 = p.2.2 ∧ q.2.2 = p.2.2) ∨
  (mid.1 = p.1 ∧ q.1 = p.1 ∧ mid.2.1 = p.2.1 ∧ q.2.1 = p.2.1 ∧ Between p.2.2 mid.2.2 q.2.2)

/-- Corridor-link adjacency of the carved rooms: `p` and `q` are room cells holding
`empty_value`, they differ by 2 in exactly one axis, and the cell between them holds
`empty_value`. -/
def Adj (g : Digging3DMazeGenerator α) (m : Matrix α) (p q : Triple) : Prop :=
  isRoom p.1 p.2.1 p.2.2 ∧ isRoom q.1 q.2.1 q.2.2 ∧
  cellAt m p = some g.empty_value ∧ cellAt m q = some g.empty_value ∧
  ∃ mid, Link p mid q ∧ cellAt m mid = some g.empty_value

/-- The positions of a box of extents `Dx`, `Dy`, `Dz`. -/
def cells (Dx Dy Dz : Nat) : Finset Triple :=
  Finset.range Dx ×ˢ Finset.range Dy ×ˢ Finset.range Dz

/-- The room cells of the box that hold `empty_value`. -/
def emptyRooms (g : Digging3DMazeGenerator α) (m : Matrix α) (Dx Dy Dz : Nat) : Finset Triple :=
  (cells Dx Dy Dz).filter fun p => isRoom p.1 p.2.1 p.2.2 ∧ cellAt m p = some g.empty_value

/-- The corridor link cells of the box that hold `empty_value`. -/
def emptyLinks (g : Digging3DMazeGenerator α) (m : Matrix α) (Dx Dy Dz : Nat) : Finset Triple :=
  (cells Dx Dy Dz).filter fun p => isLink p.1 p.2.1 p.2.2 ∧ cellAt m p = some g.empty_value

/-- The part of an extent that the `int` arithmetic of `GetCanDiggingDirs` reaches. -/
def lim (D : Nat) : Nat := min D (2 ^ 31)

/-- The invariant of the `while` loop of `CreateMaze` on a box of extents `Dx`, `Dy`, `Dz`. -/
structure Inv (g : Digging3DMazeGenerator α) (Dx Dy Dz : Nat) (s : LoopState α) : Prop where
  rect : Rect s.matrix_ Dx Dy Dz
  vals : ∀ x y z v, readCell s.matrix_ x y z = some v → v = g.wall_value ∨ v = g.empty_value
  seed_room : isRoom s.seed_x s.seed_y s.seed_z
  seed_empty : readCell s.matrix_ s.seed_x s.seed_y s.seed_z = some g.empty_value
  box : ∀ x y z, readCell s.matrix_ x y z = some g.empty_value →
    x < 2 ^ 31 ∧ y < 2 ^ 31 ∧ z < 2 ^ 31 ∧ ¬ isPillar x y z
  links : ∀ p mid q, Link p mid q → isRoom p.1 p.2.1 p.2.2 →
    cellAt s.matrix_ mid = some g.empty_value → cellAt s.matrix_ q = some g.empty_value
  origin : readCell s.matrix_ 1 1 1 = some g.empty_value
  conn : ∀ x y z, isRoom x y z → readCell s.matrix_ x y z = some g.empty_value →
    Relation.ReflTransGen (Adj g s.matrix_) (1, 1, 1) (x, y, z)
  count : (emptyLinks g s.matrix_ Dx Dy Dz).card + 1 = (emptyRooms g s.matrix_ Dx Dy Dz).card
  fin : s.finish_flag = true →
    digDirs g s.matrix_ s.seed_x s.seed_y s.seed_z = [] ∧ respawnSeeds g s.matrix_ = []
  link_ends : ∀ mid : Triple, isLink mid.1 mid.2.1 mid.2.2 →
    cellAt s.matrix_ mid = some g.empty_value →
    ∃ p q, Link p mid q ∧ isRoom p.1 p.2.1 p.2.2 ∧
      cellAt s.matrix_ p = some g.empty_value ∧ cellAt s.matrix_ q = some g.empty_value

/-- The cell that a dig from `(x, y, z)` in the direction `t` carves as corridor:
`seed + dir`, in `std::size_t` arithmetic. -/
def digMid (x y z : Nat) (t : Triple) : Triple :=
  ((x + t.1) % sizeMod, (y + t.2.1) % sizeMod, (z + t.2.2) % sizeMod)

/-- The cell that a dig from `(x, y, z)` in the direction `t` carves as room and moves the
seed to: `seed + dir * 2`, in `std::size_t` arithmetic. -/
def digTarget (x y z : Nat) (t : Triple) : Triple :=
  ((x + t.1 * 2 % sizeMod) % sizeMod, (y + t.2.1 * 2 % sizeMod) % sizeMod,
    (z + t.2.2 * 2 % sizeMod) % sizeMod)

/-- The room cells of the box that the digging can reach. -/
def roomsBox (Dx Dy Dz : Nat) : Finset Triple :=
  (cells (lim Dx) (lim Dy) (lim Dz)).filter fun p => isRoom p.1 p.2.1 p.2.2

/-- The measure that bounds the remaining iterations of the loop: twice the number of
rooms not yet carved, plus one when the seed has no direction left. -/
def potential (g : Digging3DMazeGenerator α) (Dx Dy Dz : Nat) (s : LoopState α) : Nat :=
  2 * ((roomsBox Dx Dy Dz).card - (emptyRooms g s.matrix_ Dx Dy Dz).card)
    + (if digDirs g s.matrix_ s.seed_x s.seed_y s.seed_z = [] then 1 else 0)

/-- `CreateMaze` on the grid `m` with the random choices `rnd` returns, and the grid it
returns satisfies `P`. -/
def AfterCreateMaze (g : Digging3DMazeGenerator α) (rnd : Nat → Nat) (m : Matrix α)
    (P : Matrix α → Prop) : Prop :=
  (∃ fuel m1, CreateMaze g rnd fuel m = Outcome.returned m1) ∧
    ∀ fuel m1, CreateMaze g rnd fuel m = Outcome.returned m1 → P m1

/-- The room cells holding `empty_value` form one connected component under corridor-link
adjacency. -/
def ConnectedRooms (g : Digging3DMazeGenerator α) (m : Matrix α) : Prop :=
  ∀ p q : Triple, isRoom p.1 p.2.1 p.2.2 → cellAt m p = some g.empty_value →
    isRoom q.1 q.2.1 q.2.2 → cellAt m q = some g.empty_value →
    Relation.ReflTransGen (Adj g m) p q

/-- Two grids have the same shape: as many slices, rows per slice and cells per row. -/
def SameShape (m1 m2 : Matrix α) : Prop :=
  m1.map (fun slice => slice.map List.length) = m2.map (fun slice => slice.map List.length)

/-- A box of extents `Dx`, `Dy`, `Dz` with every cell holding `v`. -/
def boxOf (Dx Dy Dz : Nat) (v : α) : Matrix α :=
  List.replicate Dz (List.replicate Dy (List.replicate Dx v))

/-- A generator over integer tiles: `empty_value = 1`, `wall_value = 0`. -/
def gen10 : Digging3DMazeGenerator Nat := { empty_value := 1, wall_value := 0 }

/-- Whether the cell at the integer coordinates `(ix, iy, iz)` is inside the grid and
holds `wall_value`. -/
def holdsWallAt (g : Digging3DMazeGenerator α) (m : Matrix α) (ix iy iz : Int) : Bool :=
  decide (0 ≤ ix ∧ 0 ≤ iy ∧ 0 ≤ iz ∧
    readCell m ix.toNat iy.toNat iz.toNat = some g.wall_value)

/-- The state in which `CreateMaze`, run on the grid `m`, reaches its `while` loop; `none`
when it returns before the loop. -/
def loopEntry (g : Digging3DMazeGenerator α) (m : Matrix α) : Option (LoopState α) :=
  match fillWall g m with
  | none => none
  | some m0 =>
    match sizeCheck m0 with
    | none => none
    | some true => none
    | some false =>
      match SetMazeChip m0 1 1 1 g.empty_value with
      | none => none
      | some m1 =>
        some { matrix_ := m1, seed_x := 1, seed_y := 1, seed_z := 1, finish_flag := false,
               calls := 0 }

/-- The state after `k` iterations of the loop `while (!finish_flag) { ... }` started in
`s0`; `none` when the loop makes fewer than `k` iterations. -/
def stateAfter (g : Digging3DMazeGenerator α) (rnd : Nat → Nat) (s0 : LoopState α) :
    Nat → Option (LoopState α)
  | 0 => some s0
  | k + 1 =>
    match stateAfter g rnd s0 k with
    | none => none
    | some s => if s.finish_flag then none else loopBody g rnd s

/-- Iteration number `k` (counted from 0) of the loop of `CreateMaze`, run on the grid `m`
with the random choices `rnd`, starts in the state `s`. -/
def IterStart (g : Digging3DMazeGenerator α) (rnd : Nat → Nat) (m : Matrix α) (k : Nat)
    (s : LoopState α) : Prop :=
  ∃ s0, loopEntry g m = some s0 ∧ stateAfter g rnd s0 k = some s ∧ s.finish_flag = false

/-- The invariant of the loop of `CreateMaze` on a box when `empty_value` and `wall_value`
coincide: every cell keeps that value and the seed is a room cell of the reachable part. -/
structure InvSame (g : Digging3DMazeGenerator α) (Dx Dy Dz : Nat) (s : LoopState α) : Prop where
  rect : Rect s.matrix_ Dx Dy Dz
  allwall : ∀ x y z v, readCell s.matrix_ x y z = some v → v = g.wall_value
  seed_room : isRoom s.seed_x s.seed_y s.seed_z
  seed_lim : s.seed_x < lim Dx ∧ s.seed_y < lim Dy ∧ s.seed_z < lim Dz

/-- What every iteration of the loop finds at its start on a box, whatever the two values:
the seed is a room cell inside the reachable part of the box and holds `empty_value`. -/
structure Base (g : Digging3DMazeGenerator α) (Dx Dy Dz : Nat) (s : LoopState α) : Prop where
  rect : Rect s.matrix_ Dx Dy Dz
  seed_room : isRoom s.seed_x s.seed_y s.seed_z
  seed_lim : s.seed_x < lim Dx ∧ s.seed_y < lim Dy ∧ s.seed_z < lim Dz
  seed_empty : readCell s.matrix_ s.seed_x s.seed_y s.seed_z = some g.empty_value

/-- A ragged grid of three slices: row 2 of slice 1 is empty, the other rows hold three
cells. -/
def raggedGrid : Matrix Nat :=
  [[[5, 5, 5], [5, 5, 5], [5, 5, 5]],
   [[5, 5, 5], [5, 5, 5], [], [5, 5, 5]],
   [[5, 5, 5], [5, 5, 5], [5, 5, 5]]]

/-- The state in which the loop of `CreateMaze` starts on a 5x5x5 box, for `gen10`. -/
def state555 : LoopState Nat :=
  initState (setCell (filled gen10 (boxOf 5 5 5 7)) 1 1 1 gen10.empty_value)

/-- Random choices that lead the digging on a 3x5x7 box into a dead end: the first call of
`rand()` returns 1, the later ones 0. -/
def rndDeadEnd : Nat → Nat := fun k => if k = 0 then 1 else 0

/-- The grid after the first three digs on a 3x5x7 box with the choices `rndDeadEnd`. -/
def deadEndGrid : Matrix Nat :=
  [[[0, 0, 0], [0, 0, 0], [0, 0, 0], [0, 0, 0], [0, 0, 0]],
   [[0, 0, 0], [0, 1, 0], [0, 0, 0], [0, 1, 0], [0, 0, 0]],
   [[0, 0, 0], [0, 1, 0], [0, 0, 0], [0, 1, 0], [0, 0, 0]],
   [[0, 0, 0], [0, 1, 0], [0, 1, 0], [0, 1, 0], [0, 0, 0]],
   [[0, 0, 0], [0, 0, 0], [0, 0, 0], [0, 0, 0], [0, 0, 0]],
   [[0, 0, 0], [0, 0, 0], [0, 0, 0], [0, 0, 0], [0, 0, 0]],
   [[0, 0, 0], [0, 0, 0], [0, 0, 0], [0, 0, 0], [0, 0, 0]]]

/-- The cells of the box that hold `empty_value`. -/
def emptyCells (g : Digging3DMazeGenerator α) (m : Matrix α) (Dx Dy Dz : Nat) : Finset Triple :=
  (cells Dx Dy Dz).filter fun p => cellAt m p = some g.empty_value

/-! ## Refinement: every access is in range -/

theorem foldlM_push {β γ : Type} (l : List β) (body : List γ → β → Option (List γ))
    (F : β → List γ) (h : ∀ a ∈ l, ∀ r, body r a = some (r ++ F a)) (init : List γ) :
    l.foldlM body init = some (init ++ l.flatMap F) := by
  induction l generalizing init with
  | nil => simp
  | cons a t ih =>
    have ha := h a (List.mem_cons_self a t)
    have ht : ∀ b ∈ t, ∀ r, body r b = some (r ++ F b) :=
      fun b hb r => h b (List.mem_cons_of_mem a hb) r
    simp [List.foldlM_cons, ha, ih ht, List.append_assoc]

theorem foldlM_range_inv {σ : Type} (step : σ → Nat → Option σ) (I : Nat → σ → Prop) (n : Nat)
    (s0 : σ) (h0 : I 0 s0)
    (hs : ∀ k s, k < n → I k s → ∃ s1, step s k = some s1 ∧ I (k + 1) s1) :
    ∃ s1, (List.range n).foldlM step s0 = some s1 ∧ I n s1 := by
  induction n with
  | zero => exact ⟨s0, by simp, h0⟩
  | succ n ih =>
    obtain ⟨s1, h1, hI⟩ := ih (fun k s hk hi => hs k s (Nat.lt_succ_of_lt hk) hi)
    obtain ⟨s2, h2, hI2⟩ := hs n s1 (Nat.lt_succ_self n) hI
    refine ⟨s2, ?_, hI2⟩
    rw [List.range_succ, List.foldlM_append, h1]
    simp [h2]

theorem flatMap_ite_singleton {β γ : Type} (l : List β) (p : β → Bool) (h : β → γ) :
    l.flatMap (fun a => if p a then [h a] else []) = (l.filter p).map h := by
  induction l with
  | nil => simp
  | cons a t ih =>
    by_cases hp : p a <;> simp [List.flatMap_cons, List.filter_cons, hp, ih]

theorem IsInRange_eq (m : Matrix α) (x y z : Nat) :
    IsInRange m x y z = some (inGrid m x y z) := by
  unfold IsInRange inGrid readCell sliceSize rowSize
  by_cases hz : z < m.length
  · simp only [Nat.not_lt_zero, false_or, ge_iff_le, Nat.not_le.mpr hz, if_false]
    rw [List.getElem?_eq_getElem hz]
    simp only [Option.bind_eq_bind, Option.some_bind]
    by_cases hy : y < (m[z]).length
    · simp only [Nat.not_le.mpr hy, if_false]
      rw [List.getElem?_eq_getElem hy]
      simp only [Option.some_bind]
      by_cases hx : x < (m[z][y]).length
      · simp [hx, List.getElem?_eq_getElem hx]
      · simp [hx, List.getElem?_eq_none (Nat.le_of_not_lt hx)]
    · simp [Nat.le_of_not_lt hy, List.getElem?_eq_none (Nat.le_of_not_lt hy)]
  · simp [Nat.le_of_not_lt hz, List.getElem?_eq_none (Nat.le_of_not_lt hz)]

theorem SetMazeChip_eq (m : Matrix α) (x y z : Nat) (v : α) :
    SetMazeChip m x y z v = some (setCell m x y z v) := by
  unfold SetMazeChip setCell
  rw [IsInRange_eq]
  simp only [Option.bind_eq_bind, Option.some_bind]
  unfold inGrid readCell writeCell
  cases hz : m[z]? with
  | none => simp
  | some slice =>
    cases hy : slice[y]? with
    | none => simp [hy]
    | some row =>
      by_cases hx : x < row.length
      · simp [hx, hy, List.getElem?_eq_getElem hx]
      · simp [hx, hy, List.getElem?_eq_none (Nat.le_of_not_lt hx)]

theorem inGrid_iff (m : Matrix α) (x y z : Nat) :
    inGrid m x y z = true ↔ ∃ v, readCell m x y z = some v := by
  unfold inGrid
  exact Option.isSome_iff_exists

theorem readCell_setCell (m : Matrix α) (x y z : Nat) (v : α) (a b c : Nat) :
    readCell (setCell m x y z v) a b c =
      if inGrid m x y z = true ∧ a = x ∧ b = y ∧ c = z then some v else readCell m a b c := by
  unfold setCell inGrid readCell writeCell
  cases hz : m[z]? with
  | none => simp
  | some slice =>
    cases hy : slice[y]? with
    | none => simp [hy]
    | some row =>
      have hzl : z < m.length := (List.getElem?_eq_some.mp hz).1
      have hyl : y < slice.length := (List.getElem?_eq_some.mp hy).1
      by_cases hx : x < row.length
      · simp only [Option.bind_eq_bind, Option.some_bind, hx, if_true, Option.getD_some,
          List.getElem?_eq_getElem hx, Option.isSome_some, true_and, hy]
        by_cases hc : c = z
        · subst hc
          rw [List.getElem?_set_self hzl]
          simp only [Option.some_bind, hz]
          by_cases hb : b = y
          · subst hb
            rw [List.getElem?_set_self hyl]
            simp only [Option.some_bind, hy]
            by_cases ha : a = x
            · subst ha
              simp [List.getElem?_set_self hx]
            · simp [ha, List.getElem?_set_ne (Ne.symm ha)]
          · simp [hb, List.getElem?_set_ne (Ne.symm hb)]
        · simp [hc, List.getElem?_set_ne (Ne.symm hc)]
      · simp [hx, List.getElem?_eq_none (Nat.le_of_not_lt hx), hz, hy]

theorem push_if_aux {γ : Type} (rc : Option α) (w : α) (r : List γ) (t : γ) :
    (if rc.isSome = true then
        rc.bind fun v => if v = w then some (r ++ [t]) else some r
      else some r) = some (r ++ if decide (rc = some w) = true then [t] else []) := by
  cases rc with
  | none => simp
  | some v => by_cases hv : v = w <;> simp [hv]

theorem GetCanDiggingDirs_eq (g : Digging3DMazeGenerator α) (m : Matrix α) (x y z : Nat) :
    GetCanDiggingDirs g m x y z = some (digDirs g m x y z) := by
  unfold GetCanDiggingDirs digDirs
  rw [← flatMap_ite_singleton]
  have := foldlM_push dirs (fun result dir => do
    let check_x := toSize (wrapInt (toInt x + dir.1 * 2))
    let check_y := toSize (wrapInt (toInt y + dir.2.1 * 2))
    let check_z := toSize (wrapInt (toInt z + dir.2.2 * 2))
    if (← IsInRange m check_x check_y check_z) then
      if (← readCell m check_x check_y check_z) = g.wall_value then
        some (result ++ [(toSize dir.1, toSize dir.2.1, toSize dir.2.2)])
      else some result
    else some result) (fun dir => if decide (readCell m (checkCoord x dir.1) (checkCoord y dir.2.1) (checkCoord z dir.2.2)
      = some g.wall_value) = true then [dirTriple dir] else []) ?_ []
  · simpa using this
  · intro dir _ r
    simp only [IsInRange_eq, Option.bind_eq_bind, Option.some_bind, checkCoord, dirTriple, inGrid]
    exact push_if_aux _ _ _ _

theorem sliceSize_of_lt (m : Matrix α) (z : Nat) (h : z < m.length) :
    sliceSize m z = some (m[z]).length := by
  simp [sliceSize, List.getElem?_eq_getElem h]

theorem rowSize_of_lt (m : Matrix α) (z y : Nat) (hz : z < m.length) (hy : y < (m[z]).length) :
    rowSize m z y = some (m[z][y]).length := by
  simp [rowSize, List.getElem?_eq_getElem hz, List.getElem?_eq_getElem hy]

theorem respawn_if_aux {γ : Type} (rc : Option α) (w : α) (r : List γ) (t : γ) (n : Nat) :
    (if rc.isSome = true then
        rc.bind fun v => if v = w then (if n > 0 then some (r ++ [t]) else some r) else some r
      else some r) = some (r ++ if rc = some w ∧ 0 < n then [t] else []) := by
  cases rc with
  | none => simp
  | some v => by_cases hv : v = w <;> by_cases hn : 0 < n <;> simp [hv, hn]

theorem GetCanRespawnSeedPositions_eq (g : Digging3DMazeGenerator α) (m : Matrix α) :
    GetCanRespawnSeedPositions g m = some (respawnSeeds g m) := by
  unfold GetCanRespawnSeedPositions respawnSeeds
  have h := foldlM_push (List.range (m.length / 2)) (fun result z => do
    let ny ← sliceSize m (z * 2 % sizeMod)
    (List.range (ny / 2)).foldlM (fun result y => do
      let nx ← rowSize m (z * 2 % sizeMod) (y * 2 % sizeMod)
      (List.range (nx / 2)).foldlM (fun result x => do
        let check_x := (x * 2 + 1) % sizeMod
        let check_y := (y * 2 + 1) % sizeMod
        let check_z := (z * 2 + 1) % sizeMod
        if (← IsInRange m check_x check_y check_z) then
          if (← readCell m check_x check_y check_z) = g.empty_value then
            if (← GetCanDiggingDirs g m check_x check_y check_z).length > 0 then
              some (result ++ [(check_x, check_y, check_z)])
            else some result
          else some result
        else some result) result) result)
    (fun z =>
    (List.range ((sliceSize m (z * 2 % sizeMod)).getD 0 / 2)).flatMap fun y =>
      (List.range ((rowSize m (z * 2 % sizeMod) (y * 2 % sizeMod)).getD 0 / 2)).flatMap fun x =>
        if readCell m ((x * 2 + 1) % sizeMod) ((y * 2 + 1) % sizeMod) ((z * 2 + 1) % sizeMod)
              = some g.empty_value ∧
            digDirs g m ((x * 2 + 1) % sizeMod) ((y * 2 + 1) % sizeMod) ((z * 2 + 1) % sizeMod) ≠ []
        then [((x * 2 + 1) % sizeMod, (y * 2 + 1) % sizeMod, (z * 2 + 1) % sizeMod)]
        else []) ?_ []
  · simpa using h
  · intro z hz r
    have hz1 : z < m.length / 2 := List.mem_range.mp hz
    have hz2 : z * 2 % sizeMod < m.length :=
      lt_of_le_of_lt (Nat.mod_le _ _) (by omega)
    beta_reduce
    rw [sliceSize_of_lt m _ hz2]
    simp only [Option.bind_eq_bind, Option.some_bind, Option.getD_some]
    apply foldlM_push
    intro y hy r
    have hy1 : y < (m[z * 2 % sizeMod]).length / 2 := List.mem_range.mp hy
    have hy2 : y * 2 % sizeMod < (m[z * 2 % sizeMod]).length :=
      lt_of_le_of_lt (Nat.mod_le _ _) (by omega)
    rw [rowSize_of_lt m _ _ hz2 hy2]
    simp only [Option.bind_eq_bind, Option.some_bind, Option.getD_some]
    apply foldlM_push
    intro x hx r
    beta_reduce
    simp only [IsInRange_eq, GetCanDiggingDirs_eq, Option.bind_eq_bind, Option.some_bind, inGrid]
    rw [respawn_if_aux]
    simp [List.length_pos]

theorem mapTake_length {β : Type} (f : β → β) (l : List β) (k : Nat) :
    ((l.take k).map f ++ l.drop k).length = l.length := by
  simp only [List.length_append, List.length_map, List.length_take, List.length_drop]
  omega

theorem mapTake_getElem? {β : Type} (f : β → β) (l : List β) (k i : Nat) :
    ((l.take k).map f ++ l.drop k)[i]? = if i < k then (l[i]?).map f else l[i]? := by
  by_cases hik : i < k
  · by_cases hil : i < l.length
    · rw [List.getElem?_append_left (by simp; omega)]
      simp [hik, List.getElem?_take]
    · have h1 : l[i]? = none := List.getElem?_eq_none (Nat.le_of_not_lt hil)
      rw [List.getElem?_eq_none (by rw [mapTake_length]; omega)]
      simp [hik, h1]
  · by_cases hkl : k ≤ l.length
    · rw [List.getElem?_append_right (by simp; omega)]
      simp only [List.length_map, List.length_take, hik, if_false, List.getElem?_drop]
      congr 1
      omega
    · have h1 : l[i]? = none := List.getElem?_eq_none (by omega)
      rw [List.getElem?_eq_none (by rw [mapTake_length]; omega)]
      simp [hik, h1]

theorem mapTake_step {β : Type} (f : β → β) (l : List β) (k : Nat) (hk : k < l.length) :
    ((l.take k).map f ++ l.drop k).set k (f l[k]) = (l.take (k + 1)).map f ++ l.drop (k + 1) := by
  apply List.ext_getElem?
  intro i
  rw [List.getElem?_set, mapTake_getElem?, mapTake_getElem?, mapTake_length]
  by_cases hik : i = k
  · subst hik
    simp [hk]
  · by_cases h2 : i < k
    · have : i < k + 1 := by omega
      simp [Ne.symm hik, h2, this]
    · have : ¬ i < k + 1 := by omega
      simp [Ne.symm hik, h2, this]

theorem mapTake_zero {β : Type} (f : β → β) (l : List β) :
    (l.take 0).map f ++ l.drop 0 = l := by simp

theorem mapTake_full {β : Type} (f : β → β) (l : List β) :
    (l.take l.length).map f ++ l.drop l.length = l.map f := by simp

theorem fillRow_eq (w : α) (m : Matrix α) (y z : Nat) (slice : List (List α)) (row : List α)
    (hz : z < m.length) (hy : y < slice.length) :
    (List.range row.length).foldlM (fun m x => writeCell m x y z w)
      (m.set z (slice.set y row)) = some (m.set z (slice.set y (row.map fun _ => w))) := by
  obtain ⟨s1, h1, hI⟩ := foldlM_range_inv (fun m x => writeCell m x y z w)
    (fun k s => s = m.set z (slice.set y ((row.take k).map (fun _ => w) ++ row.drop k)))
    row.length (m.set z (slice.set y row)) (by simp) (by
      intro k s hk hs
      subst hs
      refine ⟨_, ?_, rfl⟩
      have hlen : k < ((row.take k).map (fun _ => w) ++ row.drop k).length := by
        rw [mapTake_length]; exact hk
      simp only [writeCell, List.getElem?_set_self hz, List.getElem?_set_self hy,
        Option.bind_eq_bind, Option.some_bind, hlen, if_true, List.set_set]
      rw [← mapTake_step (fun _ => w) row k hk])
  rw [h1, hI, mapTake_full]

theorem mapTake_getElem {β : Type} (f : β → β) (l : List β) (k : Nat) (hk : k < l.length) :
    ((l.take k).map f ++ l.drop k)[k]? = some l[k] := by
  rw [mapTake_getElem?]
  simp [List.getElem?_eq_getElem hk]

theorem set_of_getElem? {β : Type} (l : List β) (k : Nat) (a : β) (h : l[k]? = some a) :
    l.set k a = l := by
  apply List.ext_getElem?
  intro i
  rw [List.getElem?_set]
  by_cases hik : k = i
  · subst hik
    have := (List.getElem?_eq_some.mp h).1
    simp [this, h]
  · simp [hik]

theorem fillSlice_eq (w : α) (m : Matrix α) (z : Nat) (slice : List (List α))
    (hz : z < m.length) :
    (List.range slice.length).foldlM (fun m y => do
        let nx ← rowSize m z y
        (List.range nx).foldlM (fun m x => writeCell m x y z w) m) (m.set z slice)
      = some (m.set z (slice.map fun row => row.map fun _ => w)) := by
  obtain ⟨s1, h1, hI⟩ := foldlM_range_inv (fun m y => do
        let nx ← rowSize m z y
        (List.range nx).foldlM (fun m x => writeCell m x y z w) m)
    (fun k s => s = m.set z ((slice.take k).map (fun row => row.map fun _ => w) ++ slice.drop k))
    slice.length (m.set z slice) (by simp) (by
      intro k s hk hs
      subst hs
      refine ⟨_, ?_, rfl⟩
      have hg := mapTake_getElem (fun row : List α => row.map fun _ => w) slice k hk
      have hlen : k < ((slice.take k).map (fun row : List α => row.map fun _ => w)
          ++ slice.drop k).length := by rw [mapTake_length]; exact hk
      simp only [rowSize, List.getElem?_set_self hz, hg, Option.bind_eq_bind, Option.some_bind]
      rw [← mapTake_step (fun row : List α => row.map fun _ => w) slice k hk]
      rw [← fillRow_eq w m k z _ slice[k] hz hlen, set_of_getElem? _ _ _ hg])
  rw [h1, hI, mapTake_full]

theorem fillWall_eq (g : Digging3DMazeGenerator α) (m : Matrix α) :
    fillWall g m = some (filled g m) := by
  unfold fillWall filled
  obtain ⟨s1, h1, hI⟩ := foldlM_range_inv (fun m z => do
    let ny ← sliceSize m z
    (List.range ny).foldlM (fun m y => do
      let nx ← rowSize m z y
      (List.range nx).foldlM (fun m x => writeCell m x y z g.wall_value) m) m)
    (fun k s => s = (m.take k).map (fun slice => slice.map fun row => row.map fun _ => g.wall_value)
      ++ m.drop k)
    m.length m (by simp) (by
      intro k s hk hs
      subst hs
      refine ⟨_, ?_, rfl⟩
      have hg := mapTake_getElem
        (fun slice : List (List α) => slice.map fun row => row.map fun _ => g.wall_value) m k hk
      have hlen : k < ((m.take k).map
          (fun slice : List (List α) => slice.map fun row => row.map fun _ => g.wall_value)
          ++ m.drop k).length := by rw [mapTake_length]; exact hk
      simp only [sliceSize, hg, Option.bind_eq_bind, Option.some_bind]
      rw [← mapTake_step
        (fun slice : List (List α) => slice.map fun row => row.map fun _ => g.wall_value) m k hk]
      rw [← fillSlice_eq g.wall_value _ k m[k] hlen, set_of_getElem? _ _ _ hg]
      rfl)
  rw [h1, hI, mapTake_full]

theorem loopBody_eq (g : Digging3DMazeGenerator α) (rnd : Nat → Nat) (s : LoopState α) :
    loopBody g rnd s = some (stepPure g rnd s) := by
  unfold loopBody stepPure
  simp only [GetCanDiggingDirs_eq, GetCanRespawnSeedPositions_eq, Option.bind_eq_bind,
    Option.some_bind, SetMazeChip_eq]
  by_cases h1 : digDirs g s.matrix_ s.seed_x s.seed_y s.seed_z = []
  · by_cases h2 : respawnSeeds g s.matrix_ = []
    · simp [h1, h2]
    · have hl : 0 < (respawnSeeds g s.matrix_).length := List.length_pos.mpr h2
      have hi : rnd s.calls % (respawnSeeds g s.matrix_).length < (respawnSeeds g s.matrix_).length :=
        Nat.mod_lt _ hl
      simp [h1, h2, hl, randMod, Nat.ne_of_gt hl, List.getElem?_eq_getElem hi, respawnStep,
        List.getD_eq_getElem _ _ hi]
  · have hl : 0 < (digDirs g s.matrix_ s.seed_x s.seed_y s.seed_z).length := List.length_pos.mpr h1
    have hi : rnd s.calls % (digDirs g s.matrix_ s.seed_x s.seed_y s.seed_z).length
        < (digDirs g s.matrix_ s.seed_x s.seed_y s.seed_z).length := Nat.mod_lt _ hl
    simp [h1, hl, randMod, Nat.ne_of_gt hl, List.getElem?_eq_getElem hi, digStep,
      List.getD_eq_getElem _ _ hi]

theorem whileLoop_finished (g : Digging3DMazeGenerator α) (rnd : Nat → Nat) (fuel : Nat)
    (s : LoopState α) (h : s.finish_flag = true) :
    whileLoop g rnd fuel s = Outcome.returned s.matrix_ := by
  cases fuel <;> simp [whileLoop, h]

theorem whileLoop_zero (g : Digging3DMazeGenerator α) (rnd : Nat → Nat)
    (s : LoopState α) (h : s.finish_flag = false) :
    whileLoop g rnd 0 s = Outcome.outOfFuel := by
  simp [whileLoop, h]

theorem whileLoop_succ (g : Digging3DMazeGenerator α) (rnd : Nat → Nat) (fuel : Nat)
    (s : LoopState α) (h : s.finish_flag = false) :
    whileLoop g rnd (fuel + 1) s = whileLoop g rnd fuel (stepPure g rnd s) := by
  rw [whileLoop]
  simp [h, loopBody_eq]

theorem whileLoop_ne_fault (g : Digging3DMazeGenerator α) (rnd : Nat → Nat) (fuel : Nat)
    (s : LoopState α) : whileLoop g rnd fuel s ≠ Outcome.fault := by
  induction fuel generalizing s with
  | zero =>
    cases h : s.finish_flag
    · rw [whileLoop_zero g rnd s h]; simp
    · rw [whileLoop_finished g rnd 0 s h]; simp
  | succ n ih =>
    cases h : s.finish_flag
    · rw [whileLoop_succ g rnd n s h]; exact ih _
    · rw [whileLoop_finished g rnd _ s h]; simp

theorem sizeCheck_eq (m : Matrix α) :
    sizeCheck m = some (decide (m.length ≤ 2 ∨ (sliceSize m 0).getD 0 ≤ 2
      ∨ (rowSize m 0 0).getD 0 ≤ 2)) := by
  unfold sizeCheck
  by_cases h1 : m.length ≤ 2
  · simp [h1]
  · have hz : 0 < m.length := by omega
    rw [sliceSize_of_lt m 0 hz]
    by_cases h2 : (m[0]).length ≤ 2
    · simp [h1, h2]
    · have hy : 0 < (m[0]).length := by omega
      rw [rowSize_of_lt m 0 0 hz hy]
      simp [h1, h2]

theorem CreateMaze_eq (g : Digging3DMazeGenerator α) (rnd : Nat → Nat) (fuel : Nat)
    (m : Matrix α) :
    CreateMaze g rnd fuel m =
      if (filled g m).length ≤ 2 ∨ (sliceSize (filled g m) 0).getD 0 ≤ 2
          ∨ (rowSize (filled g m) 0 0).getD 0 ≤ 2 then
        Outcome.returned (filled g m)
      else
        whileLoop g rnd fuel (initState (setCell (filled g m) 1 1 1 g.empty_value)) := by
  unfold CreateMaze
  rw [fillWall_eq]
  simp only [sizeCheck_eq, SetMazeChip_eq, initState]
  split_ifs with h <;> simp [h]

/-! ## The coordinate arithmetic of `GetCanDiggingDirs` -/

theorem checkCoord_zero (p : Nat) (h : p < 2 ^ 31) : checkCoord p 0 = p := by
  unfold checkCoord toSize wrapInt toInt
  have h1 : p % 2 ^ 32 = p := Nat.mod_eq_of_lt (by omega)
  rw [h1]
  simp only [h, if_true]
  omega

theorem checkCoord_pos (p : Nat) (h : p + 2 < 2 ^ 31) : checkCoord p 1 = p + 2 := by
  unfold checkCoord toSize wrapInt toInt
  have h1 : p % 2 ^ 32 = p := Nat.mod_eq_of_lt (by omega)
  rw [h1]
  have : p < 2 ^ 31 := by omega
  simp only [this, if_true]
  omega

theorem checkCoord_pos_wrap (p : Nat) (h : p < 2 ^ 31) (h2 : 2 ^ 31 ≤ p + 2) :
    2 ^ 63 ≤ checkCoord p 1 := by
  unfold checkCoord toSize wrapInt toInt
  have h1 : p % 2 ^ 32 = p := Nat.mod_eq_of_lt (by omega)
  rw [h1]
  simp only [h, if_true]
  omega

theorem checkCoord_neg (p : Nat) (h : p < 2 ^ 31) (h2 : 2 ≤ p) : checkCoord p (-1) = p - 2 := by
  unfold checkCoord toSize wrapInt toInt
  have h1 : p % 2 ^ 32 = p := Nat.mod_eq_of_lt (by omega)
  rw [h1]
  simp only [h, if_true]
  omega

theorem checkCoord_neg_wrap (p : Nat) (h : p < 2) : 2 ^ 63 ≤ checkCoord p (-1) := by
  unfold checkCoord toSize wrapInt toInt
  have h1 : p % 2 ^ 32 = p := Nat.mod_eq_of_lt (by omega)
  rw [h1]
  have : p < 2 ^ 31 := by omega
  simp only [this, if_true]
  omega

theorem toSize_zero : toSize 0 = 0 := by decide
theorem toSize_one : toSize 1 = 1 := by decide
theorem toSize_neg_one : toSize (-1) = 2 ^ 64 - 1 := by decide

/-! ## Rectangular grids -/

theorem rect_iff (m : Matrix α) (Dx Dy Dz : Nat) :
    Rect m Dx Dy Dz ↔ m.length = Dz ∧ ∀ (z : Nat) (slice : List (List α)), m[z]? = some slice →
      slice.length = Dy ∧ ∀ (y : Nat) (row : List α), slice[y]? = some row → row.length = Dx := by
  unfold Rect
  constructor
  · rintro ⟨h1, h2⟩
    refine ⟨h1, fun z slice hz => ?_⟩
    have hs := h2 slice (List.mem_iff_getElem?.mpr ⟨z, hz⟩)
    exact ⟨hs.1, fun y row hy => hs.2 row (List.mem_iff_getElem?.mpr ⟨y, hy⟩)⟩
  · rintro ⟨h1, h2⟩
    refine ⟨h1, fun slice hs => ?_⟩
    obtain ⟨z, hz⟩ := List.mem_iff_getElem?.mp hs
    refine ⟨(h2 z slice hz).1, fun row hr => ?_⟩
    obtain ⟨y, hy⟩ := List.mem_iff_getElem?.mp hr
    exact (h2 z slice hz).2 y row hy

theorem rect_inGrid {m : Matrix α} {Dx Dy Dz : Nat} (h : Rect m Dx Dy Dz) (x y z : Nat) :
    inGrid m x y z = true ↔ x < Dx ∧ y < Dy ∧ z < Dz := by
  rw [rect_iff] at h
  obtain ⟨h1, h2⟩ := h
  unfold inGrid readCell
  by_cases hz : z < m.length
  · have hzs := List.getElem?_eq_getElem hz
    have hs := h2 z _ hzs
    by_cases hy : y < (m[z]).length
    · have hys := List.getElem?_eq_getElem hy
      have hr := hs.2 y _ hys
      by_cases hx : x < (m[z][y]).length
      · simp only [hzs, hys, Option.bind_eq_bind, Option.some_bind, List.getElem?_eq_getElem hx,
          Option.isSome_some, true_iff]
        omega
      · simp only [hzs, hys, Option.bind_eq_bind, Option.some_bind,
          List.getElem?_eq_none (Nat.le_of_not_lt hx), Option.isSome_none]
        constructor
        · intro hh; simp at hh
        · intro hh; omega
    · simp only [hzs, Option.bind_eq_bind, Option.some_bind,
        List.getElem?_eq_none (Nat.le_of_not_lt hy), Option.none_bind, Option.isSome_none]
      constructor
      · intro hh; simp at hh
      · intro hh; omega
  · simp only [List.getElem?_eq_none (Nat.le_of_not_lt hz), Option.bind_eq_bind,
      Option.none_bind, Option.isSome_none]
    constructor
    · intro hh; simp at hh
    · intro hh; omega

theorem rect_readCell_some {m : Matrix α} {Dx Dy Dz : Nat} (h : Rect m Dx Dy Dz) {x y z : Nat}
    {v : α} (hv : readCell m x y z = some v) : x < Dx ∧ y < Dy ∧ z < Dz :=
  (rect_inGrid h x y z).mp ((inGrid_iff m x y z).mpr ⟨v, hv⟩)

theorem rect_readCell_exists {m : Matrix α} {Dx Dy Dz : Nat} (h : Rect m Dx Dy Dz) {x y z : Nat}
    (hx : x < Dx) (hy : y < Dy) (hz : z < Dz) : ∃ v, readCell m x y z = some v :=
  (inGrid_iff m x y z).mp ((rect_inGrid h x y z).mpr ⟨hx, hy, hz⟩)

theorem rect_setCell {m : Matrix α} {Dx Dy Dz : Nat} (h : Rect m Dx Dy Dz) (x y z : Nat) (v : α) :
    Rect (setCell m x y z v) Dx Dy Dz := by
  rw [rect_iff] at h ⊢
  obtain ⟨h1, h2⟩ := h
  unfold setCell writeCell
  cases hz : m[z]? with
  | none => simpa using ⟨h1, h2⟩
  | some slice =>
    cases hy : slice[y]? with
    | none => simpa [hy] using ⟨h1, h2⟩
    | some row =>
      by_cases hx : x < row.length
      · simp only [Option.bind_eq_bind, Option.some_bind, hy, hx, if_true, Option.getD_some,
          List.length_set]
        refine ⟨h1, fun c sl hc => ?_⟩
        rw [List.getElem?_set] at hc
        have hsl := h2 z slice hz
        by_cases hcz : z = c
        · subst hcz
          have hzl := (List.getElem?_eq_some.mp hz).1
          simp only [hzl, if_true, Option.some.injEq] at hc
          subst hc
          refine ⟨by simpa using hsl.1, fun b r hb => ?_⟩
          rw [List.getElem?_set] at hb
          by_cases hby : y = b
          · subst hby
            have hyl := (List.getElem?_eq_some.mp hy).1
            simp only [hyl, if_true, Option.some.injEq] at hb
            subst hb
            simpa using hsl.2 y row hy
          · simp only [hby, if_false] at hb
            exact hsl.2 b r hb
        · simp only [hcz, if_false] at hc
          exact h2 c sl hc
      · simpa [hy, hx] using ⟨h1, h2⟩

theorem rect_filled (g : Digging3DMazeGenerator α) {m : Matrix α} {Dx Dy Dz : Nat}
    (h : Rect m Dx Dy Dz) : Rect (filled g m) Dx Dy Dz := by
  unfold Rect filled at *
  refine ⟨by simpa using h.1, ?_⟩
  intro slice hs
  obtain ⟨sl, hsl, rfl⟩ := List.mem_map.mp hs
  refine ⟨by simpa using (h.2 sl hsl).1, ?_⟩
  intro row hr
  obtain ⟨r, hr1, rfl⟩ := List.mem_map.mp hr
  simpa using (h.2 sl hsl).2 r hr1

theorem readCell_filled (g : Digging3DMazeGenerator α) (m : Matrix α) (x y z : Nat) :
    readCell (filled g m) x y z = (readCell m x y z).map fun _ => g.wall_value := by
  unfold readCell filled
  simp only [List.getElem?_map, Option.bind_eq_bind]
  cases m[z]? with
  | none => simp
  | some slice =>
    simp only [Option.map_some', Option.some_bind, List.getElem?_map]
    cases slice[y]? with
    | none => simp
    | some row => simp only [Option.map_some', Option.some_bind, List.getElem?_map]

theorem rect_sizes {m : Matrix α} {Dx Dy Dz : Nat} (h : Rect m Dx Dy Dz) :
    (m.length ≤ 2 ∨ (sliceSize m 0).getD 0 ≤ 2 ∨ (rowSize m 0 0).getD 0 ≤ 2)
      ↔ (Dz ≤ 2 ∨ Dy ≤ 2 ∨ Dx ≤ 2) := by
  rw [rect_iff] at h
  obtain ⟨h1, h2⟩ := h
  by_cases hz : 0 < m.length
  · have hzs := List.getElem?_eq_getElem hz
    have hs := h2 0 _ hzs
    rw [sliceSize_of_lt m 0 hz]
    by_cases hy : 0 < (m[0]).length
    · have hys := List.getElem?_eq_getElem hy
      have hr := hs.2 0 _ hys
      rw [rowSize_of_lt m 0 0 hz hy]
      simp only [Option.getD_some]
      omega
    · simp only [Option.getD_some]
      omega
  · omega


theorem readCell_none_of_ge {m : Matrix α} {Dx Dy Dz : Nat} (h : Rect m Dx Dy Dz) (x y z : Nat)
    (hge : Dx ≤ x ∨ Dy ≤ y ∨ Dz ≤ z) : readCell m x y z = none := by
  cases hr : readCell m x y z with
  | none => rfl
  | some v =>
    have := rect_readCell_some h hr
    omega

theorem move_neg (p : Nat) (h2 : 1 ≤ p) (h : p < 2 ^ 31) :
    (p + toSize (-1)) % sizeMod = p - 1 ∧
      (2 ≤ p → (p + toSize (-1) * 2 % sizeMod) % sizeMod = p - 2) := by
  rw [toSize_neg_one]
  unfold sizeMod
  constructor
  · omega
  · intro h3; omega

theorem move_pos (p : Nat) (h : p < 2 ^ 31) :
    (p + toSize 1) % sizeMod = p + 1 ∧ (p + toSize 1 * 2 % sizeMod) % sizeMod = p + 2 := by
  rw [toSize_one]
  unfold sizeMod
  constructor <;> omega

theorem move_zero (p : Nat) (h : p < 2 ^ 31) :
    (p + toSize 0) % sizeMod = p ∧ (p + toSize 0 * 2 % sizeMod) % sizeMod = p := by
  rw [toSize_zero]
  unfold sizeMod
  constructor <;> omega

theorem lim_lt (D p : Nat) : p < lim D ↔ p < D ∧ p < 2 ^ 31 := by
  unfold lim
  exact lt_min_iff

theorem mem_digDirs (g : Digging3DMazeGenerator α) (m : Matrix α) (x y z : Nat) (t : Triple) :
    t ∈ digDirs g m x y z ↔ ∃ dir ∈ dirs,
      readCell m (checkCoord x dir.1) (checkCoord y dir.2.1) (checkCoord z dir.2.2)
        = some g.wall_value ∧ dirTriple dir = t := by
  simp only [digDirs, List.mem_map, List.mem_filter, decide_eq_true_eq]
  constructor
  · rintro ⟨dir, ⟨hd, hr⟩, ht⟩
    exact ⟨dir, hd, hr, ht⟩
  · rintro ⟨dir, hd, hr, ht⟩
    exact ⟨dir, ⟨hd, hr⟩, ht⟩

theorem digMid_def (x y z : Nat) (t : Triple) :
    digMid x y z t = ((x + t.1) % sizeMod, (y + t.2.1) % sizeMod, (z + t.2.2) % sizeMod) := rfl

theorem digTarget_def (x y z : Nat) (t : Triple) :
    digTarget x y z t = ((x + t.1 * 2 % sizeMod) % sizeMod, (y + t.2.1 * 2 % sizeMod) % sizeMod,
      (z + t.2.2 * 2 % sizeMod) % sizeMod) := rfl

theorem axis_neg {D p : Nat} (hp : p < lim D) (hD : D < 2 ^ 63) (hc : checkCoord p (-1) < D) :
    2 ≤ p ∧ checkCoord p (-1) = p - 2 := by
  rw [lim_lt] at hp
  by_cases h2 : 2 ≤ p
  · exact ⟨h2, checkCoord_neg p hp.2 h2⟩
  · have := checkCoord_neg_wrap p (by omega)
    omega

theorem axis_pos {D p : Nat} (hp : p < lim D) (hD : D < 2 ^ 63) (hc : checkCoord p 1 < D) :
    p + 2 < lim D ∧ checkCoord p 1 = p + 2 := by
  rw [lim_lt] at hp
  rw [lim_lt]
  by_cases h2 : p + 2 < 2 ^ 31
  · have := checkCoord_pos p h2
    omega
  · have := checkCoord_pos_wrap p hp.2 (by omega)
    omega

theorem axis_zero {D p : Nat} (hp : p < lim D) : checkCoord p 0 = p := by
  rw [lim_lt] at hp
  exact checkCoord_zero p hp.2


theorem digDirs_link (g : Digging3DMazeGenerator α) {m : Matrix α} {Dx Dy Dz : Nat}
    (hr : Rect m Dx Dy Dz) (hDx : Dx < 2 ^ 63) (hDy : Dy < 2 ^ 63) (hDz : Dz < 2 ^ 63)
    {x y z : Nat} (hx : x < lim Dx) (hy : y < lim Dy) (hz : z < lim Dz) {t : Triple}
    (ht : t ∈ digDirs g m x y z) :
    Link (x, y, z) (digMid x y z t) (digTarget x y z t) ∧
      (digTarget x y z t).1 < lim Dx ∧ (digTarget x y z t).2.1 < lim Dy ∧
      (digTarget x y z t).2.2 < lim Dz ∧
      cellAt m (digTarget x y z t) = some g.wall_value := by
  obtain ⟨dir, hd, hc, rfl⟩ := (mem_digDirs g m x y z t).mp ht
  have hb := rect_readCell_some hr hc
  have hx1 := (lim_lt Dx x).mp hx
  have hy1 := (lim_lt Dy y).mp hy
  have hz1 := (lim_lt Dz z).mp hz
  have zx := move_zero x hx1.2
  have zy := move_zero y hy1.2
  have zz := move_zero z hz1.2
  have px := move_pos x hx1.2
  have py := move_pos y hy1.2
  have pz := move_pos z hz1.2
  simp only [dirs, List.mem_cons, List.mem_singleton, List.not_mem_nil, or_false] at hd
  rcases hd with rfl | rfl | rfl | rfl | rfl | rfl
  · dsimp only at hb hc
    obtain ⟨h2, he⟩ := axis_neg hx hDx hb.1
    have nx := move_neg x (by omega) hx1.2
    simp only [axis_zero hy, axis_zero hz, he] at hc
    simp only [digMid, digTarget, dirTriple, cellAt, Link, Between, nx.1, nx.2 h2, zy.1, zy.2,
      zz.1, zz.2, hc]
    refine ⟨?_, ?_, hy, hz, trivial⟩
    · left; refine ⟨?_, ?_, ?_, ?_, ?_⟩ <;> first | trivial | omega
    · rw [lim_lt]; omega
  · dsimp only at hb hc
    obtain ⟨h2, he⟩ := axis_pos hx hDx hb.1
    simp only [axis_zero hy, axis_zero hz, he] at hc
    simp only [digMid, digTarget, dirTriple, cellAt, Link, Between, px.1, px.2, zy.1, zy.2,
      zz.1, zz.2, hc]
    refine ⟨?_, h2, hy, hz, trivial⟩
    left; refine ⟨?_, ?_, ?_, ?_, ?_⟩ <;> first | trivial | omega | simp
  · dsimp only at hb hc
    obtain ⟨h2, he⟩ := axis_neg hy hDy hb.2.1
    have ny := move_neg y (by omega) hy1.2
    simp only [axis_zero hx, axis_zero hz, he] at hc
    simp only [digMid, digTarget, dirTriple, cellAt, Link, Between, ny.1, ny.2 h2, zx.1, zx.2,
      zz.1, zz.2, hc]
    refine ⟨?_, hx, ?_, hz, trivial⟩
    · right; left; refine ⟨?_, ?_, ?_, ?_, ?_⟩ <;> first | trivial | omega
    · rw [lim_lt]; omega
  · dsimp only at hb hc
    obtain ⟨h2, he⟩ := axis_pos hy hDy hb.2.1
    simp only [axis_zero hx, axis_zero hz, he] at hc
    simp only [digMid, digTarget, dirTriple, cellAt, Link, Between, py.1, py.2, zx.1, zx.2,
      zz.1, zz.2, hc]
    refine ⟨?_, hx, h2, hz, trivial⟩
    right; left; refine ⟨?_, ?_, ?_, ?_, ?_⟩ <;> first | trivial | omega | simp
  · dsimp only at hb hc
    obtain ⟨h2, he⟩ := axis_neg hz hDz hb.2.2
    have nz := move_neg z (by omega) hz1.2
    simp only [axis_zero hx, axis_zero hy, he] at hc
    simp only [digMid, digTarget, dirTriple, cellAt, Link, Between, nz.1, nz.2 h2, zx.1, zx.2,
      zy.1, zy.2, hc]
    refine ⟨?_, hx, hy, ?_, trivial⟩
    · right; right; refine ⟨?_, ?_, ?_, ?_, ?_⟩ <;> first | trivial | omega
    · rw [lim_lt]; omega
  · dsimp only at hb hc
    obtain ⟨h2, he⟩ := axis_pos hz hDz hb.2.2
    simp only [axis_zero hx, axis_zero hy, he] at hc
    simp only [digMid, digTarget, dirTriple, cellAt, Link, Between, pz.1, pz.2, zx.1, zx.2,
      zy.1, zy.2, hc]
    refine ⟨?_, hx, hy, h2, trivial⟩
    right; right; refine ⟨?_, ?_, ?_, ?_, ?_⟩ <;> first | trivial | omega | simp

theorem digDirs_ne_nil (g : Digging3DMazeGenerator α) (m : Matrix α)
    {x y z : Nat} (hx : x < 2 ^ 31) (hy : y < 2 ^ 31) (hz : z < 2 ^ 31) {mid q : Triple}
    (hq : q.1 < 2 ^ 31 ∧ q.2.1 < 2 ^ 31 ∧ q.2.2 < 2 ^ 31)
    (hl : Link (x, y, z) mid q) (hw : cellAt m q = some g.wall_value) :
    digDirs g m x y z ≠ [] := by
  obtain ⟨qx, qy, qz⟩ := q
  obtain ⟨mx, my, mz⟩ := mid
  simp only [Link, Between, cellAt] at hl hw hq
  have key : ∃ dir ∈ dirs, readCell m (checkCoord x dir.1) (checkCoord y dir.2.1)
      (checkCoord z dir.2.2) = some g.wall_value := by
    rcases hl with ⟨h1 | h1, h2, h3, h4, h5⟩ | ⟨h2, h3, h1 | h1, h4, h5⟩ | ⟨h2, h3, h4, h5, h1 | h1⟩
    · refine ⟨(1, 0, 0), by simp [dirs], ?_⟩
      have e1 : checkCoord x 1 = qx := by rw [checkCoord_pos x (by omega)]; omega
      rw [e1, checkCoord_zero y hy, checkCoord_zero z hz, ← h3, ← h5]; exact hw
    · refine ⟨(-1, 0, 0), by simp [dirs], ?_⟩
      have e1 : checkCoord x (-1) = qx := by rw [checkCoord_neg x hx (by omega)]; omega
      rw [e1, checkCoord_zero y hy, checkCoord_zero z hz, ← h3, ← h5]; exact hw
    · refine ⟨(0, 1, 0), by simp [dirs], ?_⟩
      have e1 : checkCoord y 1 = qy := by rw [checkCoord_pos y (by omega)]; omega
      rw [e1, checkCoord_zero x hx, checkCoord_zero z hz, ← h3, ← h5]; exact hw
    · refine ⟨(0, -1, 0), by simp [dirs], ?_⟩
      have e1 : checkCoord y (-1) = qy := by rw [checkCoord_neg y hy (by omega)]; omega
      rw [e1, checkCoord_zero x hx, checkCoord_zero z hz, ← h3, ← h5]; exact hw
    · refine ⟨(0, 0, 1), by simp [dirs], ?_⟩
      have e1 : checkCoord z 1 = qz := by rw [checkCoord_pos z (by omega)]; omega
      rw [e1, checkCoord_zero x hx, checkCoord_zero y hy, ← h3, ← h5]; exact hw
    · refine ⟨(0, 0, -1), by simp [dirs], ?_⟩
      have e1 : checkCoord z (-1) = qz := by rw [checkCoord_neg z hz (by omega)]; omega
      rw [e1, checkCoord_zero x hx, checkCoord_zero y hy, ← h3, ← h5]; exact hw
  obtain ⟨dir, hd, hc⟩ := key
  exact List.ne_nil_of_mem ((mem_digDirs g m x y z (dirTriple dir)).mpr ⟨dir, hd, hc, rfl⟩)

theorem rect_sliceSize {m : Matrix α} {Dx Dy Dz : Nat} (h : Rect m Dx Dy Dz) {z : Nat}
    (hz : z < Dz) : sliceSize m z = some Dy := by
  rw [rect_iff] at h
  have hz1 : z < m.length := by omega
  rw [sliceSize_of_lt m z hz1, (h.2 z _ (List.getElem?_eq_getElem hz1)).1]

theorem rect_rowSize {m : Matrix α} {Dx Dy Dz : Nat} (h : Rect m Dx Dy Dz) {z y : Nat}
    (hz : z < Dz) (hy : y < Dy) : rowSize m z y = some Dx := by
  rw [rect_iff] at h
  have hz1 : z < m.length := by omega
  have hs := h.2 z _ (List.getElem?_eq_getElem hz1)
  have hy1 : y < (m[z]).length := by omega
  rw [rowSize_of_lt m z y hz1 hy1, hs.2 y _ (List.getElem?_eq_getElem hy1)]

theorem mem_respawnSeeds (g : Digging3DMazeGenerator α) {m : Matrix α} {Dx Dy Dz : Nat}
    (hr : Rect m Dx Dy Dz) (hDx : Dx < 2 ^ 63) (hDy : Dy < 2 ^ 63) (hDz : Dz < 2 ^ 63)
    (p : Triple) :
    p ∈ respawnSeeds g m ↔ isRoom p.1 p.2.1 p.2.2 ∧ cellAt m p = some g.empty_value ∧
      digDirs g m p.1 p.2.1 p.2.2 ≠ [] := by
  have hlen : m.length = Dz := hr.1
  unfold respawnSeeds
  simp only [List.mem_flatMap, List.mem_range]
  constructor
  · rintro ⟨z, hz, y, hy, x, hx, hp⟩
    rw [hlen] at hz
    have ez : z * 2 % sizeMod = z * 2 := Nat.mod_eq_of_lt (by unfold sizeMod; omega)
    have ez1 : (z * 2 + 1) % sizeMod = z * 2 + 1 := Nat.mod_eq_of_lt (by unfold sizeMod; omega)
    rw [ez, rect_sliceSize hr (by omega : z * 2 < Dz)] at hy
    simp only [Option.getD_some] at hy
    have ey : y * 2 % sizeMod = y * 2 := Nat.mod_eq_of_lt (by unfold sizeMod; omega)
    have ey1 : (y * 2 + 1) % sizeMod = y * 2 + 1 := Nat.mod_eq_of_lt (by unfold sizeMod; omega)
    rw [ez, ey, rect_rowSize hr (by omega : z * 2 < Dz) (by omega : y * 2 < Dy)] at hx
    simp only [Option.getD_some] at hx
    have ex1 : (x * 2 + 1) % sizeMod = x * 2 + 1 := Nat.mod_eq_of_lt (by unfold sizeMod; omega)
    rw [ex1, ey1, ez1] at hp
    split_ifs at hp with hc
    · simp only [List.mem_singleton] at hp
      subst hp
      refine ⟨?_, hc.1, hc.2⟩
      unfold isRoom
      dsimp only
      omega
    · simp at hp
  · rintro ⟨hroom, hc, hd⟩
    obtain ⟨x, y, z⟩ := p
    unfold isRoom at hroom
    simp only [cellAt] at hroom hc hd
    have hb := rect_readCell_some hr hc
    have ez : z / 2 * 2 % sizeMod = z / 2 * 2 := Nat.mod_eq_of_lt (by unfold sizeMod; omega)
    have ez1 : (z / 2 * 2 + 1) % sizeMod = z := by
      rw [Nat.mod_eq_of_lt (by unfold sizeMod; omega)]; omega
    have ey : y / 2 * 2 % sizeMod = y / 2 * 2 := Nat.mod_eq_of_lt (by unfold sizeMod; omega)
    have ey1 : (y / 2 * 2 + 1) % sizeMod = y := by
      rw [Nat.mod_eq_of_lt (by unfold sizeMod; omega)]; omega
    have ex1 : (x / 2 * 2 + 1) % sizeMod = x := by
      rw [Nat.mod_eq_of_lt (by unfold sizeMod; omega)]; omega
    refine ⟨z / 2, by omega, y / 2, ?_, x / 2, ?_, ?_⟩
    · rw [ez, rect_sliceSize hr (by omega : z / 2 * 2 < Dz)]
      simp only [Option.getD_some]; omega
    · rw [ez, ey, rect_rowSize hr (by omega : z / 2 * 2 < Dz) (by omega : y / 2 * 2 < Dy)]
      simp only [Option.getD_some]; omega
    · rw [ex1, ey1, ez1]
      simp [hc, hd]

/-! ## The loop invariant is kept -/

theorem link_parity {p mid q : Triple} (hl : Link p mid q) (hp : isRoom p.1 p.2.1 p.2.2) :
    isRoom q.1 q.2.1 q.2.2 ∧ isLink mid.1 mid.2.1 mid.2.2 := by
  obtain ⟨px, py, pz⟩ := p
  obtain ⟨mx, my, mz⟩ := mid
  obtain ⟨qx, qy, qz⟩ := q
  simp only [Link, Between, isRoom, isLink, evenCount] at *
  omega

theorem between_symm {a c b : Nat} (h : Between a c b) : Between b c a := by
  unfold Between at *
  omega

theorem link_symm {p mid q : Triple} (hl : Link p mid q) : Link q mid p := by
  obtain ⟨px, py, pz⟩ := p
  obtain ⟨mx, my, mz⟩ := mid
  obtain ⟨qx, qy, qz⟩ := q
  simp only [Link] at *
  rcases hl with ⟨h1, h2, h3, h4, h5⟩ | ⟨h2, h3, h1, h4, h5⟩ | ⟨h2, h3, h4, h5, h1⟩
  · exact Or.inl ⟨between_symm h1, by omega, by omega, by omega, by omega⟩
  · exact Or.inr (Or.inl ⟨by omega, by omega, between_symm h1, by omega, by omega⟩)
  · exact Or.inr (Or.inr ⟨by omega, by omega, by omega, by omega, between_symm h1⟩)

theorem link_unique {p mid q p1 q1 : Triple} (hl : Link p mid q) (hl1 : Link p1 mid q1)
    (hp : isRoom p.1 p.2.1 p.2.2) (hp1 : isRoom p1.1 p1.2.1 p1.2.2) :
    (p1 = p ∧ q1 = q) ∨ (p1 = q ∧ q1 = p) := by
  obtain ⟨px, py, pz⟩ := p
  obtain ⟨mx, my, mz⟩ := mid
  obtain ⟨qx, qy, qz⟩ := q
  obtain ⟨ax, ay, az⟩ := p1
  obtain ⟨bx, b_y, bz⟩ := q1
  simp only [Link, isRoom, Prod.mk.injEq] at *
  rcases hl with ⟨h1, h2, h3, h4, h5⟩ | ⟨h2, h3, h1, h4, h5⟩ | ⟨h2, h3, h4, h5, h1⟩ <;>
  rcases hl1 with ⟨k1, k2, k3, k4, k5⟩ | ⟨k2, k3, k1, k4, k5⟩ | ⟨k2, k3, k4, k5, k1⟩ <;>
  unfold Between at h1 k1 <;>
  rcases h1 with ⟨h6, h7⟩ | ⟨h6, h7⟩ <;>
  rcases k1 with ⟨k6, k7⟩ | ⟨k6, k7⟩ <;>
  omega

theorem link_mid_lt {p mid q : Triple} (hl : Link p mid q) {Lx Ly Lz : Nat}
    (hp : p.1 < Lx ∧ p.2.1 < Ly ∧ p.2.2 < Lz) (hq : q.1 < Lx ∧ q.2.1 < Ly ∧ q.2.2 < Lz) :
    mid.1 < Lx ∧ mid.2.1 < Ly ∧ mid.2.2 < Lz := by
  obtain ⟨px, py, pz⟩ := p
  obtain ⟨mx, my, mz⟩ := mid
  obtain ⟨qx, qy, qz⟩ := q
  simp only [Link, Between] at *
  omega

theorem link_ne {p mid q : Triple} (hl : Link p mid q) : mid ≠ q ∧ mid ≠ p ∧ p ≠ q := by
  obtain ⟨px, py, pz⟩ := p
  obtain ⟨mx, my, mz⟩ := mid
  obtain ⟨qx, qy, qz⟩ := q
  simp only [Link, Between, ne_eq, Prod.mk.injEq] at *
  omega

theorem room_not_link {x y z : Nat} (h : isRoom x y z) : ¬ isLink x y z := by
  simp only [isRoom, isLink, evenCount] at *
  omega

theorem room_not_pillar {x y z : Nat} (h : isRoom x y z) : ¬ isPillar x y z := by
  simp only [isRoom, isPillar, evenCount] at *
  omega

theorem link_not_pillar {x y z : Nat} (h : isLink x y z) : ¬ isPillar x y z := by
  simp only [isLink, isPillar] at *
  omega

theorem setCell_same (m : Matrix α) (x y z : Nat) (v : α) (h : readCell m x y z = some v) :
    setCell m x y z v = m := by
  unfold setCell writeCell
  unfold readCell at h
  cases hz : m[z]? with
  | none => simp
  | some slice =>
    rw [hz] at h
    simp only [Option.bind_eq_bind, Option.some_bind] at h ⊢
    cases hy : slice[y]? with
    | none => simp
    | some row =>
      rw [hy] at h
      simp only [Option.some_bind] at h ⊢
      have hx : x < row.length := (List.getElem?_eq_some.mp h).1
      simp only [hx, if_true, Option.getD_some]
      rw [set_of_getElem? row x v h, set_of_getElem? slice y row hy, set_of_getElem? m z slice hz]

theorem readCell_dig {m : Matrix α} {Dx Dy Dz : Nat} (hr : Rect m Dx Dy Dz) (mid q : Triple)
    (hm : mid.1 < Dx ∧ mid.2.1 < Dy ∧ mid.2.2 < Dz) (hq : q.1 < Dx ∧ q.2.1 < Dy ∧ q.2.2 < Dz)
    (v : α) (a b c : Nat) :
    readCell (setCell (setCell m mid.1 mid.2.1 mid.2.2 v) q.1 q.2.1 q.2.2 v) a b c =
      if (a, b, c) = q ∨ (a, b, c) = mid then some v else readCell m a b c := by
  have h1 : inGrid m mid.1 mid.2.1 mid.2.2 = true := (rect_inGrid hr _ _ _).mpr hm
  have h2 : inGrid (setCell m mid.1 mid.2.1 mid.2.2 v) q.1 q.2.1 q.2.2 = true :=
    (rect_inGrid (rect_setCell hr _ _ _ v) _ _ _).mpr hq
  rw [readCell_setCell, readCell_setCell]
  simp only [h1, h2, true_and]
  obtain ⟨qx, qy, qz⟩ := q
  obtain ⟨mx, my, mz⟩ := mid
  simp only [Prod.mk.injEq]
  by_cases hq1 : a = qx ∧ b = qy ∧ c = qz
  · simp [hq1]
  · by_cases hm1 : a = mx ∧ b = my ∧ c = mz
    · simp [hq1, hm1]
    · simp [hq1, hm1]

theorem inv_seed_lim {g : Digging3DMazeGenerator α} {Dx Dy Dz : Nat} {s : LoopState α}
    (hI : Inv g Dx Dy Dz s) :
    s.seed_x < lim Dx ∧ s.seed_y < lim Dy ∧ s.seed_z < lim Dz := by
  have h1 := rect_readCell_some hI.rect hI.seed_empty
  have h2 := hI.box _ _ _ hI.seed_empty
  simp only [lim_lt]
  omega

/-- What a dig from the seed in a returned direction `t` meets: the target is a room cell
inside the box that holds `wall_value`, and so does the corridor cell before it. -/
theorem dig_facts {g : Digging3DMazeGenerator α} (hne : g.empty_value ≠ g.wall_value)
    {Dx Dy Dz : Nat} (hDx : Dx < 2 ^ 63) (hDy : Dy < 2 ^ 63) (hDz : Dz < 2 ^ 63)
    {s : LoopState α} (hI : Inv g Dx Dy Dz s) {t : Triple}
    (ht : t ∈ digDirs g s.matrix_ s.seed_x s.seed_y s.seed_z) :
    Link (s.seed_x, s.seed_y, s.seed_z) (digMid s.seed_x s.seed_y s.seed_z t)
        (digTarget s.seed_x s.seed_y s.seed_z t) ∧
      ((digTarget s.seed_x s.seed_y s.seed_z t).1 < lim Dx ∧
        (digTarget s.seed_x s.seed_y s.seed_z t).2.1 < lim Dy ∧
        (digTarget s.seed_x s.seed_y s.seed_z t).2.2 < lim Dz) ∧
      ((digMid s.seed_x s.seed_y s.seed_z t).1 < lim Dx ∧
        (digMid s.seed_x s.seed_y s.seed_z t).2.1 < lim Dy ∧
        (digMid s.seed_x s.seed_y s.seed_z t).2.2 < lim Dz) ∧
      cellAt s.matrix_ (digTarget s.seed_x s.seed_y s.seed_z t) = some g.wall_value ∧
      cellAt s.matrix_ (digMid s.seed_x s.seed_y s.seed_z t) = some g.wall_value ∧
      isRoom (digTarget s.seed_x s.seed_y s.seed_z t).1 (digTarget s.seed_x s.seed_y s.seed_z t).2.1
        (digTarget s.seed_x s.seed_y s.seed_z t).2.2 ∧
      isLink (digMid s.seed_x s.seed_y s.seed_z t).1 (digMid s.seed_x s.seed_y s.seed_z t).2.1
        (digMid s.seed_x s.seed_y s.seed_z t).2.2 := by
  have hs := inv_seed_lim hI
  obtain ⟨hl, hq1, hq2, hq3, hw⟩ := digDirs_link g hI.rect hDx hDy hDz hs.1 hs.2.1 hs.2.2 ht
  have hpar := link_parity hl hI.seed_room
  have hmid := link_mid_lt hl (p := (s.seed_x, s.seed_y, s.seed_z)) hs ⟨hq1, hq2, hq3⟩
  refine ⟨hl, ⟨hq1, hq2, hq3⟩, hmid, hw, ?_, hpar.1, hpar.2⟩
  have hmid2 := hmid
  simp only [lim_lt] at hmid2
  obtain ⟨v, hv⟩ := rect_readCell_exists hI.rect hmid2.1.1 hmid2.2.1.1 hmid2.2.2.1
  rcases hI.vals _ _ _ v hv with rfl | rfl
  · exact hv
  · exfalso
    have := hI.links _ _ _ hl hI.seed_room hv
    rw [hw] at this
    exact hne (Option.some.inj this).symm

theorem adj_mono {g : Digging3DMazeGenerator α} {m m1 : Matrix α}
    (hmono : ∀ p, cellAt m p = some g.empty_value → cellAt m1 p = some g.empty_value)
    {a b : Triple} (h : Adj g m a b) : Adj g m1 a b := by
  obtain ⟨h1, h2, h3, h4, mid, h5, h6⟩ := h
  exact ⟨h1, h2, hmono _ h3, hmono _ h4, mid, h5, hmono _ h6⟩

theorem reach_mono {g : Digging3DMazeGenerator α} {m m1 : Matrix α}
    (hmono : ∀ p, cellAt m p = some g.empty_value → cellAt m1 p = some g.empty_value)
    {a b : Triple} (h : Relation.ReflTransGen (Adj g m) a b) :
    Relation.ReflTransGen (Adj g m1) a b :=
  Relation.ReflTransGen.mono (fun _ _ hab => adj_mono hmono hab) h

theorem emptyRooms_insert {g : Digging3DMazeGenerator α} {m m1 : Matrix α} {Dx Dy Dz : Nat}
    {mid q : Triple} (hq : q ∈ cells Dx Dy Dz) (hqr : isRoom q.1 q.2.1 q.2.2)
    (hml : isLink mid.1 mid.2.1 mid.2.2)
    (hread : ∀ p, cellAt m1 p = if p = q ∨ p = mid then some g.empty_value else cellAt m p) :
    emptyRooms g m1 Dx Dy Dz = insert q (emptyRooms g m Dx Dy Dz) := by
  ext p
  simp only [emptyRooms, Finset.mem_filter, Finset.mem_insert, hread]
  by_cases hpq : p = q
  · subst hpq
    simp [hq, hqr]
  · by_cases hpm : p = mid
    · subst hpm
      have := fun h => room_not_link h hml
      simp only [hpq, false_or, true_or, if_true]
      constructor
      · intro h; exact absurd h.2.1 this
      · intro h; exact absurd h.2.1 this
    · simp [hpq, hpm]

theorem emptyLinks_insert {g : Digging3DMazeGenerator α} {m m1 : Matrix α} {Dx Dy Dz : Nat}
    {mid q : Triple} (hm : mid ∈ cells Dx Dy Dz) (hqr : isRoom q.1 q.2.1 q.2.2)
    (hml : isLink mid.1 mid.2.1 mid.2.2)
    (hread : ∀ p, cellAt m1 p = if p = q ∨ p = mid then some g.empty_value else cellAt m p) :
    emptyLinks g m1 Dx Dy Dz = insert mid (emptyLinks g m Dx Dy Dz) := by
  ext p
  simp only [emptyLinks, Finset.mem_filter, Finset.mem_insert, hread]
  by_cases hpm : p = mid
  · subst hpm
    simp [hm, hml]
  · by_cases hpq : p = q
    · subst hpq
      have := room_not_link hqr
      simp only [hpm, false_or, true_or, if_true]
      constructor
      · intro h; exact absurd h.2.1 this
      · intro h; exact absurd h.2.1 this
    · simp [hpq, hpm]

theorem mem_cells (Dx Dy Dz : Nat) (p : Triple) :
    p ∈ cells Dx Dy Dz ↔ p.1 < Dx ∧ p.2.1 < Dy ∧ p.2.2 < Dz := by
  simp [cells, Finset.mem_product]

theorem inv_dig {g : Digging3DMazeGenerator α} (hne : g.empty_value ≠ g.wall_value)
    {Dx Dy Dz : Nat} (hDx : Dx < 2 ^ 63) (hDy : Dy < 2 ^ 63) (hDz : Dz < 2 ^ 63)
    {s : LoopState α} (hI : Inv g Dx Dy Dz s) (hf : s.finish_flag = false) {t : Triple}
    (ht : t ∈ digDirs g s.matrix_ s.seed_x s.seed_y s.seed_z) :
    Inv g Dx Dy Dz (digStep g s t) := by
  obtain ⟨hl, hq, hm, hwq, hwm, hqr, hml⟩ := dig_facts hne hDx hDy hDz hI ht
  generalize hmid : digMid s.seed_x s.seed_y s.seed_z t = mid at hl hq hm hwq hwm hqr hml
  generalize hqq : digTarget s.seed_x s.seed_y s.seed_z t = q at hl hq hm hwq hwm hqr hml
  have hmat : (digStep g s t).matrix_ =
      setCell (setCell s.matrix_ mid.1 mid.2.1 mid.2.2 g.empty_value) q.1 q.2.1 q.2.2
        g.empty_value := by
    rw [← hmid, ← hqq]; rfl
  have hsx : (digStep g s t).seed_x = q.1 := by rw [← hqq]; rfl
  have hsy : (digStep g s t).seed_y = q.2.1 := by rw [← hqq]; rfl
  have hsz : (digStep g s t).seed_z = q.2.2 := by rw [← hqq]; rfl
  have hfl : (digStep g s t).finish_flag = false := hf
  have hq2 := hq
  have hm2 := hm
  simp only [lim_lt] at hq2 hm2
  have hread : ∀ a b c, readCell (digStep g s t).matrix_ a b c =
      if (a, b, c) = q ∨ (a, b, c) = mid then some g.empty_value else readCell s.matrix_ a b c := by
    intro a b c
    rw [hmat]
    exact readCell_dig hI.rect mid q ⟨hm2.1.1, hm2.2.1.1, hm2.2.2.1⟩
      ⟨hq2.1.1, hq2.2.1.1, hq2.2.2.1⟩ g.empty_value a b c
  have hreadT : ∀ p, cellAt (digStep g s t).matrix_ p =
      if p = q ∨ p = mid then some g.empty_value else cellAt s.matrix_ p := by
    intro p
    exact hread p.1 p.2.1 p.2.2
  have hmono : ∀ p, cellAt s.matrix_ p = some g.empty_value →
      cellAt (digStep g s t).matrix_ p = some g.empty_value := by
    intro p hp
    rw [hreadT]
    split_ifs
    · rfl
    · exact hp
  have hqe : cellAt (digStep g s t).matrix_ q = some g.empty_value := by
    rw [hreadT]; simp
  have hme : cellAt (digStep g s t).matrix_ mid = some g.empty_value := by
    rw [hreadT]; simp
  have hqc : q ∈ cells Dx Dy Dz := (mem_cells _ _ _ q).mpr ⟨hq2.1.1, hq2.2.1.1, hq2.2.2.1⟩
  have hmc : mid ∈ cells Dx Dy Dz := (mem_cells _ _ _ mid).mpr ⟨hm2.1.1, hm2.2.1.1, hm2.2.2.1⟩
  have hse : cellAt s.matrix_ (s.seed_x, s.seed_y, s.seed_z) = some g.empty_value := hI.seed_empty
  refine ⟨?_, ?_, ?_, ?_, ?_, ?_, ?_, ?_, ?_, ?_, ?_⟩
  · rw [hmat]
    exact rect_setCell (rect_setCell hI.rect _ _ _ _) _ _ _ _
  · intro x y z v hv
    rw [hread] at hv
    split_ifs at hv
    · right; exact (Option.some.inj hv).symm
    · exact hI.vals x y z v hv
  · rw [hsx, hsy, hsz]; exact hqr
  · rw [hsx, hsy, hsz]; exact hqe
  · intro x y z hv
    rw [hread] at hv
    split_ifs at hv with hc
    · rcases hc with hc | hc
      · rw [← hc] at hq2 hqr
        exact ⟨hq2.1.2, hq2.2.1.2, hq2.2.2.2, room_not_pillar hqr⟩
      · rw [← hc] at hm2 hml
        exact ⟨hm2.1.2, hm2.2.1.2, hm2.2.2.2, link_not_pillar hml⟩
    · exact hI.box x y z hv
  · intro p1 mid1 q1 hl1 hp1 hv
    rw [hreadT] at hv
    split_ifs at hv with hc
    · rcases hc with hc | hc
      · exfalso
        rw [hc] at hl1
        exact room_not_link hqr (link_parity hl1 hp1).2
      · rw [hc] at hl1
        rcases link_unique hl hl1 hI.seed_room hp1 with ⟨_, h2⟩ | ⟨_, h2⟩
        · rw [h2]; exact hqe
        · rw [h2]; exact hmono _ hse
    · exact hmono _ (hI.links p1 mid1 q1 hl1 hp1 hv)
  · exact hmono (1, 1, 1) hI.origin
  · intro x y z hroom hv
    rw [hread] at hv
    split_ifs at hv with hc
    · rcases hc with hc | hc
      · rw [hc]
        refine Relation.ReflTransGen.tail
          (reach_mono hmono (hI.conn _ _ _ hI.seed_room hI.seed_empty)) ?_
        exact ⟨hI.seed_room, hqr, hmono _ hse, hqe, mid, hl, hme⟩
      · exfalso
        rw [← hc] at hml
        exact room_not_link hroom hml
    · exact reach_mono hmono (hI.conn x y z hroom hv)
  · rw [emptyRooms_insert hqc hqr hml hreadT, emptyLinks_insert hmc hqr hml hreadT]
    have h1 : q ∉ emptyRooms g s.matrix_ Dx Dy Dz := by
      simp only [emptyRooms, Finset.mem_filter, not_and]
      intro _ _ h
      rw [hwq] at h
      exact hne (Option.some.inj h).symm
    have h2 : mid ∉ emptyLinks g s.matrix_ Dx Dy Dz := by
      simp only [emptyLinks, Finset.mem_filter, not_and]
      intro _ _ h
      rw [hwm] at h
      exact hne (Option.some.inj h).symm
    rw [Finset.card_insert_of_not_mem h1, Finset.card_insert_of_not_mem h2, hI.count]
  · intro h
    rw [hfl] at h
    exact absurd h (by simp)
  · intro mid1 hlk hv
    rw [hreadT] at hv
    split_ifs at hv with hc
    · rcases hc with hc | hc
      · exfalso
        rw [hc] at hlk
        exact room_not_link hqr hlk
      · rw [hc]
        exact ⟨_, q, hl, hI.seed_room, hmono _ hse, hqe⟩
    · obtain ⟨p1, q1, h1, h2, h3, h4⟩ := hI.link_ends mid1 hlk hv
      exact ⟨p1, q1, h1, h2, hmono _ h3, hmono _ h4⟩

theorem inv_respawn {g : Digging3DMazeGenerator α}
    {Dx Dy Dz : Nat} (hDx : Dx < 2 ^ 63) (hDy : Dy < 2 ^ 63) (hDz : Dz < 2 ^ 63)
    {s : LoopState α} (hI : Inv g Dx Dy Dz s) (hf : s.finish_flag = false) {p : Triple}
    (hp : p ∈ respawnSeeds g s.matrix_) :
    Inv g Dx Dy Dz (respawnStep g s p) ∧ (respawnStep g s p).matrix_ = s.matrix_ := by
  obtain ⟨hroom, hc, hd⟩ := (mem_respawnSeeds g hI.rect hDx hDy hDz p).mp hp
  have hmat : (respawnStep g s p).matrix_ = s.matrix_ := setCell_same _ _ _ _ _ hc
  refine ⟨⟨?_, ?_, hroom, ?_, ?_, ?_, ?_, ?_, ?_, ?_, ?_⟩, hmat⟩
  · rw [hmat]; exact hI.rect
  · rw [hmat]; exact hI.vals
  · rw [hmat]; exact hc
  · rw [hmat]; exact hI.box
  · rw [hmat]; exact hI.links
  · rw [hmat]; exact hI.origin
  · rw [hmat]; exact hI.conn
  · rw [hmat]; exact hI.count
  · intro h
    have : (respawnStep g s p).finish_flag = false := hf
    rw [this] at h
    exact absurd h (by simp)
  · rw [hmat]; exact hI.link_ends

theorem inv_finish {g : Digging3DMazeGenerator α} {Dx Dy Dz : Nat} {s : LoopState α}
    (hI : Inv g Dx Dy Dz s)
    (h1 : digDirs g s.matrix_ s.seed_x s.seed_y s.seed_z = []) (h2 : respawnSeeds g s.matrix_ = []) :
    Inv g Dx Dy Dz { s with finish_flag := true } :=
  ⟨hI.rect, hI.vals, hI.seed_room, hI.seed_empty, hI.box, hI.links, hI.origin, hI.conn, hI.count,
    fun _ => ⟨h1, h2⟩, hI.link_ends⟩

theorem getD_mem {β : Type} (l : List β) (i : Nat) (d : β) (h : i < l.length) :
    l.getD i d ∈ l := by
  rw [List.getD_eq_getElem _ _ h]
  exact List.getElem_mem h

theorem stepPure_dig (g : Digging3DMazeGenerator α) (rnd : Nat → Nat) (s : LoopState α)
    (h : digDirs g s.matrix_ s.seed_x s.seed_y s.seed_z ≠ []) :
    ∃ t ∈ digDirs g s.matrix_ s.seed_x s.seed_y s.seed_z, stepPure g rnd s = digStep g s t := by
  refine ⟨(digDirs g s.matrix_ s.seed_x s.seed_y s.seed_z).getD
      (rnd s.calls % (digDirs g s.matrix_ s.seed_x s.seed_y s.seed_z).length) (0, 0, 0),
    getD_mem _ _ (0, 0, 0) (Nat.mod_lt _ (List.length_pos.mpr h)), ?_⟩
  simp [stepPure, h]

theorem stepPure_respawn (g : Digging3DMazeGenerator α) (rnd : Nat → Nat) (s : LoopState α)
    (h1 : digDirs g s.matrix_ s.seed_x s.seed_y s.seed_z = [])
    (h2 : respawnSeeds g s.matrix_ ≠ []) :
    ∃ p ∈ respawnSeeds g s.matrix_, stepPure g rnd s = respawnStep g s p := by
  refine ⟨(respawnSeeds g s.matrix_).getD
      (rnd s.calls % (respawnSeeds g s.matrix_).length) (0, 0, 0),
    getD_mem _ _ (0, 0, 0) (Nat.mod_lt _ (List.length_pos.mpr h2)), ?_⟩
  simp [stepPure, h1, h2]

theorem stepPure_finish (g : Digging3DMazeGenerator α) (rnd : Nat → Nat) (s : LoopState α)
    (h1 : digDirs g s.matrix_ s.seed_x s.seed_y s.seed_z = [])
    (h2 : respawnSeeds g s.matrix_ = []) :
    stepPure g rnd s = { s with finish_flag := true } := by
  simp [stepPure, h1, h2]

theorem inv_step {g : Digging3DMazeGenerator α} (hne : g.empty_value ≠ g.wall_value)
    {Dx Dy Dz : Nat} (hDx : Dx < 2 ^ 63) (hDy : Dy < 2 ^ 63) (hDz : Dz < 2 ^ 63)
    (rnd : Nat → Nat) {s : LoopState α} (hI : Inv g Dx Dy Dz s) (hf : s.finish_flag = false) :
    Inv g Dx Dy Dz (stepPure g rnd s) := by
  by_cases h1 : digDirs g s.matrix_ s.seed_x s.seed_y s.seed_z = []
  · by_cases h2 : respawnSeeds g s.matrix_ = []
    · rw [stepPure_finish g rnd s h1 h2]
      exact inv_finish hI h1 h2
    · obtain ⟨p, hp, he⟩ := stepPure_respawn g rnd s h1 h2
      rw [he]
      exact (inv_respawn hDx hDy hDz hI hf hp).1
  · obtain ⟨t, ht, he⟩ := stepPure_dig g rnd s h1
    rw [he]
    exact inv_dig hne hDx hDy hDz hI hf ht

theorem inv_init {g : Digging3DMazeGenerator α} (hne : g.empty_value ≠ g.wall_value)
    {m : Matrix α} {Dx Dy Dz : Nat} (hr : Rect m Dx Dy Dz)
    (hx : 2 < Dx) (hy : 2 < Dy) (hz : 2 < Dz) :
    Inv g Dx Dy Dz (initState (setCell (filled g m) 1 1 1 g.empty_value)) := by
  have hrf := rect_filled g hr
  have hin : inGrid (filled g m) 1 1 1 = true :=
    (rect_inGrid hrf 1 1 1).mpr ⟨by omega, by omega, by omega⟩
  have hread : ∀ a b c, readCell (setCell (filled g m) 1 1 1 g.empty_value) a b c =
      if a = 1 ∧ b = 1 ∧ c = 1 then some g.empty_value
      else (readCell m a b c).map fun _ => g.wall_value := by
    intro a b c
    rw [readCell_setCell, readCell_filled]
    simp [hin]
  have hemp : ∀ a b c, readCell (setCell (filled g m) 1 1 1 g.empty_value) a b c
      = some g.empty_value → a = 1 ∧ b = 1 ∧ c = 1 := by
    intro a b c h
    rw [hread] at h
    split_ifs at h with hc
    · exact hc
    · exfalso
      cases hrc : readCell m a b c with
      | none => rw [hrc] at h; simp at h
      | some v => rw [hrc] at h; simp at h; exact hne h.symm
  have hone : readCell (setCell (filled g m) 1 1 1 g.empty_value) 1 1 1 = some g.empty_value := by
    rw [hread]; simp
  refine ⟨rect_setCell hrf _ _ _ _, ?_, ?_, hone, ?_, ?_, hone, ?_, ?_, ?_, ?_⟩
  · intro x y z v hv
    simp only [initState] at hv
    rw [hread] at hv
    split_ifs at hv
    · right; exact (Option.some.inj hv).symm
    · left
      cases hrc : readCell m x y z with
      | none => rw [hrc] at hv; simp at hv
      | some w => rw [hrc] at hv; simp at hv; exact hv.symm
  · simp [initState, isRoom]
  · intro x y z hv
    obtain ⟨rfl, rfl, rfl⟩ := hemp x y z hv
    refine ⟨by norm_num, by norm_num, by norm_num, ?_⟩
    simp [isPillar, evenCount]
  · intro p mid q hl hp hv
    exfalso
    obtain ⟨mx, my, mz⟩ := mid
    obtain ⟨h1, h2, h3⟩ := hemp mx my mz hv
    have := (link_parity hl hp).2
    simp only [isLink, evenCount] at this
    omega
  · intro x y z _ hv
    obtain ⟨rfl, rfl, rfl⟩ := hemp x y z hv
    exact Relation.ReflTransGen.refl
  · have h1 : emptyLinks g (initState (setCell (filled g m) 1 1 1 g.empty_value)).matrix_ Dx Dy Dz
        = ∅ := by
      ext p
      obtain ⟨a, b, c⟩ := p
      simp only [emptyLinks, Finset.mem_filter, Finset.not_mem_empty, iff_false, not_and, cellAt,
        initState]
      intro _ hlk hv
      obtain ⟨rfl, rfl, rfl⟩ := hemp a b c hv
      simp [isLink, evenCount] at hlk
    have h2 : emptyRooms g (initState (setCell (filled g m) 1 1 1 g.empty_value)).matrix_ Dx Dy Dz
        = {(1, 1, 1)} := by
      ext p
      obtain ⟨a, b, c⟩ := p
      simp only [emptyRooms, Finset.mem_filter, Finset.mem_singleton, cellAt, initState,
        Prod.mk.injEq, mem_cells]
      constructor
      · rintro ⟨_, _, hv⟩
        exact hemp a b c hv
      · rintro ⟨rfl, rfl, rfl⟩
        exact ⟨⟨by omega, by omega, by omega⟩, by simp [isRoom], hone⟩
    rw [h1, h2]
    simp
  · intro h
    simp [initState] at h
  · intro mid hlk hv
    exfalso
    obtain ⟨mx, my, mz⟩ := mid
    obtain ⟨h1, h2, h3⟩ := hemp mx my mz hv
    simp only [isLink, evenCount] at hlk
    omega

/-! ## Termination -/

theorem whileLoop_returned_inv {g : Digging3DMazeGenerator α} (hne : g.empty_value ≠ g.wall_value)
    {Dx Dy Dz : Nat} (hDx : Dx < 2 ^ 63) (hDy : Dy < 2 ^ 63) (hDz : Dz < 2 ^ 63)
    (rnd : Nat → Nat) (fuel : Nat) {s : LoopState α} (hI : Inv g Dx Dy Dz s) {m1 : Matrix α}
    (h : whileLoop g rnd fuel s = Outcome.returned m1) :
    ∃ s1, Inv g Dx Dy Dz s1 ∧ s1.finish_flag = true ∧ s1.matrix_ = m1 := by
  induction fuel generalizing s with
  | zero =>
    cases hf : s.finish_flag
    · rw [whileLoop_zero g rnd s hf] at h; cases h
    · rw [whileLoop_finished g rnd 0 s hf] at h
      exact ⟨s, hI, hf, Outcome.returned.inj h⟩
  | succ n ih =>
    cases hf : s.finish_flag
    · rw [whileLoop_succ g rnd n s hf] at h
      exact ih (inv_step hne hDx hDy hDz rnd hI hf) h
    · rw [whileLoop_finished g rnd _ s hf] at h
      exact ⟨s, hI, hf, Outcome.returned.inj h⟩

theorem whileLoop_mono (g : Digging3DMazeGenerator α) (rnd : Nat → Nat) (n k : Nat)
    (s : LoopState α) (m1 : Matrix α) (h : whileLoop g rnd n s = Outcome.returned m1) :
    whileLoop g rnd (n + k) s = Outcome.returned m1 := by
  induction n generalizing s with
  | zero =>
    cases hf : s.finish_flag
    · rw [whileLoop_zero g rnd s hf] at h; cases h
    · rw [whileLoop_finished g rnd 0 s hf] at h
      rw [whileLoop_finished g rnd _ s hf]; exact h
  | succ n ih =>
    cases hf : s.finish_flag
    · rw [whileLoop_succ g rnd n s hf] at h
      rw [show n + 1 + k = (n + k) + 1 by omega, whileLoop_succ g rnd _ s hf]
      exact ih _ h
    · rw [whileLoop_finished g rnd _ s hf] at h
      rw [whileLoop_finished g rnd _ s hf]; exact h

theorem emptyRooms_subset {g : Digging3DMazeGenerator α} {Dx Dy Dz : Nat} {s : LoopState α}
    (hI : Inv g Dx Dy Dz s) : emptyRooms g s.matrix_ Dx Dy Dz ⊆ roomsBox Dx Dy Dz := by
  intro p hp
  simp only [emptyRooms, roomsBox, Finset.mem_filter, mem_cells, lim_lt] at hp ⊢
  have := hI.box _ _ _ hp.2.2
  exact ⟨⟨⟨hp.1.1, this.1⟩, ⟨hp.1.2.1, this.2.1⟩, ⟨hp.1.2.2, this.2.2.1⟩⟩, hp.2.1⟩

theorem dig_emptyRooms {g : Digging3DMazeGenerator α} (hne : g.empty_value ≠ g.wall_value)
    {Dx Dy Dz : Nat} (hDx : Dx < 2 ^ 63) (hDy : Dy < 2 ^ 63) (hDz : Dz < 2 ^ 63)
    {s : LoopState α} (hI : Inv g Dx Dy Dz s) {t : Triple}
    (ht : t ∈ digDirs g s.matrix_ s.seed_x s.seed_y s.seed_z) :
    (emptyRooms g (digStep g s t).matrix_ Dx Dy Dz).card
      = (emptyRooms g s.matrix_ Dx Dy Dz).card + 1 := by
  obtain ⟨hl, hq, hm, hwq, hwm, hqr, hml⟩ := dig_facts hne hDx hDy hDz hI ht
  have hq2 := hq
  have hm2 := hm
  simp only [lim_lt] at hq2 hm2
  have hreadT : ∀ p, cellAt (digStep g s t).matrix_ p =
      if p = digTarget s.seed_x s.seed_y s.seed_z t ∨ p = digMid s.seed_x s.seed_y s.seed_z t
      then some g.empty_value else cellAt s.matrix_ p := by
    intro p
    exact readCell_dig hI.rect _ _ ⟨hm2.1.1, hm2.2.1.1, hm2.2.2.1⟩
      ⟨hq2.1.1, hq2.2.1.1, hq2.2.2.1⟩ g.empty_value p.1 p.2.1 p.2.2
  have hqc : digTarget s.seed_x s.seed_y s.seed_z t ∈ cells Dx Dy Dz :=
    (mem_cells _ _ _ _).mpr ⟨hq2.1.1, hq2.2.1.1, hq2.2.2.1⟩
  rw [emptyRooms_insert hqc hqr hml hreadT]
  have h1 : digTarget s.seed_x s.seed_y s.seed_z t ∉ emptyRooms g s.matrix_ Dx Dy Dz := by
    simp only [emptyRooms, Finset.mem_filter, not_and]
    intro _ _ h
    rw [hwq] at h
    exact hne (Option.some.inj h).symm
  rw [Finset.card_insert_of_not_mem h1]

theorem step_decreases {g : Digging3DMazeGenerator α} (hne : g.empty_value ≠ g.wall_value)
    {Dx Dy Dz : Nat} (hDx : Dx < 2 ^ 63) (hDy : Dy < 2 ^ 63) (hDz : Dz < 2 ^ 63)
    (rnd : Nat → Nat) {s : LoopState α} (hI : Inv g Dx Dy Dz s) (hf : s.finish_flag = false) :
    (stepPure g rnd s).finish_flag = true ∨
      potential g Dx Dy Dz (stepPure g rnd s) < potential g Dx Dy Dz s := by
  by_cases h1 : digDirs g s.matrix_ s.seed_x s.seed_y s.seed_z = []
  · by_cases h2 : respawnSeeds g s.matrix_ = []
    · left
      rw [stepPure_finish g rnd s h1 h2]
    · right
      obtain ⟨p, hp, he⟩ := stepPure_respawn g rnd s h1 h2
      obtain ⟨_, _, hd⟩ := (mem_respawnSeeds g hI.rect hDx hDy hDz p).mp hp
      have hmat := (inv_respawn hDx hDy hDz hI hf hp).2
      rw [he]
      unfold potential
      rw [hmat]
      have hd1 : digDirs g s.matrix_ (respawnStep g s p).seed_x (respawnStep g s p).seed_y
          (respawnStep g s p).seed_z ≠ [] := hd
      simp [h1, hd1]
  · right
    obtain ⟨t, ht, he⟩ := stepPure_dig g rnd s h1
    rw [he]
    have hc := dig_emptyRooms hne hDx hDy hDz hI ht
    have hsub := Finset.card_le_card (emptyRooms_subset (inv_dig hne hDx hDy hDz hI hf ht))
    unfold potential
    rw [hc] at hsub ⊢
    simp only [h1, if_false]
    split_ifs <;> omega

theorem whileLoop_terminates {g : Digging3DMazeGenerator α} (hne : g.empty_value ≠ g.wall_value)
    {Dx Dy Dz : Nat} (hDx : Dx < 2 ^ 63) (hDy : Dy < 2 ^ 63) (hDz : Dz < 2 ^ 63)
    (rnd : Nat → Nat) (n : Nat) {s : LoopState α} (hI : Inv g Dx Dy Dz s)
    (hp : potential g Dx Dy Dz s < n) :
    ∃ m1, whileLoop g rnd n s = Outcome.returned m1 := by
  induction n generalizing s with
  | zero => omega
  | succ k ih =>
    cases hf : s.finish_flag
    · rw [whileLoop_succ g rnd k s hf]
      rcases step_decreases hne hDx hDy hDz rnd hI hf with h | h
      · exact ⟨_, whileLoop_finished g rnd k _ h⟩
      · exact ih (inv_step hne hDx hDy hDz rnd hI hf) (by omega)
    · exact ⟨_, whileLoop_finished g rnd _ s hf⟩

theorem card_cells (Dx Dy Dz : Nat) : (cells Dx Dy Dz).card = Dx * (Dy * Dz) := by
  simp [cells, Finset.card_product]

theorem card_roomsBox_le (Dx Dy Dz : Nat) :
    (roomsBox Dx Dy Dz).card ≤ (Dx / 2) * ((Dy / 2) * (Dz / 2)) := by
  rw [← card_cells]
  apply Finset.card_le_card_of_injOn (fun p : Triple => (p.1 / 2, p.2.1 / 2, p.2.2 / 2))
  · intro p hp
    simp only [roomsBox, Finset.mem_filter, mem_cells, lim_lt, isRoom] at hp
    simp only [mem_cells]
    omega
  · intro p hp q hq h
    simp only [roomsBox, Finset.coe_filter, Set.mem_setOf_eq, isRoom] at hp hq
    obtain ⟨px, py, pz⟩ := p
    obtain ⟨qx, qy, qz⟩ := q
    simp only [Prod.mk.injEq] at h hp hq ⊢
    omega

theorem two_mul_card_roomsBox_le (Dx Dy Dz : Nat) :
    2 * (roomsBox Dx Dy Dz).card ≤ Dx * Dy * Dz := by
  have h := card_roomsBox_le Dx Dy Dz
  have hx : Dx / 2 * 2 ≤ Dx := Nat.div_mul_le_self Dx 2
  have hy : Dy / 2 ≤ Dy := Nat.div_le_self Dy 2
  have hz : Dz / 2 ≤ Dz := Nat.div_le_self Dz 2
  calc 2 * (roomsBox Dx Dy Dz).card
      ≤ 2 * ((Dx / 2) * ((Dy / 2) * (Dz / 2))) := Nat.mul_le_mul_left 2 h
    _ = (Dx / 2 * 2) * ((Dy / 2) * (Dz / 2)) := by ring
    _ ≤ Dx * (Dy * Dz) := Nat.mul_le_mul hx (Nat.mul_le_mul hy hz)
    _ = Dx * Dy * Dz := by ring

theorem potential_init {g : Digging3DMazeGenerator α} (hne : g.empty_value ≠ g.wall_value)
    {m : Matrix α} {Dx Dy Dz : Nat} (hr : Rect m Dx Dy Dz)
    (hx : 2 < Dx) (hy : 2 < Dy) (hz : 2 < Dz) :
    potential g Dx Dy Dz (initState (setCell (filled g m) 1 1 1 g.empty_value))
      < Dx * Dy * Dz := by
  have hI := inv_init hne hr hx hy hz
  have hsub := Finset.card_le_card (emptyRooms_subset hI)
  have hone : (1, 1, 1) ∈ emptyRooms g
      (initState (setCell (filled g m) 1 1 1 g.empty_value)).matrix_ Dx Dy Dz := by
    simp only [emptyRooms, Finset.mem_filter, mem_cells]
    exact ⟨⟨by omega, by omega, by omega⟩, by simp [isRoom], hI.origin⟩
  have hpos : 0 < (emptyRooms g
      (initState (setCell (filled g m) 1 1 1 g.empty_value)).matrix_ Dx Dy Dz).card :=
    Finset.card_pos.mpr ⟨_, hone⟩
  have hb := two_mul_card_roomsBox_le Dx Dy Dz
  unfold potential
  split_ifs <;> omega

/-- On a box with all extents above 2 the run of `CreateMaze` is the run of its loop from
the initial state. -/
theorem CreateMaze_big (g : Digging3DMazeGenerator α) (rnd : Nat → Nat) (fuel : Nat)
    {m : Matrix α} {Dx Dy Dz : Nat} (hr : Rect m Dx Dy Dz)
    (hx : 2 < Dx) (hy : 2 < Dy) (hz : 2 < Dz) :
    CreateMaze g rnd fuel m =
      whileLoop g rnd fuel (initState (setCell (filled g m) 1 1 1 g.empty_value)) := by
  rw [CreateMaze_eq]
  have := rect_sizes (rect_filled g hr)
  rw [if_neg]
  rw [this]
  omega

/-- On a box with an extent of at most 2 `CreateMaze` returns the filled grid. -/
theorem CreateMaze_small (g : Digging3DMazeGenerator α) (rnd : Nat → Nat) (fuel : Nat)
    {m : Matrix α} {Dx Dy Dz : Nat} (hr : Rect m Dx Dy Dz)
    (h : Dx ≤ 2 ∨ Dy ≤ 2 ∨ Dz ≤ 2) :
    CreateMaze g rnd fuel m = Outcome.returned (filled g m) := by
  rw [CreateMaze_eq]
  have := rect_sizes (rect_filled g hr)
  rw [if_pos]
  rw [this]
  omega

theorem CreateMaze_final {g : Digging3DMazeGenerator α} (hne : g.empty_value ≠ g.wall_value)
    {m : Matrix α} {Dx Dy Dz : Nat} (hr : Rect m Dx Dy Dz)
    (hx : 2 < Dx) (hy : 2 < Dy) (hz : 2 < Dz)
    (hDx : Dx < 2 ^ 63) (hDy : Dy < 2 ^ 63) (hDz : Dz < 2 ^ 63)
    (rnd : Nat → Nat) (fuel : Nat) {m1 : Matrix α}
    (h : CreateMaze g rnd fuel m = Outcome.returned m1) :
    ∃ s1, Inv g Dx Dy Dz s1 ∧ s1.finish_flag = true ∧ s1.matrix_ = m1 := by
  rw [CreateMaze_big g rnd fuel hr hx hy hz] at h
  exact whileLoop_returned_inv hne hDx hDy hDz rnd fuel (inv_init hne hr hx hy hz) h

theorem CreateMaze_returns {g : Digging3DMazeGenerator α} (hne : g.empty_value ≠ g.wall_value)
    {m : Matrix α} {Dx Dy Dz : Nat} (hr : Rect m Dx Dy Dz)
    (hDx : Dx < 2 ^ 63) (hDy : Dy < 2 ^ 63) (hDz : Dz < 2 ^ 63)
    (rnd : Nat → Nat) :
    ∃ m1, CreateMaze g rnd (Dx * Dy * Dz) m = Outcome.returned m1 := by
  by_cases hbig : 2 < Dx ∧ 2 < Dy ∧ 2 < Dz
  · obtain ⟨hx, hy, hz⟩ := hbig
    rw [CreateMaze_big g rnd _ hr hx hy hz]
    exact whileLoop_terminates hne hDx hDy hDz rnd _ (inv_init hne hr hx hy hz)
      (potential_init hne hr hx hy hz)
  · exact ⟨_, CreateMaze_small g rnd _ hr (by omega)⟩

/-! ## The grid at loop exit -/

theorem final_closed {g : Digging3DMazeGenerator α}
    {Dx Dy Dz : Nat} (hDx : Dx < 2 ^ 63) (hDy : Dy < 2 ^ 63) (hDz : Dz < 2 ^ 63)
    {s : LoopState α} (hI : Inv g Dx Dy Dz s) (hf : s.finish_flag = true)
    (p mid q : Triple) (hp : isRoom p.1 p.2.1 p.2.2) (hpe : cellAt s.matrix_ p = some g.empty_value)
    (hl : Link p mid q) (hq : q.1 < lim Dx ∧ q.2.1 < lim Dy ∧ q.2.2 < lim Dz) :
    cellAt s.matrix_ q = some g.empty_value := by
  have hnil : digDirs g s.matrix_ p.1 p.2.1 p.2.2 = [] := by
    by_contra hcon
    have : p ∈ respawnSeeds g s.matrix_ :=
      (mem_respawnSeeds g hI.rect hDx hDy hDz p).mpr ⟨hp, hpe, hcon⟩
    rw [(hI.fin hf).2] at this
    exact absurd this (List.not_mem_nil p)
  have hpb := hI.box _ _ _ hpe
  simp only [lim_lt] at hq
  obtain ⟨v, hv⟩ := rect_readCell_exists hI.rect hq.1.1 hq.2.1.1 hq.2.2.1
  rcases hI.vals _ _ _ v hv with rfl | rfl
  · exfalso
    have hl1 : Link (p.1, p.2.1, p.2.2) mid q := hl
    exact digDirs_ne_nil g s.matrix_ hpb.1 hpb.2.1 hpb.2.2.1
      ⟨hq.1.2, hq.2.1.2, hq.2.2.2⟩ hl1 hv hnil
  · exact hv

theorem line_induction (P : Nat → Prop) (L : Nat) (h1 : P 1)
    (hstep : ∀ a, a % 2 = 1 → a + 2 < L → P a → P (a + 2)) :
    ∀ a, a % 2 = 1 → a < L → P a := by
  intro a
  induction a using Nat.strong_induction_on with
  | _ a ih =>
    intro hodd hlt
    by_cases ha : a = 1
    · subst ha; exact h1
    · have h3 : a - 2 + 2 = a := by omega
      have := hstep (a - 2) (by omega) (by omega) (ih (a - 2) (by omega) (by omega) (by omega))
      rw [h3] at this
      exact this

theorem final_coverage {g : Digging3DMazeGenerator α}
    {Dx Dy Dz : Nat} (hDx : Dx < 2 ^ 63) (hDy : Dy < 2 ^ 63) (hDz : Dz < 2 ^ 63)
    (hx : 2 < Dx) (hy : 2 < Dy) (hz : 2 < Dz)
    {s : LoopState α} (hI : Inv g Dx Dy Dz s) (hf : s.finish_flag = true)
    (x y z : Nat) (hroom : isRoom x y z) (hxl : x < lim Dx) (hyl : y < lim Dy) (hzl : z < lim Dz) :
    readCell s.matrix_ x y z = some g.empty_value := by
  have h1x : 1 < lim Dx := by rw [lim_lt]; omega
  have h1y : 1 < lim Dy := by rw [lim_lt]; omega
  have h1z : 1 < lim Dz := by rw [lim_lt]; omega
  have hX : ∀ a, a % 2 = 1 → a < lim Dx → readCell s.matrix_ a 1 1 = some g.empty_value := by
    refine line_induction (fun a => readCell s.matrix_ a 1 1 = some g.empty_value) _ hI.origin ?_
    intro a ha hlt hP
    exact final_closed hDx hDy hDz hI hf (a, 1, 1) (a + 1, 1, 1)
      (a + 2, 1, 1) (by simp [isRoom, ha]) hP (by simp [Link, Between]) ⟨hlt, h1y, h1z⟩
  have hY : ∀ b, b % 2 = 1 → b < lim Dy → readCell s.matrix_ x b 1 = some g.empty_value := by
    refine line_induction (fun b => readCell s.matrix_ x b 1 = some g.empty_value) _
      (hX x hroom.1 hxl) ?_
    intro b hb hlt hP
    exact final_closed hDx hDy hDz hI hf (x, b, 1) (x, b + 1, 1)
      (x, b + 2, 1) (by simp [isRoom, hb, hroom.1]) hP (by simp [Link, Between])
      ⟨hxl, hlt, h1z⟩
  have hZ : ∀ c, c % 2 = 1 → c < lim Dz → readCell s.matrix_ x y c = some g.empty_value := by
    refine line_induction (fun c => readCell s.matrix_ x y c = some g.empty_value) _
      (hY y hroom.2.1 hyl) ?_
    intro c hc hlt hP
    exact final_closed hDx hDy hDz hI hf (x, y, c) (x, y, c + 1)
      (x, y, c + 2) (by simp [isRoom, hc, hroom.1, hroom.2.1]) hP (by simp [Link, Between])
      ⟨hxl, hyl, hlt⟩
  exact hZ z hroom.2.2 hzl

theorem adj_symm (g : Digging3DMazeGenerator α) (m : Matrix α) : Symmetric (Adj g m) := by
  rintro a b ⟨h1, h2, h3, h4, mid, h5, h6⟩
  exact ⟨h2, h1, h4, h3, mid, link_symm h5, h6⟩

theorem inv_connected {g : Digging3DMazeGenerator α} {Dx Dy Dz : Nat} {s : LoopState α}
    (hI : Inv g Dx Dy Dz s) : ConnectedRooms g s.matrix_ := by
  intro p q hp hpe hq hqe
  have h1 := hI.conn p.1 p.2.1 p.2.2 hp hpe
  have h2 := hI.conn q.1 q.2.1 q.2.2 hq hqe
  exact Relation.ReflTransGen.trans
    (Relation.ReflTransGen.symmetric (adj_symm g s.matrix_) h1) h2

theorem inv_pillar {g : Digging3DMazeGenerator α} (hne : g.empty_value ≠ g.wall_value)
    {Dx Dy Dz : Nat} {s : LoopState α}
    (hI : Inv g Dx Dy Dz s) (x y z : Nat) (hx : x < Dx) (hy : y < Dy) (hz : z < Dz)
    (hp : isPillar x y z) : readCell s.matrix_ x y z = some g.wall_value := by
  obtain ⟨v, hv⟩ := rect_readCell_exists hI.rect hx hy hz
  rcases hI.vals _ _ _ v hv with rfl | rfl
  · exact hv
  · exact absurd hp (hI.box _ _ _ hv).2.2.2

theorem final_emptyRooms {g : Digging3DMazeGenerator α}
    {Dx Dy Dz : Nat} (hDx : Dx < 2 ^ 63) (hDy : Dy < 2 ^ 63) (hDz : Dz < 2 ^ 63)
    (hx : 2 < Dx) (hy : 2 < Dy) (hz : 2 < Dz)
    {s : LoopState α} (hI : Inv g Dx Dy Dz s) (hf : s.finish_flag = true) :
    emptyRooms g s.matrix_ Dx Dy Dz = roomsBox Dx Dy Dz := by
  apply Finset.Subset.antisymm (emptyRooms_subset hI)
  intro p hp
  simp only [roomsBox, Finset.mem_filter, mem_cells] at hp
  simp only [emptyRooms, Finset.mem_filter, mem_cells]
  have hp2 := hp.1
  simp only [lim_lt] at hp2
  exact ⟨⟨hp2.1.1, hp2.2.1.1, hp2.2.2.1⟩, hp.2,
    final_coverage hDx hDy hDz hx hy hz hI hf p.1 p.2.1 p.2.2 hp.2 hp.1.1 hp.1.2.1 hp.1.2.2⟩

theorem card_roomsBox7 : (roomsBox 7 7 7).card = 27 := by decide

theorem rect_boxOf (Dx Dy Dz : Nat) (v : α) : Rect (boxOf Dx Dy Dz v) Dx Dy Dz := by
  unfold Rect boxOf
  refine ⟨List.length_replicate _ _, ?_⟩
  intro slice hs
  rw [List.eq_of_mem_replicate hs]
  refine ⟨List.length_replicate _ _, ?_⟩
  intro row hrow
  rw [List.eq_of_mem_replicate hrow]
  exact List.length_replicate _ _

/-! ## The claims -/

theorem CreateMaze_ne_fault (g : Digging3DMazeGenerator α) (rnd : Nat → Nat) (fuel : Nat)
    (m : Matrix α) : CreateMaze g rnd fuel m ≠ Outcome.fault := by
  rw [CreateMaze_eq]
  split_ifs
  · simp
  · exact whileLoop_ne_fault g rnd fuel _

theorem CreateMaze_mono (g : Digging3DMazeGenerator α) (rnd : Nat → Nat) (n k : Nat)
    (m m1 : Matrix α) (h : CreateMaze g rnd n m = Outcome.returned m1) :
    CreateMaze g rnd (n + k) m = Outcome.returned m1 := by
  rw [CreateMaze_eq] at h ⊢
  split_ifs at h ⊢ with hc
  · exact h
  · exact whileLoop_mono g rnd n k _ m1 h

theorem after_of_inv {g : Digging3DMazeGenerator α} (hne : g.empty_value ≠ g.wall_value)
    {m : Matrix α} {Dx Dy Dz : Nat} (hr : Rect m Dx Dy Dz)
    (hx : 2 < Dx) (hy : 2 < Dy) (hz : 2 < Dz)
    (hDx : Dx < 2 ^ 63) (hDy : Dy < 2 ^ 63) (hDz : Dz < 2 ^ 63)
    (rnd : Nat → Nat) (P : Matrix α → Prop)
    (hP : ∀ s1 : LoopState α, Inv g Dx Dy Dz s1 → s1.finish_flag = true → P s1.matrix_) :
    AfterCreateMaze g rnd m P := by
  constructor
  · exact ⟨Dx * Dy * Dz, CreateMaze_returns hne hr hDx hDy hDz rnd⟩
  · intro fuel m1 h
    obtain ⟨s1, hI, hf, rfl⟩ := CreateMaze_final hne hr hx hy hz hDx hDy hDz rnd fuel h
    exact hP s1 hI hf

/-- Claim C1 (connectivity). On a rectangular grid with all three extents above 2 (each a
container size, below `2 ^ 63`), with `empty_value ≠ wall_value` and any random choices,
`CreateMaze` returns, and in the grid it returns the room cells holding `empty_value` form
one connected component under corridor-link adjacency, to which `(1, 1, 1)` belongs. -/
theorem C1_connectivity (g : Digging3DMazeGenerator α) (hne : g.empty_value ≠ g.wall_value)
    (m : Matrix α) (Dx Dy Dz : Nat) (hr : Rect m Dx Dy Dz)
    (hx : 2 < Dx) (hy : 2 < Dy) (hz : 2 < Dz)
    (hDx : Dx < 2 ^ 63) (hDy : Dy < 2 ^ 63) (hDz : Dz < 2 ^ 63) (rnd : Nat → Nat) :
    AfterCreateMaze g rnd m fun m1 =>
      ConnectedRooms g m1 ∧ isRoom 1 1 1 ∧ cellAt m1 (1, 1, 1) = some g.empty_value :=
  after_of_inv hne hr hx hy hz hDx hDy hDz rnd _ fun s1 hI _ =>
    ⟨inv_connected hI, by simp [isRoom], hI.origin⟩

/-- Claim C2 (acyclicity). On a rectangular grid with all three extents above 2 (each below
`2 ^ 63`), with `empty_value ≠ wall_value` and any random choices, `CreateMaze` returns, and
in the grid it returns the number of corridor link cells holding `empty_value` is the number
of room cells holding `empty_value` minus one; on a 7x7x7 grid it is 26. -/
theorem C2_acyclicity (g : Digging3DMazeGenerator α) (hne : g.empty_value ≠ g.wall_value)
    (m : Matrix α) (Dx Dy Dz : Nat) (hr : Rect m Dx Dy Dz)
    (hx : 2 < Dx) (hy : 2 < Dy) (hz : 2 < Dz)
    (hDx : Dx < 2 ^ 63) (hDy : Dy < 2 ^ 63) (hDz : Dz < 2 ^ 63) (rnd : Nat → Nat) :
    AfterCreateMaze g rnd m fun m1 =>
      (emptyLinks g m1 Dx Dy Dz).card + 1 = (emptyRooms g m1 Dx Dy Dz).card ∧
      (emptyLinks g m1 Dx Dy Dz).card = (emptyRooms g m1 Dx Dy Dz).card - 1 ∧
      (Dx = 7 ∧ Dy = 7 ∧ Dz = 7 → (emptyLinks g m1 Dx Dy Dz).card = 26) :=
  after_of_inv hne hr hx hy hz hDx hDy hDz rnd _ fun s1 hI hf => by
    have hc := hI.count
    refine ⟨hc, by omega, ?_⟩
    rintro ⟨rfl, rfl, rfl⟩
    have h27 := final_emptyRooms hDx hDy hDz hx hy hz hI hf
    rw [h27, card_roomsBox7] at hc
    omega

/-- Claim C4 (pillar invariant). On a rectangular grid with all three extents above 2 (each
below `2 ^ 63`), with `empty_value ≠ wall_value` and any random choices, `CreateMaze`
returns, and in the grid it returns every cell whose coordinate has two or more even
components holds `wall_value`. -/
theorem C4_pillar (g : Digging3DMazeGenerator α) (hne : g.empty_value ≠ g.wall_value)
    (m : Matrix α) (Dx Dy Dz : Nat) (hr : Rect m Dx Dy Dz)
    (hx : 2 < Dx) (hy : 2 < Dy) (hz : 2 < Dz)
    (hDx : Dx < 2 ^ 63) (hDy : Dy < 2 ^ 63) (hDz : Dz < 2 ^ 63) (rnd : Nat → Nat) :
    AfterCreateMaze g rnd m fun m1 =>
      ∀ x y z, x < Dx → y < Dy → z < Dz → isPillar x y z →
        readCell m1 x y z = some g.wall_value :=
  after_of_inv hne hr hx hy hz hDx hDy hDz rnd _ fun s1 hI _ =>
    fun x y z h1 h2 h3 hp => inv_pillar hne hI x y z h1 h2 h3 hp

/-- Claim C5 (termination). On every rectangular grid (extents below `2 ^ 63`), with
`empty_value ≠ wall_value` and any random choices, the loop of `CreateMaze` runs a number
`n` of iterations that is at most the number `Dx * Dy * Dz` of cells and then returns:
with any fuel of at least `n` iterations `CreateMaze` returns the same grid, and with less
fuel it is still running. -/
theorem C5_termination (g : Digging3DMazeGenerator α) (hne : g.empty_value ≠ g.wall_value)
    (m : Matrix α) (Dx Dy Dz : Nat) (hr : Rect m Dx Dy Dz)
    (hDx : Dx < 2 ^ 63) (hDy : Dy < 2 ^ 63) (hDz : Dz < 2 ^ 63) (rnd : Nat → Nat) :
    ∃ n m1, n ≤ Dx * Dy * Dz ∧
      (∀ fuel, n ≤ fuel → CreateMaze g rnd fuel m = Outcome.returned m1) ∧
      (∀ fuel, fuel < n → CreateMaze g rnd fuel m = Outcome.outOfFuel) := by
  classical
  have hex : ∃ n, ∃ m1, CreateMaze g rnd n m = Outcome.returned m1 :=
    ⟨Dx * Dy * Dz, CreateMaze_returns hne hr hDx hDy hDz rnd⟩
  obtain ⟨m1, hm1⟩ := Nat.find_spec hex
  refine ⟨Nat.find hex, m1, Nat.find_min' hex (CreateMaze_returns hne hr hDx hDy hDz rnd), ?_, ?_⟩
  · intro fuel hle
    obtain ⟨k, rfl⟩ := Nat.exists_eq_add_of_le hle
    exact CreateMaze_mono g rnd _ k m m1 hm1
  · intro fuel hlt
    have hmin := Nat.find_min hex hlt
    cases hc : CreateMaze g rnd fuel m with
    | returned m2 => exact absurd ⟨m2, hc⟩ hmin
    | fault => exact absurd hc (CreateMaze_ne_fault g rnd fuel m)
    | outOfFuel => rfl

/-- Claim C3, failing input. On the box of extents `2 ^ 31 + 4`, 3, 3 the room cell
`(2 ^ 31 + 3, 1, 1)` is inside the grid and still holds `wall_value` when `CreateMaze`
returns, as does the room `(2 ^ 31 + 1, 1, 1)`, although its neighbour room
`(2 ^ 31 - 1, 1, 1)` is carved. From that neighbour `GetCanDiggingDirs` tests the `+x`
target through `(int)pos_x + 2`, which leaves the range of `int`: the index it tests is
`2 ^ 64 - 2 ^ 31 + 1`, while the target `seed_x + dir_x * 2` that `CreateMaze` forms in
`std::size_t` is `2 ^ 31 + 1`. -/
theorem C3_failing_input :
    ∃ m1, CreateMaze gen10 (fun _ => 0) ((2 ^ 31 + 4) * 3 * 3) (boxOf (2 ^ 31 + 4) 3 3 0)
        = Outcome.returned m1 ∧
      isRoom (2 ^ 31 + 3) 1 1 ∧ 2 ^ 31 + 3 < 2 ^ 31 + 4 ∧
      readCell m1 (2 ^ 31 + 3) 1 1 = some gen10.wall_value ∧
      readCell m1 (2 ^ 31 + 3) 1 1 ≠ some gen10.empty_value ∧
      readCell m1 (2 ^ 31 + 1) 1 1 = some gen10.wall_value ∧
      readCell m1 (2 ^ 31 - 1) 1 1 = some gen10.empty_value ∧
      checkCoord (2 ^ 31 - 1) 1 = 2 ^ 64 - 2 ^ 31 + 1 ∧
      (digTarget (2 ^ 31 - 1) 1 1 (dirTriple (1, 0, 0))).1 = 2 ^ 31 + 1 := by
  have hne : gen10.empty_value ≠ gen10.wall_value := by decide
  have hr : Rect (boxOf (2 ^ 31 + 4) 3 3 (0 : Nat)) (2 ^ 31 + 4) 3 3 := rect_boxOf _ _ _ _
  have hD : 2 ^ 31 + 4 < 2 ^ 63 := by norm_num
  have h3 : 3 < 2 ^ 63 := by norm_num
  obtain ⟨m1, hm1⟩ := CreateMaze_returns hne hr hD h3 h3 (fun _ => 0)
  obtain ⟨s1, hI, hf, rfl⟩ := CreateMaze_final hne hr (by norm_num) (by norm_num) (by norm_num)
    hD h3 h3 (fun _ => 0) _ hm1
  have hwall : ∀ x, 2 ^ 31 ≤ x → x < 2 ^ 31 + 4 →
      readCell s1.matrix_ x 1 1 = some gen10.wall_value := by
    intro x hx1 hx2
    obtain ⟨v, hv⟩ := rect_readCell_exists hI.rect (x := x) (y := 1) (z := 1)
      hx2 (by norm_num) (by norm_num)
    rcases hI.vals _ _ _ v hv with rfl | rfl
    · exact hv
    · exfalso
      have := (hI.box _ _ _ hv).1
      omega
  have hcov : readCell s1.matrix_ (2 ^ 31 - 1) 1 1 = some gen10.empty_value :=
    final_coverage hD h3 h3 (by norm_num) (by norm_num) (by norm_num) hI hf (2 ^ 31 - 1) 1 1
      (by unfold isRoom; norm_num) ((lim_lt _ _).mpr ⟨by norm_num, by norm_num⟩)
      ((lim_lt _ _).mpr ⟨by norm_num, by norm_num⟩) ((lim_lt _ _).mpr ⟨by norm_num, by norm_num⟩)
  refine ⟨s1.matrix_, hm1, ?_, by norm_num, hwall _ (by norm_num) (by norm_num), ?_,
    hwall _ (by norm_num) (by norm_num), hcov, by decide, by decide⟩
  · unfold isRoom
    norm_num
  · rw [hwall _ (by norm_num) (by norm_num)]
    decide

/-- Full coverage within the range of `int`. On a rectangular grid with all three extents
above 2 (each below `2 ^ 63`), with `empty_value ≠ wall_value` and any random choices,
`CreateMaze` returns, and in the grid it returns every in-bounds coordinate whose three
components are all odd and below `2 ^ 31` holds `empty_value`; on a 7x7x7 grid exactly 27
room cells hold `empty_value`. -/
theorem coverage_int_range (g : Digging3DMazeGenerator α) (hne : g.empty_value ≠ g.wall_value)
    (m : Matrix α) (Dx Dy Dz : Nat) (hr : Rect m Dx Dy Dz)
    (hx : 2 < Dx) (hy : 2 < Dy) (hz : 2 < Dz)
    (hDx : Dx < 2 ^ 63) (hDy : Dy < 2 ^ 63) (hDz : Dz < 2 ^ 63) (rnd : Nat → Nat) :
    AfterCreateMaze g rnd m fun m1 =>
      (∀ x y z, x < Dx → y < Dy → z < Dz → isRoom x y z →
        x < 2 ^ 31 → y < 2 ^ 31 → z < 2 ^ 31 → readCell m1 x y z = some g.empty_value) ∧
      (Dx = 7 ∧ Dy = 7 ∧ Dz = 7 → (emptyRooms g m1 Dx Dy Dz).card = 27) :=
  after_of_inv hne hr hx hy hz hDx hDy hDz rnd _ fun s1 hI hf => by
    constructor
    · intro x y z h1 h2 h3 hroom h4 h5 h6
      exact final_coverage hDx hDy hDz hx hy hz hI hf x y z hroom
        ((lim_lt _ _).mpr ⟨h1, h4⟩) ((lim_lt _ _).mpr ⟨h2, h5⟩) ((lim_lt _ _).mpr ⟨h3, h6⟩)
    · rintro ⟨rfl, rfl, rfl⟩
      rw [final_emptyRooms hDx hDy hDz hx hy hz hI hf, card_roomsBox7]

/-- Claim C6 (degenerate size). On a rectangular grid with an extent of at most 2 (0
included), whatever its prior content, the random choices and the fuel, `CreateMaze`
returns a grid of the same extents in which every cell holds `wall_value`. -/
theorem C6_degenerate (g : Digging3DMazeGenerator α) (m : Matrix α) (Dx Dy Dz : Nat)
    (hr : Rect m Dx Dy Dz) (h : Dx ≤ 2 ∨ Dy ≤ 2 ∨ Dz ≤ 2) (rnd : Nat → Nat) (fuel : Nat) :
    ∃ m1, CreateMaze g rnd fuel m = Outcome.returned m1 ∧ Rect m1 Dx Dy Dz ∧
      (∀ x y z, x < Dx → y < Dy → z < Dz → readCell m1 x y z = some g.wall_value) ∧
      (∀ x y z v, readCell m1 x y z = some v → v = g.wall_value) := by
  refine ⟨filled g m, CreateMaze_small g rnd fuel hr h, rect_filled g hr, ?_, ?_⟩
  · intro x y z hx hy hz
    obtain ⟨v, hv⟩ := rect_readCell_exists hr hx hy hz
    rw [readCell_filled, hv]
    rfl
  · intro x y z v hv
    rw [readCell_filled] at hv
    cases hc : readCell m x y z with
    | none => rw [hc] at hv; simp at hv
    | some w => rw [hc] at hv; simp at hv; exact hv.symm

theorem filled_eq_shape (g : Digging3DMazeGenerator α) (m : Matrix α) :
    filled g m = (m.map fun slice => slice.map List.length).map
      fun lens => lens.map fun n => List.replicate n g.wall_value := by
  unfold filled
  simp only [List.map_map]
  apply List.map_congr_left
  intro slice _
  simp only [Function.comp_apply, List.map_map]
  apply List.map_congr_left
  intro row _
  simp [List.map_const']

theorem shape_filled (g : Digging3DMazeGenerator α) (m : Matrix α) :
    SameShape (filled g m) m := by
  unfold SameShape filled
  simp only [List.map_map]
  apply List.map_congr_left
  intro slice _
  simp only [Function.comp_apply, List.map_map]
  apply List.map_congr_left
  intro row _
  simp

/-- Claim C8 (coverage-reset). For two grids of the same shape, whatever their contents,
the fill loops of `CreateMaze` leave the same grid, of that shape and with every cell
holding `wall_value`; so `CreateMaze`, run with the same random choices (and fuel), comes to
the same outcome from both. -/
theorem C8_coverage_reset (g : Digging3DMazeGenerator α) (m1 m2 : Matrix α)
    (hs : SameShape m1 m2) (rnd : Nat → Nat) (fuel : Nat) :
    (∃ m0, fillWall g m1 = some m0 ∧ fillWall g m2 = some m0 ∧ SameShape m0 m1 ∧
      ∀ x y z v, readCell m0 x y z = some v → v = g.wall_value) ∧
    CreateMaze g rnd fuel m1 = CreateMaze g rnd fuel m2 := by
  have hf : filled g m1 = filled g m2 := by
    rw [filled_eq_shape, filled_eq_shape]
    unfold SameShape at hs
    rw [hs]
  constructor
  · refine ⟨filled g m1, fillWall_eq g m1, by rw [hf]; exact fillWall_eq g m2,
      shape_filled g m1, ?_⟩
    intro x y z v hv
    rw [readCell_filled] at hv
    cases hc : readCell m1 x y z with
    | none => rw [hc] at hv; simp at hv
    | some w => rw [hc] at hv; simp at hv; exact hv.symm
  · rw [CreateMaze_eq, CreateMaze_eq, hf]

/-- Claim C7 (bounds safety). For every grid, ragged and empty ones included, every random
choices and every fuel, no indexed access made by `CreateMaze`, `IsInRange`, `SetMazeChip`,
`GetCanDiggingDirs` or `GetCanRespawnSeedPositions` falls outside its container and no
`rand() % n` is taken with `n = 0`: the fault outcome is never reached. -/
theorem C7_bounds_safety (g : Digging3DMazeGenerator α) (m : Matrix α) :
    (∀ rnd fuel, CreateMaze g rnd fuel m ≠ Outcome.fault) ∧
    fillWall g m ≠ none ∧ sizeCheck m ≠ none ∧
    (∀ x y z, IsInRange m x y z ≠ none) ∧
    (∀ x y z v, SetMazeChip m x y z v ≠ none) ∧
    (∀ x y z, GetCanDiggingDirs g m x y z ≠ none) ∧
    GetCanRespawnSeedPositions g m ≠ none ∧
    (∀ rnd (s : LoopState α), loopBody g rnd s ≠ none) := by
  refine ⟨fun rnd fuel => CreateMaze_ne_fault g rnd fuel m, ?_, ?_, ?_, ?_, ?_, ?_, ?_⟩
  · rw [fillWall_eq]; simp
  · rw [sizeCheck_eq]; simp
  · intro x y z; rw [IsInRange_eq]; simp
  · intro x y z v; rw [SetMazeChip_eq]; simp
  · intro x y z; rw [GetCanDiggingDirs_eq]; simp
  · rw [GetCanRespawnSeedPositions_eq]; simp
  · intro rnd s; rw [loopBody_eq]; simp

theorem filled_rect (g : Digging3DMazeGenerator α) {m : Matrix α} {Dx Dy Dz : Nat}
    (hr : Rect m Dx Dy Dz) : filled g m = boxOf Dx Dy Dz g.wall_value := by
  unfold filled boxOf
  rw [← hr.1]
  apply List.eq_replicate_iff.mpr
  refine ⟨by simp, ?_⟩
  intro slice hs
  obtain ⟨sl, hsl, rfl⟩ := List.mem_map.mp hs
  rw [← (hr.2 sl hsl).1]
  apply List.eq_replicate_iff.mpr
  refine ⟨by simp, ?_⟩
  intro row hrow
  obtain ⟨r, hr1, rfl⟩ := List.mem_map.mp hrow
  rw [← (hr.2 sl hsl).2 r hr1]
  apply List.eq_replicate_iff.mpr
  refine ⟨by simp, ?_⟩
  intro c hc
  obtain ⟨_, _, rfl⟩ := List.mem_map.mp hc
  rfl

theorem stepPure_333 (rnd : Nat → Nat) :
    stepPure gen10 rnd (initState (setCell (boxOf 3 3 3 0) 1 1 1 1)) =
      { initState (setCell (boxOf 3 3 3 0) 1 1 1 1) with finish_flag := true } := by
  apply stepPure_finish
  · decide
  · decide

/-- Claim C9 (scenario B). On a 3x3x3 grid with `empty_value = 1` and `wall_value = 0`,
whatever the prior content and the random choices, `CreateMaze` returns after one iteration
of its loop with cell `(1, 1, 1)` equal to 1 and the other 26 cells equal to 0. -/
theorem C9_scenario_B (m : Matrix Nat) (hr : Rect m 3 3 3) (rnd : Nat → Nat) (fuel : Nat) :
    CreateMaze gen10 rnd (fuel + 1) m = Outcome.returned
      [[[0, 0, 0], [0, 0, 0], [0, 0, 0]],
       [[0, 0, 0], [0, 1, 0], [0, 0, 0]],
       [[0, 0, 0], [0, 0, 0], [0, 0, 0]]] := by
  rw [CreateMaze_big gen10 rnd _ hr (by norm_num) (by norm_num) (by norm_num), filled_rect gen10 hr]
  rw [whileLoop_succ gen10 rnd fuel _ rfl]
  have h : gen10.empty_value = 1 := rfl
  have hw : gen10.wall_value = 0 := rfl
  rw [h, hw, stepPure_333 rnd, whileLoop_finished _ _ _ _ rfl]
  rfl

theorem dirTriple_inj {d1 d2 : Int × Int × Int} (h1 : d1 ∈ dirs) (h2 : d2 ∈ dirs)
    (h : dirTriple d1 = dirTriple d2) : d1 = d2 := by
  simp only [dirs, List.mem_cons, List.mem_singleton, List.not_mem_nil, or_false] at h1 h2
  rcases h1 with rfl | rfl | rfl | rfl | rfl | rfl <;>
  rcases h2 with rfl | rfl | rfl | rfl | rfl | rfl <;>
  first | rfl | (exfalso; revert h; decide)

theorem check_neg_small {D : Nat} (hD : D < 2 ^ 31) {p : Nat} (hp : p < D) :
    (2 ≤ p ∧ checkCoord p (-1) = p - 2 ∧ ((p : Int) + 2 * (-1)).toNat = p - 2
        ∧ 0 ≤ (p : Int) + 2 * (-1)) ∨
      (p < 2 ∧ D ≤ checkCoord p (-1) ∧ ¬ 0 ≤ (p : Int) + 2 * (-1)) := by
  by_cases h2 : 2 ≤ p
  · left
    exact ⟨h2, checkCoord_neg p (by omega) h2, by omega, by omega⟩
  · right
    have := checkCoord_neg_wrap p (by omega)
    exact ⟨by omega, by omega, by omega⟩

theorem check_pos_small {D : Nat} (hD : D < 2 ^ 31) {p : Nat} (hp : p < D) :
    ((p : Int) + 2 * 1).toNat = p + 2 ∧ 0 ≤ (p : Int) + 2 * 1 ∧
      (checkCoord p 1 = p + 2 ∨ (D ≤ checkCoord p 1 ∧ D ≤ p + 2)) := by
  refine ⟨by omega, by omega, ?_⟩
  by_cases h2 : p + 2 < 2 ^ 31
  · left; exact checkCoord_pos p h2
  · right
    have := checkCoord_pos_wrap p (by omega) (by omega)
    omega

theorem check_zero_small {D : Nat} (hD : D < 2 ^ 31) {p : Nat} (hp : p < D) :
    checkCoord p 0 = p ∧ ((p : Int) + 2 * 0).toNat = p ∧ 0 ≤ (p : Int) + 2 * 0 :=
  ⟨checkCoord_zero p (by omega), by omega, by omega⟩

theorem holdsWall_iff (g : Digging3DMazeGenerator α) {m : Matrix α} {Dx Dy Dz : Nat}
    (hr : Rect m Dx Dy Dz) (hDx : Dx < 2 ^ 31) (hDy : Dy < 2 ^ 31) (hDz : Dz < 2 ^ 31)
    {x y z : Nat} (hx : x < Dx) (hy : y < Dy) (hz : z < Dz) (d : Int × Int × Int)
    (hd : d ∈ dirs) :
    decide (readCell m (checkCoord x d.1) (checkCoord y d.2.1) (checkCoord z d.2.2)
        = some g.wall_value)
      = holdsWallAt g m (x + 2 * d.1) (y + 2 * d.2.1) (z + 2 * d.2.2) := by
  unfold holdsWallAt
  rw [decide_eq_decide]
  have zx := check_zero_small hDx hx
  have zy := check_zero_small hDy hy
  have zz := check_zero_small hDz hz
  simp only [dirs, List.mem_cons, List.mem_singleton, List.not_mem_nil, or_false] at hd
  rcases hd with rfl | rfl | rfl | rfl | rfl | rfl <;> dsimp only
  · rcases check_neg_small hDx hx with ⟨h2, he, ht, hn⟩ | ⟨h2, hge, hn⟩
    · rw [he, ht, zy.1, zy.2.1, zz.1, zz.2.1]
      exact ⟨fun h => ⟨by omega, by omega, by omega, h⟩, fun h => h.2.2.2⟩
    · rw [readCell_none_of_ge hr _ _ _ (by rw [zy.1, zz.1]; omega)]
      exact ⟨fun h => by simp at h, fun h => by omega⟩
  · obtain ⟨ht, hn, hc⟩ := check_pos_small hDx hx
    rw [ht, zy.1, zy.2.1, zz.1, zz.2.1]
    rcases hc with he | ⟨hge, hge2⟩
    · rw [he]
      exact ⟨fun h => ⟨by omega, by omega, by omega, h⟩, fun h => h.2.2.2⟩
    · rw [readCell_none_of_ge hr _ _ _ (by omega), readCell_none_of_ge hr _ _ _ (by omega)]
      exact ⟨fun h => by simp at h, fun h => by simp at h⟩
  · rcases check_neg_small hDy hy with ⟨h2, he, ht, hn⟩ | ⟨h2, hge, hn⟩
    · rw [he, ht, zx.1, zx.2.1, zz.1, zz.2.1]
      exact ⟨fun h => ⟨by omega, by omega, by omega, h⟩, fun h => h.2.2.2⟩
    · rw [readCell_none_of_ge hr _ _ _ (by rw [zx.1, zz.1]; omega)]
      exact ⟨fun h => by simp at h, fun h => by omega⟩
  · obtain ⟨ht, hn, hc⟩ := check_pos_small hDy hy
    rw [ht, zx.1, zx.2.1, zz.1, zz.2.1]
    rcases hc with he | ⟨hge, hge2⟩
    · rw [he]
      exact ⟨fun h => ⟨by omega, by omega, by omega, h⟩, fun h => h.2.2.2⟩
    · rw [readCell_none_of_ge hr _ _ _ (by omega), readCell_none_of_ge hr _ _ _ (by omega)]
      exact ⟨fun h => by simp at h, fun h => by simp at h⟩
  · rcases check_neg_small hDz hz with ⟨h2, he, ht, hn⟩ | ⟨h2, hge, hn⟩
    · rw [he, ht, zx.1, zx.2.1, zy.1, zy.2.1]
      exact ⟨fun h => ⟨by omega, by omega, by omega, h⟩, fun h => h.2.2.2⟩
    · rw [readCell_none_of_ge hr _ _ _ (by rw [zx.1, zy.1]; omega)]
      exact ⟨fun h => by simp at h, fun h => by omega⟩
  · obtain ⟨ht, hn, hc⟩ := check_pos_small hDz hz
    rw [ht, zx.1, zx.2.1, zy.1, zy.2.1]
    rcases hc with he | ⟨hge, hge2⟩
    · rw [he]
      exact ⟨fun h => ⟨by omega, by omega, by omega, h⟩, fun h => h.2.2.2⟩
    · rw [readCell_none_of_ge hr _ _ _ (by omega), readCell_none_of_ge hr _ _ _ (by omega)]
      exact ⟨fun h => by simp at h, fun h => by simp at h⟩

/-- Claim C10 (diggable directions). On a rectangular grid with extents below `2 ^ 31`, at
every in-bounds position `(x, y, z)`, `GetCanDiggingDirs` returns, in the order of the table
`dirs` (-x, +x, -y, +y, -z, +z), exactly the directions `d` whose target `(x, y, z) + 2 d`,
computed over the integers, is inside the grid and holds `wall_value`; a direction whose
target has a negative coordinate is never returned, the coordinate tested for it being the
wrapped index `2 ^ 64 - 2 + p`. -/
theorem C10_diggable_directions (g : Digging3DMazeGenerator α) (m : Matrix α) (Dx Dy Dz : Nat)
    (hr : Rect m Dx Dy Dz) (hDx : Dx < 2 ^ 31) (hDy : Dy < 2 ^ 31) (hDz : Dz < 2 ^ 31)
    (x y z : Nat) (hx : x < Dx) (hy : y < Dy) (hz : z < Dz) :
    GetCanDiggingDirs g m x y z = some ((dirs.filter fun d =>
        holdsWallAt g m (x + 2 * d.1) (y + 2 * d.2.1) (z + 2 * d.2.2)).map dirTriple) ∧
    (∀ d ∈ dirs, ((x : Int) + 2 * d.1 < 0 ∨ (y : Int) + 2 * d.2.1 < 0 ∨ (z : Int) + 2 * d.2.2 < 0) →
      ∀ res, GetCanDiggingDirs g m x y z = some res → dirTriple d ∉ res) ∧
    (∀ p, p < 2 → checkCoord p (-1) = 2 ^ 64 - 2 + p) := by
  have heq : GetCanDiggingDirs g m x y z = some ((dirs.filter fun d =>
      holdsWallAt g m (x + 2 * d.1) (y + 2 * d.2.1) (z + 2 * d.2.2)).map dirTriple) := by
    rw [GetCanDiggingDirs_eq]
    unfold digDirs
    congr 2
    apply List.filter_congr
    intro d hd
    exact holdsWall_iff g hr hDx hDy hDz hx hy hz d hd
  refine ⟨heq, ?_, ?_⟩
  · intro d hd hneg res hres hmem
    rw [heq] at hres
    rw [← Option.some.inj hres] at hmem
    obtain ⟨d1, hd1, he⟩ := List.mem_map.mp hmem
    rw [List.mem_filter] at hd1
    have := dirTriple_inj hd1.1 hd he
    subst this
    have hw := hd1.2
    unfold holdsWallAt at hw
    rw [decide_eq_true_eq] at hw
    omega
  · intro p hp
    unfold checkCoord toSize wrapInt toInt
    have h1 : p % 2 ^ 32 = p := Nat.mod_eq_of_lt (by omega)
    rw [h1]
    have : p < 2 ^ 31 := by omega
    simp only [this, if_true]
    omega

/-- An instance of claim C1: a 5x5x5 box with prior content 7. -/
theorem C1_connectivity_witness :
    gen10.empty_value ≠ gen10.wall_value ∧ Rect (boxOf 5 5 5 7) 5 5 5 ∧
      AfterCreateMaze gen10 (fun k => k) (boxOf 5 5 5 7) fun m1 =>
        ConnectedRooms gen10 m1 ∧ isRoom 1 1 1 ∧ cellAt m1 (1, 1, 1) = some gen10.empty_value :=
  ⟨by decide, rect_boxOf 5 5 5 7,
    C1_connectivity gen10 (by decide) (boxOf 5 5 5 7) 5 5 5 (rect_boxOf 5 5 5 7)
      (by decide) (by decide) (by decide) (by norm_num) (by norm_num) (by norm_num) fun k => k⟩

/-- An instance of claim C2: a 7x7x7 box with prior content 3. -/
theorem C2_acyclicity_witness :
    gen10.empty_value ≠ gen10.wall_value ∧ Rect (boxOf 7 7 7 3) 7 7 7 ∧
      AfterCreateMaze gen10 (fun k => k) (boxOf 7 7 7 3) fun m1 =>
        (emptyLinks gen10 m1 7 7 7).card + 1 = (emptyRooms gen10 m1 7 7 7).card ∧
        (emptyLinks gen10 m1 7 7 7).card = (emptyRooms gen10 m1 7 7 7).card - 1 ∧
        ((7 : Nat) = 7 ∧ (7 : Nat) = 7 ∧ (7 : Nat) = 7 → (emptyLinks gen10 m1 7 7 7).card = 26) :=
  ⟨by decide, rect_boxOf 7 7 7 3,
    C2_acyclicity gen10 (by decide) (boxOf 7 7 7 3) 7 7 7 (rect_boxOf 7 7 7 3)
      (by decide) (by decide) (by decide) (by norm_num) (by norm_num) (by norm_num) fun k => k⟩

/-- An instance of `coverage_int_range`: a 7x7x7 box with prior content 3. -/
theorem coverage_int_range_instance :
    gen10.empty_value ≠ gen10.wall_value ∧ Rect (boxOf 7 7 7 3) 7 7 7 ∧
      AfterCreateMaze gen10 (fun k => 3 * k + 1) (boxOf 7 7 7 3) fun m1 =>
        (∀ x y z, x < 7 → y < 7 → z < 7 → isRoom x y z →
          x < 2 ^ 31 → y < 2 ^ 31 → z < 2 ^ 31 → readCell m1 x y z = some gen10.empty_value) ∧
        ((7 : Nat) = 7 ∧ (7 : Nat) = 7 ∧ (7 : Nat) = 7 → (emptyRooms gen10 m1 7 7 7).card = 27) :=
  ⟨by decide, rect_boxOf 7 7 7 3,
    coverage_int_range gen10 (by decide) (boxOf 7 7 7 3) 7 7 7 (rect_boxOf 7 7 7 3)
      (by decide) (by decide) (by decide) (by norm_num) (by norm_num) (by norm_num)
      fun k => 3 * k + 1⟩

/-- An instance of claim C4: a 4x5x6 box with prior content 9. -/
theorem C4_pillar_witness :
    gen10.empty_value ≠ gen10.wall_value ∧ Rect (boxOf 4 5 6 9) 4 5 6 ∧
      AfterCreateMaze gen10 (fun k => k * k) (boxOf 4 5 6 9) fun m1 =>
        ∀ x y z, x < 4 → y < 5 → z < 6 → isPillar x y z →
          readCell m1 x y z = some gen10.wall_value :=
  ⟨by decide, rect_boxOf 4 5 6 9,
    C4_pillar gen10 (by decide) (boxOf 4 5 6 9) 4 5 6 (rect_boxOf 4 5 6 9)
      (by decide) (by decide) (by decide) (by norm_num) (by norm_num) (by norm_num)
      fun k => k * k⟩

/-- An instance of claim C5: a 5x5x5 box with prior content 7. -/
theorem C5_termination_witness :
    gen10.empty_value ≠ gen10.wall_value ∧ Rect (boxOf 5 5 5 7) 5 5 5 ∧
      ∃ n m1, n ≤ 5 * 5 * 5 ∧
        (∀ fuel, n ≤ fuel →
          CreateMaze gen10 (fun k => k) fuel (boxOf 5 5 5 7) = Outcome.returned m1) ∧
        (∀ fuel, fuel < n →
          CreateMaze gen10 (fun k => k) fuel (boxOf 5 5 5 7) = Outcome.outOfFuel) :=
  ⟨by decide, rect_boxOf 5 5 5 7,
    C5_termination gen10 (by decide) (boxOf 5 5 5 7) 5 5 5 (rect_boxOf 5 5 5 7)
      (by norm_num) (by norm_num) (by norm_num) fun k => k⟩

/-- An instance of claim C6: the 2x2x2 box of scenario A. -/
theorem C6_degenerate_witness :
    Rect (boxOf 2 2 2 5) 2 2 2 ∧
      ∃ m1, CreateMaze gen10 (fun k => k) 0 (boxOf 2 2 2 5) = Outcome.returned m1 ∧
        Rect m1 2 2 2 ∧
        (∀ x y z, x < 2 → y < 2 → z < 2 → readCell m1 x y z = some gen10.wall_value) ∧
        (∀ x y z v, readCell m1 x y z = some v → v = gen10.wall_value) :=
  ⟨rect_boxOf 2 2 2 5,
    C6_degenerate gen10 (boxOf 2 2 2 5) 2 2 2 (rect_boxOf 2 2 2 5) (Or.inl (by decide))
      (fun k => k) 0⟩

/-- An instance of claim C8: two ragged grids of one shape. -/
theorem C8_coverage_reset_witness :
    SameShape [[[1, 2, 3], [4]], [[5, 6]]] [[[0, 0, 1], [1]], [[7, 7]]] ∧
      ((∃ m0, fillWall gen10 [[[1, 2, 3], [4]], [[5, 6]]] = some m0 ∧
          fillWall gen10 [[[0, 0, 1], [1]], [[7, 7]]] = some m0 ∧
          SameShape m0 [[[1, 2, 3], [4]], [[5, 6]]] ∧
          ∀ x y z v, readCell m0 x y z = some v → v = gen10.wall_value) ∧
        CreateMaze gen10 (fun k => k) 9 [[[1, 2, 3], [4]], [[5, 6]]]
          = CreateMaze gen10 (fun k => k) 9 [[[0, 0, 1], [1]], [[7, 7]]]) :=
  ⟨rfl,
    C8_coverage_reset gen10 [[[1, 2, 3], [4]], [[5, 6]]] [[[0, 0, 1], [1]], [[7, 7]]]
      rfl (fun k => k) 9⟩

/-- An instance of claim C9: a 3x3x3 box with prior content 4. -/
theorem C9_scenario_B_witness :
    Rect (boxOf 3 3 3 4) 3 3 3 ∧
      CreateMaze gen10 (fun k => 2 * k) (0 + 1) (boxOf 3 3 3 4) = Outcome.returned
        [[[0, 0, 0], [0, 0, 0], [0, 0, 0]],
         [[0, 0, 0], [0, 1, 0], [0, 0, 0]],
         [[0, 0, 0], [0, 0, 0], [0, 0, 0]]] :=
  ⟨rect_boxOf 3 3 3 4, C9_scenario_B (boxOf 3 3 3 4) (rect_boxOf 3 3 3 4) (fun k => 2 * k) 0⟩

/-- An instance of claim C10: the position (1, 3, 1) of a 5x5x5 box of walls. -/
theorem C10_diggable_directions_witness :
    Rect (boxOf 5 5 5 0) 5 5 5 ∧
      (GetCanDiggingDirs gen10 (boxOf 5 5 5 0) 1 3 1 = some ((dirs.filter fun d =>
          holdsWallAt gen10 (boxOf 5 5 5 0) ((1 : Nat) + 2 * d.1) ((3 : Nat) + 2 * d.2.1)
            ((1 : Nat) + 2 * d.2.2)).map dirTriple) ∧
        (∀ d ∈ dirs, (((1 : Nat) : Int) + 2 * d.1 < 0 ∨ ((3 : Nat) : Int) + 2 * d.2.1 < 0 ∨
            ((1 : Nat) : Int) + 2 * d.2.2 < 0) →
          ∀ res, GetCanDiggingDirs gen10 (boxOf 5 5 5 0) 1 3 1 = some res → dirTriple d ∉ res) ∧
        (∀ p, p < 2 → checkCoord p (-1) = 2 ^ 64 - 2 + p)) :=
  ⟨rect_boxOf 5 5 5 0,
    C10_diggable_directions gen10 (boxOf 5 5 5 0) 5 5 5 (rect_boxOf 5 5 5 0)
      (by norm_num) (by norm_num) (by norm_num) 1 3 1 (by decide) (by decide) (by decide)⟩

theorem CreateMaze_loopEntry (g : Digging3DMazeGenerator α) (rnd : Nat → Nat) (fuel : Nat)
    (m : Matrix α) (s0 : LoopState α) (h : loopEntry g m = some s0) :
    CreateMaze g rnd fuel m = whileLoop g rnd fuel s0 := by
  unfold loopEntry at h
  unfold CreateMaze
  rw [fillWall_eq] at h ⊢
  simp only [sizeCheck_eq, SetMazeChip_eq] at h ⊢
  split at h
  · cases h
  · cases h
  · simp only [Option.some.injEq] at h
    rw [← h]

theorem loopEntry_rect (g : Digging3DMazeGenerator α) {m : Matrix α} {Dx Dy Dz : Nat}
    (hr : Rect m Dx Dy Dz) :
    loopEntry g m = if Dx ≤ 2 ∨ Dy ≤ 2 ∨ Dz ≤ 2 then none
      else some (initState (setCell (filled g m) 1 1 1 g.empty_value)) := by
  unfold loopEntry
  rw [fillWall_eq]
  simp only [sizeCheck_eq, SetMazeChip_eq, initState]
  have := rect_sizes (rect_filled g hr)
  by_cases hc : Dx ≤ 2 ∨ Dy ≤ 2 ∨ Dz ≤ 2
  · have h1 : (filled g m).length ≤ 2 ∨ (sliceSize (filled g m) 0).getD 0 ≤ 2
        ∨ (rowSize (filled g m) 0 0).getD 0 ≤ 2 := this.mpr (by omega)
    simp [h1, hc]
  · have h1 : ¬ ((filled g m).length ≤ 2 ∨ (sliceSize (filled g m) 0).getD 0 ≤ 2
        ∨ (rowSize (filled g m) 0 0).getD 0 ≤ 2) := fun h => hc (by have := this.mp h; omega)
    simp [h1, hc]

theorem stateAfter_succ (g : Digging3DMazeGenerator α) (rnd : Nat → Nat) (s0 : LoopState α)
    (k : Nat) (s1 : LoopState α) :
    stateAfter g rnd s0 (k + 1) = some s1 ↔
      ∃ s, stateAfter g rnd s0 k = some s ∧ s.finish_flag = false ∧ stepPure g rnd s = s1 := by
  rw [stateAfter]
  cases hk : stateAfter g rnd s0 k with
  | none => simp
  | some s =>
    cases hf : s.finish_flag
    · simp [hf, loopBody_eq]
    · simp [hf]

theorem stateAfter_induction (g : Digging3DMazeGenerator α) (rnd : Nat → Nat) (s0 : LoopState α)
    (P : LoopState α → Prop) (h0 : P s0)
    (hstep : ∀ s, P s → s.finish_flag = false → P (stepPure g rnd s)) :
    ∀ k s, stateAfter g rnd s0 k = some s → P s := by
  intro k
  induction k with
  | zero =>
    intro s hs
    simp only [stateAfter, Option.some.injEq] at hs
    rw [← hs]; exact h0
  | succ k ih =>
    intro s hs
    obtain ⟨s1, h1, hf, rfl⟩ := (stateAfter_succ g rnd s0 k s).mp hs
    exact hstep s1 (ih s1 h1) hf

theorem whileLoop_stateAfter (g : Digging3DMazeGenerator α) (rnd : Nat → Nat) (s0 : LoopState α)
    (k : Nat) (s : LoopState α) (h : stateAfter g rnd s0 k = some s) (n : Nat) :
    whileLoop g rnd (k + n) s0 = whileLoop g rnd n s := by
  induction k generalizing s n with
  | zero =>
    simp only [stateAfter, Option.some.injEq] at h
    rw [h, Nat.zero_add]
  | succ k ih =>
    obtain ⟨s1, h1, hf, rfl⟩ := (stateAfter_succ g rnd s0 k s).mp h
    rw [show k + 1 + n = k + (n + 1) by omega, ih s1 h1 (n + 1), whileLoop_succ g rnd n s1 hf]

theorem same_not_stuck {g : Digging3DMazeGenerator α} {Dx Dy Dz : Nat} {s : LoopState α}
    (hI : InvSame g Dx Dy Dz s)
    (h4 : 4 ≤ Dx ∨ 4 ≤ Dy ∨ 4 ≤ Dz) :
    digDirs g s.matrix_ s.seed_x s.seed_y s.seed_z ≠ [] := by
  obtain ⟨hx, hy, hz⟩ := hI.seed_lim
  simp only [lim_lt] at hx hy hz
  have hwall : ∀ a b c, a < Dx → b < Dy → c < Dz →
      readCell s.matrix_ a b c = some g.wall_value := by
    intro a b c ha hb hc
    obtain ⟨v, hv⟩ := rect_readCell_exists hI.rect ha hb hc
    rw [hv, hI.allwall a b c v hv]
  have key : ∃ mid q : Triple, Link (s.seed_x, s.seed_y, s.seed_z) mid q ∧
      (q.1 < 2 ^ 31 ∧ q.2.1 < 2 ^ 31 ∧ q.2.2 < 2 ^ 31) ∧
      cellAt s.matrix_ q = some g.wall_value := by
    rcases h4 with h | h | h
    · by_cases h2 : 2 ≤ s.seed_x
      · have hw : readCell s.matrix_ (s.seed_x - 2) s.seed_y s.seed_z = some g.wall_value :=
          hwall _ _ _ (by omega) (by omega) (by omega)
        have hl : Link (s.seed_x, s.seed_y, s.seed_z) (s.seed_x - 1, s.seed_y, s.seed_z) (s.seed_x - 2, s.seed_y, s.seed_z) := by
          simp only [Link, Between]; left
          refine ⟨?_, ?_, ?_, ?_, ?_⟩ <;> first | trivial | omega
        exact ⟨(s.seed_x - 1, s.seed_y, s.seed_z), (s.seed_x - 2, s.seed_y, s.seed_z), hl, ⟨by dsimp only; omega, by dsimp only; omega, by dsimp only; omega⟩, hw⟩
      · have hw : readCell s.matrix_ (s.seed_x + 2) s.seed_y s.seed_z = some g.wall_value :=
          hwall _ _ _ (by omega) (by omega) (by omega)
        have hl : Link (s.seed_x, s.seed_y, s.seed_z) (s.seed_x + 1, s.seed_y, s.seed_z) (s.seed_x + 2, s.seed_y, s.seed_z) := by
          simp only [Link, Between]; left
          refine ⟨?_, ?_, ?_, ?_, ?_⟩ <;> first | trivial | omega | simp
        exact ⟨(s.seed_x + 1, s.seed_y, s.seed_z), (s.seed_x + 2, s.seed_y, s.seed_z), hl, ⟨by dsimp only; omega, by dsimp only; omega, by dsimp only; omega⟩, hw⟩
    · by_cases h2 : 2 ≤ s.seed_y
      · have hw : readCell s.matrix_ s.seed_x (s.seed_y - 2) s.seed_z = some g.wall_value :=
          hwall _ _ _ (by omega) (by omega) (by omega)
        have hl : Link (s.seed_x, s.seed_y, s.seed_z) (s.seed_x, s.seed_y - 1, s.seed_z) (s.seed_x, s.seed_y - 2, s.seed_z) := by
          simp only [Link, Between]; right; left
          refine ⟨?_, ?_, ?_, ?_, ?_⟩ <;> first | trivial | omega
        exact ⟨(s.seed_x, s.seed_y - 1, s.seed_z), (s.seed_x, s.seed_y - 2, s.seed_z), hl, ⟨by dsimp only; omega, by dsimp only; omega, by dsimp only; omega⟩, hw⟩
      · have hw : readCell s.matrix_ s.seed_x (s.seed_y + 2) s.seed_z = some g.wall_value :=
          hwall _ _ _ (by omega) (by omega) (by omega)
        have hl : Link (s.seed_x, s.seed_y, s.seed_z) (s.seed_x, s.seed_y + 1, s.seed_z) (s.seed_x, s.seed_y + 2, s.seed_z) := by
          simp only [Link, Between]; right; left
          refine ⟨?_, ?_, ?_, ?_, ?_⟩ <;> first | trivial | omega | simp
        exact ⟨(s.seed_x, s.seed_y + 1, s.seed_z), (s.seed_x, s.seed_y + 2, s.seed_z), hl, ⟨by dsimp only; omega, by dsimp only; omega, by dsimp only; omega⟩, hw⟩
    · by_cases h2 : 2 ≤ s.seed_z
      · have hw : readCell s.matrix_ s.seed_x s.seed_y (s.seed_z - 2) = some g.wall_value :=
          hwall _ _ _ (by omega) (by omega) (by omega)
        have hl : Link (s.seed_x, s.seed_y, s.seed_z) (s.seed_x, s.seed_y, s.seed_z - 1) (s.seed_x, s.seed_y, s.seed_z - 2) := by
          simp only [Link, Between]; right; right
          refine ⟨?_, ?_, ?_, ?_, ?_⟩ <;> first | trivial | omega
        exact ⟨(s.seed_x, s.seed_y, s.seed_z - 1), (s.seed_x, s.seed_y, s.seed_z - 2), hl, ⟨by dsimp only; omega, by dsimp only; omega, by dsimp only; omega⟩, hw⟩
      · have hw : readCell s.matrix_ s.seed_x s.seed_y (s.seed_z + 2) = some g.wall_value :=
          hwall _ _ _ (by omega) (by omega) (by omega)
        have hl : Link (s.seed_x, s.seed_y, s.seed_z) (s.seed_x, s.seed_y, s.seed_z + 1) (s.seed_x, s.seed_y, s.seed_z + 2) := by
          simp only [Link, Between]; right; right
          refine ⟨?_, ?_, ?_, ?_, ?_⟩ <;> first | trivial | omega | simp
        exact ⟨(s.seed_x, s.seed_y, s.seed_z + 1), (s.seed_x, s.seed_y, s.seed_z + 2), hl, ⟨by dsimp only; omega, by dsimp only; omega, by dsimp only; omega⟩, hw⟩
  obtain ⟨mid, q, hl, hq, hw⟩ := key
  exact digDirs_ne_nil g s.matrix_ hx.2 hy.2 hz.2 hq hl hw

theorem invSame_dig {g : Digging3DMazeGenerator α} (heq : g.empty_value = g.wall_value)
    {Dx Dy Dz : Nat} (hDx : Dx < 2 ^ 63) (hDy : Dy < 2 ^ 63) (hDz : Dz < 2 ^ 63)
    {s : LoopState α} (hI : InvSame g Dx Dy Dz s) {t : Triple}
    (ht : t ∈ digDirs g s.matrix_ s.seed_x s.seed_y s.seed_z) :
    InvSame g Dx Dy Dz (digStep g s t) := by
  obtain ⟨hl, hq1, hq2, hq3, _⟩ :=
    digDirs_link g hI.rect hDx hDy hDz hI.seed_lim.1 hI.seed_lim.2.1 hI.seed_lim.2.2 ht
  refine ⟨rect_setCell (rect_setCell hI.rect _ _ _ _) _ _ _ _, ?_,
    (link_parity hl hI.seed_room).1, ⟨hq1, hq2, hq3⟩⟩
  intro x y z v hv
  simp only [digStep] at hv
  rw [readCell_setCell] at hv
  split_ifs at hv
  · rw [← Option.some.inj hv, heq]
  · rw [readCell_setCell] at hv
    split_ifs at hv
    · rw [← Option.some.inj hv, heq]
    · exact hI.allwall x y z v hv

theorem invSame_respawn {g : Digging3DMazeGenerator α} (heq : g.empty_value = g.wall_value)
    {Dx Dy Dz : Nat} (hDx : Dx < 2 ^ 63) (hDy : Dy < 2 ^ 63) (hDz : Dz < 2 ^ 63)
    {s : LoopState α} (hI : InvSame g Dx Dy Dz s)
    (hstuck : digDirs g s.matrix_ s.seed_x s.seed_y s.seed_z = []) {p : Triple}
    (hp : p ∈ respawnSeeds g s.matrix_) :
    InvSame g Dx Dy Dz (respawnStep g s p) := by
  obtain ⟨hroom, hc, _⟩ := (mem_respawnSeeds g hI.rect hDx hDy hDz p).mp hp
  have hb := rect_readCell_some hI.rect hc
  have hsmall : ¬ (4 ≤ Dx ∨ 4 ≤ Dy ∨ 4 ≤ Dz) := fun h => same_not_stuck hI h hstuck
  refine ⟨rect_setCell hI.rect _ _ _ _, ?_, hroom, ?_⟩
  · intro x y z v hv
    simp only [respawnStep] at hv
    rw [readCell_setCell] at hv
    split_ifs at hv
    · rw [← Option.some.inj hv, heq]
    · exact hI.allwall x y z v hv
  · simp only [respawnStep, lim_lt]
    omega

theorem invSame_step {g : Digging3DMazeGenerator α} (heq : g.empty_value = g.wall_value)
    {Dx Dy Dz : Nat} (hDx : Dx < 2 ^ 63) (hDy : Dy < 2 ^ 63) (hDz : Dz < 2 ^ 63)
    (rnd : Nat → Nat) {s : LoopState α} (hI : InvSame g Dx Dy Dz s) :
    InvSame g Dx Dy Dz (stepPure g rnd s) := by
  by_cases h1 : digDirs g s.matrix_ s.seed_x s.seed_y s.seed_z = []
  · by_cases h2 : respawnSeeds g s.matrix_ = []
    · rw [stepPure_finish g rnd s h1 h2]
      exact ⟨hI.rect, hI.allwall, hI.seed_room, hI.seed_lim⟩
    · obtain ⟨p, hp, he⟩ := stepPure_respawn g rnd s h1 h2
      rw [he]
      exact invSame_respawn heq hDx hDy hDz hI h1 hp
  · obtain ⟨t, ht, he⟩ := stepPure_dig g rnd s h1
    rw [he]
    exact invSame_dig heq hDx hDy hDz hI ht

theorem invSame_init {g : Digging3DMazeGenerator α} (heq : g.empty_value = g.wall_value)
    {m : Matrix α} {Dx Dy Dz : Nat} (hr : Rect m Dx Dy Dz)
    (hx : 2 < Dx) (hy : 2 < Dy) (hz : 2 < Dz) :
    InvSame g Dx Dy Dz (initState (setCell (filled g m) 1 1 1 g.empty_value)) := by
  refine ⟨rect_setCell (rect_filled g hr) _ _ _ _, ?_, by simp [initState, isRoom], ?_⟩
  · intro x y z v hv
    simp only [initState] at hv
    rw [readCell_setCell, readCell_filled] at hv
    split_ifs at hv
    · rw [← Option.some.inj hv, heq]
    · cases hrc : readCell m x y z with
      | none => rw [hrc] at hv; simp at hv
      | some w => rw [hrc] at hv; simp at hv; exact hv.symm
  · simp only [initState, lim_lt]
    omega

theorem iterStart_rect {g : Digging3DMazeGenerator α} {rnd : Nat → Nat} {m : Matrix α}
    {Dx Dy Dz : Nat} (hr : Rect m Dx Dy Dz) {k : Nat} {s : LoopState α}
    (h : IterStart g rnd m k s) :
    (2 < Dx ∧ 2 < Dy ∧ 2 < Dz) ∧
      stateAfter g rnd (initState (setCell (filled g m) 1 1 1 g.empty_value)) k = some s ∧
      s.finish_flag = false := by
  obtain ⟨s0, h0, hk, hf⟩ := h
  rw [loopEntry_rect g hr] at h0
  split_ifs at h0 with hc
  rw [← Option.some.inj h0] at hk
  exact ⟨by omega, hk, hf⟩

theorem iterStart_of_rect {g : Digging3DMazeGenerator α} {rnd : Nat → Nat} {m : Matrix α}
    {Dx Dy Dz : Nat} (hr : Rect m Dx Dy Dz) (hx : 2 < Dx) (hy : 2 < Dy) (hz : 2 < Dz)
    {k : Nat} {s : LoopState α}
    (hk : stateAfter g rnd (initState (setCell (filled g m) 1 1 1 g.empty_value)) k = some s)
    (hf : s.finish_flag = false) : IterStart g rnd m k s := by
  refine ⟨_, ?_, hk, hf⟩
  rw [loopEntry_rect g hr, if_neg (by omega)]

theorem iter_inv {g : Digging3DMazeGenerator α} (hne : g.empty_value ≠ g.wall_value)
    {m : Matrix α} {Dx Dy Dz : Nat} (hr : Rect m Dx Dy Dz)
    (hDx : Dx < 2 ^ 63) (hDy : Dy < 2 ^ 63) (hDz : Dz < 2 ^ 63)
    {rnd : Nat → Nat} {k : Nat} {s : LoopState α} (h : IterStart g rnd m k s) :
    Inv g Dx Dy Dz s := by
  obtain ⟨⟨hx, hy, hz⟩, hk, _⟩ := iterStart_rect hr h
  exact stateAfter_induction g rnd _ (Inv g Dx Dy Dz) (inv_init hne hr hx hy hz)
    (fun s1 hI hf => inv_step hne hDx hDy hDz rnd hI hf) k s hk

theorem iter_invSame {g : Digging3DMazeGenerator α} (heq : g.empty_value = g.wall_value)
    {m : Matrix α} {Dx Dy Dz : Nat} (hr : Rect m Dx Dy Dz)
    (hDx : Dx < 2 ^ 63) (hDy : Dy < 2 ^ 63) (hDz : Dz < 2 ^ 63)
    {rnd : Nat → Nat} {k : Nat} {s : LoopState α} (h : IterStart g rnd m k s) :
    InvSame g Dx Dy Dz s := by
  obtain ⟨⟨hx, hy, hz⟩, hk, _⟩ := iterStart_rect hr h
  exact stateAfter_induction g rnd _ (InvSame g Dx Dy Dz) (invSame_init heq hr hx hy hz)
    (fun s1 hI _ => invSame_step heq hDx hDy hDz rnd hI) k s hk

theorem iter_base {g : Digging3DMazeGenerator α}
    {m : Matrix α} {Dx Dy Dz : Nat} (hr : Rect m Dx Dy Dz)
    (hDx : Dx < 2 ^ 63) (hDy : Dy < 2 ^ 63) (hDz : Dz < 2 ^ 63)
    {rnd : Nat → Nat} {k : Nat} {s : LoopState α} (h : IterStart g rnd m k s) :
    Base g Dx Dy Dz s := by
  by_cases heq : g.empty_value = g.wall_value
  · have hI := iter_invSame heq hr hDx hDy hDz h
    refine ⟨hI.rect, hI.seed_room, hI.seed_lim, ?_⟩
    have hl := hI.seed_lim
    simp only [lim_lt] at hl
    obtain ⟨v, hv⟩ := rect_readCell_exists hI.rect hl.1.1 hl.2.1.1 hl.2.2.1
    rw [hv, hI.allwall _ _ _ v hv, heq]
  · have hI := iter_inv heq hr hDx hDy hDz h
    exact ⟨hI.rect, hI.seed_room, inv_seed_lim hI, hI.seed_empty⟩

theorem nodup_flatMap_key {β γ κ : Type} (l : List β) (hl : l.Nodup) (f : β → List γ)
    (key : γ → κ) (kf : β → κ) (hinj : ∀ a ∈ l, ∀ b ∈ l, kf a = kf b → a = b)
    (hkey : ∀ a ∈ l, ∀ c ∈ f a, key c = kf a) (hn : ∀ a ∈ l, (f a).Nodup) :
    (l.flatMap f).Nodup := by
  rw [List.nodup_flatMap]
  refine ⟨hn, ?_⟩
  refine List.Pairwise.imp_of_mem ?_ hl
  intro a b ha hb hab
  show List.Disjoint (f a) (f b)
  intro c hca hcb
  exact hab (hinj a ha b hb ((hkey a ha c hca).symm.trans (hkey b hb c hcb)))

theorem nodup_respawnSeeds (g : Digging3DMazeGenerator α) {m : Matrix α} {Dx Dy Dz : Nat}
    (hr : Rect m Dx Dy Dz) (hDx : Dx < 2 ^ 63) (hDy : Dy < 2 ^ 63) (hDz : Dz < 2 ^ 63) :
    (respawnSeeds g m).Nodup := by
  have hlen : m.length = Dz := hr.1
  unfold respawnSeeds
  apply nodup_flatMap_key _ (List.nodup_range _) _ (fun p : Triple => p.2.2)
    (fun z => (z * 2 + 1) % sizeMod)
  · intro a ha b hb hab
    rw [List.mem_range] at ha hb
    rw [Nat.mod_eq_of_lt (by unfold sizeMod; omega),
      Nat.mod_eq_of_lt (by unfold sizeMod; omega)] at hab
    omega
  · intro z _ c hc
    simp only [List.mem_flatMap] at hc
    obtain ⟨y, _, x, _, hx⟩ := hc
    split_ifs at hx
    · rw [List.mem_singleton.mp hx]
    · simp at hx
  · intro z hz
    rw [List.mem_range, hlen] at hz
    have ez : z * 2 % sizeMod = z * 2 := Nat.mod_eq_of_lt (by unfold sizeMod; omega)
    rw [ez, rect_sliceSize hr (by omega : z * 2 < Dz)]
    simp only [Option.getD_some]
    apply nodup_flatMap_key _ (List.nodup_range _) _ (fun p : Triple => p.2.1)
      (fun y => (y * 2 + 1) % sizeMod)
    · intro a ha b hb hab
      rw [List.mem_range] at ha hb
      rw [Nat.mod_eq_of_lt (by unfold sizeMod; omega),
        Nat.mod_eq_of_lt (by unfold sizeMod; omega)] at hab
      omega
    · intro y _ c hc
      simp only [List.mem_flatMap] at hc
      obtain ⟨x, _, hx⟩ := hc
      split_ifs at hx
      · rw [List.mem_singleton.mp hx]
      · simp at hx
    · intro y hy
      rw [List.mem_range] at hy
      have ey : y * 2 % sizeMod = y * 2 := Nat.mod_eq_of_lt (by unfold sizeMod; omega)
      rw [ey, rect_rowSize hr (by omega : z * 2 < Dz) (by omega : y * 2 < Dy)]
      simp only [Option.getD_some]
      apply nodup_flatMap_key _ (List.nodup_range _) _ (fun p : Triple => p.1)
        (fun x => (x * 2 + 1) % sizeMod)
      · intro a ha b hb hab
        rw [List.mem_range] at ha hb
        rw [Nat.mod_eq_of_lt (by unfold sizeMod; omega),
          Nat.mod_eq_of_lt (by unfold sizeMod; omega)] at hab
        omega
      · intro x _ c hc
        split_ifs at hc
        · rw [List.mem_singleton.mp hc]
        · simp at hc
      · intro x _
        split_ifs
        · exact List.nodup_singleton _
        · exact List.nodup_nil

/-- Claim C11 (respawn candidates). On a rectangular grid (extents odd or even, each a
container size below `2 ^ 63`), whatever its content, `GetCanRespawnSeedPositions` returns
a list without repetition whose members are exactly the in-bounds coordinates with all three
components odd that hold `empty_value` and for which `GetCanDiggingDirs` returns a non-empty
list; every in-bounds all-odd coordinate `(x, y, z)` is the coordinate tested at the loop
indices `(x / 2, y / 2, z / 2)`, which are within the loop bounds `size() / 2`. -/
theorem C11_respawn_candidates (g : Digging3DMazeGenerator α) (m : Matrix α) (Dx Dy Dz : Nat)
    (hr : Rect m Dx Dy Dz) (hDx : Dx < 2 ^ 63) (hDy : Dy < 2 ^ 63) (hDz : Dz < 2 ^ 63) :
    ∃ res, GetCanRespawnSeedPositions g m = some res ∧ res.Nodup ∧
      (∀ p : Triple, p ∈ res ↔
        (p.1 < Dx ∧ p.2.1 < Dy ∧ p.2.2 < Dz) ∧ isRoom p.1 p.2.1 p.2.2 ∧
          readCell m p.1 p.2.1 p.2.2 = some g.empty_value ∧
          ∃ can, GetCanDiggingDirs g m p.1 p.2.1 p.2.2 = some can ∧ can ≠ []) ∧
      (∀ x y z, x < Dx → y < Dy → z < Dz → isRoom x y z →
        (x / 2 < Dx / 2 ∧ y / 2 < Dy / 2 ∧ z / 2 < m.length / 2) ∧
          (x / 2 * 2 + 1) % sizeMod = x ∧ (y / 2 * 2 + 1) % sizeMod = y ∧
          (z / 2 * 2 + 1) % sizeMod = z) := by
  refine ⟨respawnSeeds g m, GetCanRespawnSeedPositions_eq g m,
    nodup_respawnSeeds g hr hDx hDy hDz, ?_, ?_⟩
  · intro p
    rw [mem_respawnSeeds g hr hDx hDy hDz p]
    constructor
    · rintro ⟨h1, h2, h3⟩
      exact ⟨rect_readCell_some hr h2, h1, h2, _, GetCanDiggingDirs_eq g m _ _ _, h3⟩
    · rintro ⟨_, h1, h2, can, h3, h4⟩
      rw [GetCanDiggingDirs_eq] at h3
      rw [Option.some.inj h3]
      exact ⟨h1, h2, h4⟩
  · intro x y z hx hy hz hroom
    have hlen : m.length = Dz := hr.1
    unfold isRoom at hroom
    refine ⟨⟨by omega, by omega, by omega⟩, ?_, ?_, ?_⟩
    · rw [Nat.mod_eq_of_lt (by unfold sizeMod; omega)]; omega
    · rw [Nat.mod_eq_of_lt (by unfold sizeMod; omega)]; omega
    · rw [Nat.mod_eq_of_lt (by unfold sizeMod; omega)]; omega

/-- An instance of claim C11: a 5x4x3 box of carved cells with one wall room. -/
theorem C11_respawn_candidates_witness :
    Rect (setCell (boxOf 5 4 3 1) 3 1 1 0) 5 4 3 ∧
      ∃ res, GetCanRespawnSeedPositions gen10 (setCell (boxOf 5 4 3 1) 3 1 1 0) = some res ∧
        res.Nodup ∧
        (∀ p : Triple, p ∈ res ↔
          (p.1 < 5 ∧ p.2.1 < 4 ∧ p.2.2 < 3) ∧ isRoom p.1 p.2.1 p.2.2 ∧
            readCell (setCell (boxOf 5 4 3 1) 3 1 1 0) p.1 p.2.1 p.2.2
              = some gen10.empty_value ∧
            ∃ can, GetCanDiggingDirs gen10 (setCell (boxOf 5 4 3 1) 3 1 1 0) p.1 p.2.1 p.2.2
              = some can ∧ can ≠ []) ∧
        (∀ x y z, x < 5 → y < 4 → z < 3 → isRoom x y z →
          (x / 2 < 5 / 2 ∧ y / 2 < 4 / 2 ∧
            z / 2 < (setCell (boxOf 5 4 3 1) 3 1 1 0).length / 2) ∧
            (x / 2 * 2 + 1) % sizeMod = x ∧ (y / 2 * 2 + 1) % sizeMod = y ∧
            (z / 2 * 2 + 1) % sizeMod = z) :=
  ⟨rect_setCell (rect_boxOf 5 4 3 1) 3 1 1 0,
    C11_respawn_candidates gen10 (setCell (boxOf 5 4 3 1) 3 1 1 0) 5 4 3
      (rect_setCell (rect_boxOf 5 4 3 1) 3 1 1 0) (by norm_num) (by norm_num) (by norm_num)⟩

theorem digDirs_int (g : Digging3DMazeGenerator α) {m : Matrix α} {Dx Dy Dz : Nat}
    (hr : Rect m Dx Dy Dz) (hDx : Dx < 2 ^ 63) (hDy : Dy < 2 ^ 63) (hDz : Dz < 2 ^ 63)
    {x y z : Nat} (hx : x < lim Dx) (hy : y < lim Dy) (hz : z < lim Dz) {t : Triple}
    (ht : t ∈ digDirs g m x y z) :
    ∃ dir ∈ dirs, t = dirTriple dir ∧
      (((digMid x y z t).1 : Int) = x + dir.1 ∧ ((digMid x y z t).2.1 : Int) = y + dir.2.1 ∧
        ((digMid x y z t).2.2 : Int) = z + dir.2.2) ∧
      (((digTarget x y z t).1 : Int) = x + 2 * dir.1 ∧
        ((digTarget x y z t).2.1 : Int) = y + 2 * dir.2.1 ∧
        ((digTarget x y z t).2.2 : Int) = z + 2 * dir.2.2) := by
  obtain ⟨dir, hd, hc, rfl⟩ := (mem_digDirs g m x y z t).mp ht
  refine ⟨dir, hd, rfl, ?_⟩
  have hb := rect_readCell_some hr hc
  have hx1 := (lim_lt Dx x).mp hx
  have hy1 := (lim_lt Dy y).mp hy
  have hz1 := (lim_lt Dz z).mp hz
  have zx := move_zero x hx1.2
  have zy := move_zero y hy1.2
  have zz := move_zero z hz1.2
  have px := move_pos x hx1.2
  have py := move_pos y hy1.2
  have pz := move_pos z hz1.2
  simp only [dirs, List.mem_cons, List.mem_singleton, List.not_mem_nil, or_false] at hd
  rcases hd with rfl | rfl | rfl | rfl | rfl | rfl
  · dsimp only at hb hc
    obtain ⟨h2, he⟩ := axis_neg hx hDx hb.1
    have nx := move_neg x (by omega) hx1.2
    simp only [digMid, digTarget, dirTriple, nx.1, nx.2 h2, zy.1, zy.2, zz.1, zz.2]
    refine ⟨⟨?_, ?_, ?_⟩, ?_, ?_, ?_⟩ <;> omega
  · dsimp only at hb hc
    simp only [digMid, digTarget, dirTriple, px.1, px.2, zy.1, zy.2, zz.1, zz.2]
    refine ⟨⟨?_, ?_, ?_⟩, ?_, ?_, ?_⟩ <;> omega
  · dsimp only at hb hc
    obtain ⟨h2, he⟩ := axis_neg hy hDy hb.2.1
    have ny := move_neg y (by omega) hy1.2
    simp only [digMid, digTarget, dirTriple, ny.1, ny.2 h2, zx.1, zx.2, zz.1, zz.2]
    refine ⟨⟨?_, ?_, ?_⟩, ?_, ?_, ?_⟩ <;> omega
  · dsimp only at hb hc
    simp only [digMid, digTarget, dirTriple, py.1, py.2, zx.1, zx.2, zz.1, zz.2]
    refine ⟨⟨?_, ?_, ?_⟩, ?_, ?_, ?_⟩ <;> omega
  · dsimp only at hb hc
    obtain ⟨h2, he⟩ := axis_neg hz hDz hb.2.2
    have nz := move_neg z (by omega) hz1.2
    simp only [digMid, digTarget, dirTriple, nz.1, nz.2 h2, zx.1, zx.2, zy.1, zy.2]
    refine ⟨⟨?_, ?_, ?_⟩, ?_, ?_, ?_⟩ <;> omega
  · dsimp only at hb hc
    simp only [digMid, digTarget, dirTriple, pz.1, pz.2, zx.1, zx.2, zy.1, zy.2]
    refine ⟨⟨?_, ?_, ?_⟩, ?_, ?_, ?_⟩ <;> omega

theorem stepPure_dig_eq (g : Digging3DMazeGenerator α) (rnd : Nat → Nat) (s : LoopState α)
    (h : digDirs g s.matrix_ s.seed_x s.seed_y s.seed_z ≠ []) :
    stepPure g rnd s = digStep g s ((digDirs g s.matrix_ s.seed_x s.seed_y s.seed_z).getD
      (rnd s.calls % (digDirs g s.matrix_ s.seed_x s.seed_y s.seed_z).length) (0, 0, 0)) := by
  simp [stepPure, h]

theorem stepPure_respawn_eq (g : Digging3DMazeGenerator α) (rnd : Nat → Nat) (s : LoopState α)
    (h1 : digDirs g s.matrix_ s.seed_x s.seed_y s.seed_z = [])
    (h2 : respawnSeeds g s.matrix_ ≠ []) :
    stepPure g rnd s = respawnStep g s ((respawnSeeds g s.matrix_).getD
      (rnd s.calls % (respawnSeeds g s.matrix_).length) (0, 0, 0)) := by
  simp [stepPure, h1, h2]

theorem getD_getElem? {β : Type} (l : List β) (i : Nat) (d : β) (h : i < l.length) :
    l[i]? = some (l.getD i d) := by
  rw [List.getD_eq_getElem _ _ h, List.getElem?_eq_getElem h]

/-- Claim C12, counterexample. On the ragged grid `raggedGrid` the first iteration of the
loop digs from the seed `(1, 1, 1)` in the direction `+y`: the seed moves to `(1, 3, 1)`,
but `(1, 2, 1)` is no cell of the grid and the write to it is skipped by `SetMazeChip`. -/
theorem C12_counterexample :
    ∃ s s1 : LoopState Nat, IterStart gen10 (fun _ => 0) raggedGrid 0 s ∧
      (s.seed_x, s.seed_y, s.seed_z) = (1, 1, 1) ∧
      GetCanDiggingDirs gen10 s.matrix_ s.seed_x s.seed_y s.seed_z = some [(0, 1, 0)] ∧
      loopBody gen10 (fun _ => 0) s = some s1 ∧
      (s1.seed_x, s1.seed_y, s1.seed_z) = (1, 3, 1) ∧
      readCell s1.matrix_ 1 3 1 = some gen10.empty_value ∧
      readCell s1.matrix_ 1 2 1 = none ∧
      readCell s1.matrix_ 1 2 1 ≠ some gen10.empty_value :=
  ⟨{ matrix_ := [[[0, 0, 0], [0, 0, 0], [0, 0, 0]],
                  [[0, 0, 0], [0, 1, 0], [], [0, 0, 0]],
                  [[0, 0, 0], [0, 0, 0], [0, 0, 0]]]
     seed_x := 1, seed_y := 1, seed_z := 1, finish_flag := false, calls := 0 },
   { matrix_ := [[[0, 0, 0], [0, 0, 0], [0, 0, 0]],
                  [[0, 0, 0], [0, 1, 0], [], [0, 1, 0]],
                  [[0, 0, 0], [0, 0, 0], [0, 0, 0]]]
     seed_x := 1, seed_y := 3, seed_z := 1, finish_flag := false, calls := 1 },
   ⟨_, rfl, rfl, rfl⟩, rfl, by decide, rfl, rfl, by decide, by decide, by decide⟩

theorem base_dig {g : Digging3DMazeGenerator α} {Dx Dy Dz : Nat}
    (hDx : Dx < 2 ^ 63) (hDy : Dy < 2 ^ 63) (hDz : Dz < 2 ^ 63)
    {s : LoopState α} (hB : Base g Dx Dy Dz s) {t : Triple}
    (ht : t ∈ digDirs g s.matrix_ s.seed_x s.seed_y s.seed_z) :
    (∃ dir ∈ dirs, t = dirTriple dir ∧
      (((digMid s.seed_x s.seed_y s.seed_z t).1 : Int) = s.seed_x + dir.1 ∧
        ((digMid s.seed_x s.seed_y s.seed_z t).2.1 : Int) = s.seed_y + dir.2.1 ∧
        ((digMid s.seed_x s.seed_y s.seed_z t).2.2 : Int) = s.seed_z + dir.2.2) ∧
      (((digTarget s.seed_x s.seed_y s.seed_z t).1 : Int) = s.seed_x + 2 * dir.1 ∧
        ((digTarget s.seed_x s.seed_y s.seed_z t).2.1 : Int) = s.seed_y + 2 * dir.2.1 ∧
        ((digTarget s.seed_x s.seed_y s.seed_z t).2.2 : Int) = s.seed_z + 2 * dir.2.2)) ∧
    Rect (digStep g s t).matrix_ Dx Dy Dz ∧
    cellAt s.matrix_ (digTarget s.seed_x s.seed_y s.seed_z t) = some g.wall_value ∧
    (∃ v, cellAt s.matrix_ (digMid s.seed_x s.seed_y s.seed_z t) = some v) ∧
    ∀ a b c, readCell (digStep g s t).matrix_ a b c =
      if (a, b, c) = digTarget s.seed_x s.seed_y s.seed_z t ∨
          (a, b, c) = digMid s.seed_x s.seed_y s.seed_z t
      then some g.empty_value else readCell s.matrix_ a b c := by
  obtain ⟨hl, hq1, hq2, hq3, hw⟩ := digDirs_link g hB.rect hDx hDy hDz
    hB.seed_lim.1 hB.seed_lim.2.1 hB.seed_lim.2.2 ht
  have hs : (s.seed_x, s.seed_y, s.seed_z).1 < lim Dx ∧ (s.seed_x, s.seed_y, s.seed_z).2.1 < lim Dy
      ∧ (s.seed_x, s.seed_y, s.seed_z).2.2 < lim Dz := hB.seed_lim
  have hm := link_mid_lt hl hs ⟨hq1, hq2, hq3⟩
  have hq2b : (digTarget s.seed_x s.seed_y s.seed_z t).1 < Dx ∧
      (digTarget s.seed_x s.seed_y s.seed_z t).2.1 < Dy ∧
      (digTarget s.seed_x s.seed_y s.seed_z t).2.2 < Dz :=
    ⟨((lim_lt _ _).mp hq1).1, ((lim_lt _ _).mp hq2).1, ((lim_lt _ _).mp hq3).1⟩
  have hm2 : (digMid s.seed_x s.seed_y s.seed_z t).1 < Dx ∧
      (digMid s.seed_x s.seed_y s.seed_z t).2.1 < Dy ∧
      (digMid s.seed_x s.seed_y s.seed_z t).2.2 < Dz :=
    ⟨((lim_lt _ _).mp hm.1).1, ((lim_lt _ _).mp hm.2.1).1, ((lim_lt _ _).mp hm.2.2).1⟩
  refine ⟨digDirs_int g hB.rect hDx hDy hDz hB.seed_lim.1 hB.seed_lim.2.1 hB.seed_lim.2.2 ht,
    rect_setCell (rect_setCell hB.rect _ _ _ _) _ _ _ _, hw,
    rect_readCell_exists hB.rect hm2.1 hm2.2.1 hm2.2.2, ?_⟩
  intro a b c
  exact readCell_dig hB.rect _ _ hm2 hq2b g.empty_value a b c

/-- Claim C12 (dig step), as amended. On a rectangular grid (extents below `2 ^ 63`), in
every iteration of the loop of `CreateMaze` in which `GetCanDiggingDirs` returns a non-empty
list, the chosen entry is a direction `d` of the table, stored as a tuple of `std::size_t`
(`-1` as `2 ^ 64 - 1`); the cells at the integer coordinates `seed + d` and `seed + 2 d`
are cells of the grid and hold `empty_value` after the iteration, the seed becomes
`seed + 2 d`, and every other cell is unchanged. -/
theorem C12_dig_step (g : Digging3DMazeGenerator α) (m : Matrix α) (Dx Dy Dz : Nat)
    (hr : Rect m Dx Dy Dz) (hDx : Dx < 2 ^ 63) (hDy : Dy < 2 ^ 63) (hDz : Dz < 2 ^ 63)
    (rnd : Nat → Nat) (k : Nat) (s : LoopState α) (hs : IterStart g rnd m k s)
    (can : List Triple)
    (hcan : GetCanDiggingDirs g s.matrix_ s.seed_x s.seed_y s.seed_z = some can)
    (hne : can ≠ []) :
    ∃ dir ∈ dirs, ∃ s1 : LoopState α, ∃ mid q : Triple,
      can[rnd s.calls % can.length]? = some (dirTriple dir) ∧
      loopBody g rnd s = some s1 ∧
      mid = digMid s.seed_x s.seed_y s.seed_z (dirTriple dir) ∧
      q = digTarget s.seed_x s.seed_y s.seed_z (dirTriple dir) ∧
      ((mid.1 : Int) = s.seed_x + dir.1 ∧ (mid.2.1 : Int) = s.seed_y + dir.2.1 ∧
        (mid.2.2 : Int) = s.seed_z + dir.2.2) ∧
      ((q.1 : Int) = s.seed_x + 2 * dir.1 ∧ (q.2.1 : Int) = s.seed_y + 2 * dir.2.1 ∧
        (q.2.2 : Int) = s.seed_z + 2 * dir.2.2) ∧
      (s1.seed_x, s1.seed_y, s1.seed_z) = q ∧
      cellAt s1.matrix_ mid = some g.empty_value ∧ cellAt s1.matrix_ q = some g.empty_value ∧
      (∀ a b c, (a, b, c) ≠ mid → (a, b, c) ≠ q →
        readCell s1.matrix_ a b c = readCell s.matrix_ a b c) ∧
      Rect s1.matrix_ Dx Dy Dz ∧
      (dirTriple (-1, 0, 0) = (2 ^ 64 - 1, 0, 0) ∧ dirTriple (0, -1, 0) = (0, 2 ^ 64 - 1, 0) ∧
        dirTriple (0, 0, -1) = (0, 0, 2 ^ 64 - 1)) := by
  have hB := iter_base hr hDx hDy hDz hs
  rw [GetCanDiggingDirs_eq] at hcan
  have hcan1 := Option.some.inj hcan
  subst hcan1
  have hi : rnd s.calls % (digDirs g s.matrix_ s.seed_x s.seed_y s.seed_z).length
      < (digDirs g s.matrix_ s.seed_x s.seed_y s.seed_z).length :=
    Nat.mod_lt _ (List.length_pos.mpr hne)
  have ht := getD_mem _ _ (0, 0, 0) hi
  obtain ⟨⟨dir, hd, htd, hmid, hq⟩, hrect, _, _, hread⟩ := base_dig hDx hDy hDz hB ht
  refine ⟨dir, hd, digStep g s (dirTriple dir), _, _, ?_, ?_, rfl, rfl, ?_, ?_, rfl, ?_, ?_, ?_,
    ?_, by decide⟩
  · rw [← htd]; exact getD_getElem? _ _ _ hi
  · rw [loopBody_eq, stepPure_dig_eq g rnd s hne, htd]
  · rw [← htd]; exact hmid
  · rw [← htd]; exact hq
  · rw [← htd]; unfold cellAt; rw [hread]; simp
  · rw [← htd]; unfold cellAt; rw [hread]; simp
  · intro a b c h1 h2
    rw [← htd] at h1 h2 ⊢
    rw [hread, if_neg]
    rintro (h | h)
    · exact h2 h
    · exact h1 h
  · rw [← htd]; exact hrect

theorem iterStart_state555 (rnd : Nat → Nat) :
    IterStart gen10 rnd (boxOf 5 5 5 7) 0 state555 :=
  iterStart_of_rect (rect_boxOf 5 5 5 7) (by decide) (by decide) (by decide) rfl rfl

/-- An instance of the amended claim C12: the first iteration on a 5x5x5 box. -/
theorem C12_dig_step_witness :
    Rect (boxOf 5 5 5 7) 5 5 5 ∧ IterStart gen10 (fun _ => 4) (boxOf 5 5 5 7) 0 state555 ∧
    GetCanDiggingDirs gen10 state555.matrix_ state555.seed_x state555.seed_y state555.seed_z
      = some [(1, 0, 0), (0, 1, 0), (0, 0, 1)] ∧
    ∃ dir ∈ dirs, ∃ s1 : LoopState Nat, ∃ mid q : Triple,
      [((1 : Nat), (0 : Nat), (0 : Nat)), (0, 1, 0), (0, 0, 1)][(fun _ => 4) state555.calls
          % [((1 : Nat), (0 : Nat), (0 : Nat)), (0, 1, 0), (0, 0, 1)].length]?
        = some (dirTriple dir) ∧
      loopBody gen10 (fun _ => 4) state555 = some s1 ∧
      mid = digMid state555.seed_x state555.seed_y state555.seed_z (dirTriple dir) ∧
      q = digTarget state555.seed_x state555.seed_y state555.seed_z (dirTriple dir) ∧
      ((mid.1 : Int) = state555.seed_x + dir.1 ∧ (mid.2.1 : Int) = state555.seed_y + dir.2.1 ∧
        (mid.2.2 : Int) = state555.seed_z + dir.2.2) ∧
      ((q.1 : Int) = state555.seed_x + 2 * dir.1 ∧ (q.2.1 : Int) = state555.seed_y + 2 * dir.2.1 ∧
        (q.2.2 : Int) = state555.seed_z + 2 * dir.2.2) ∧
      (s1.seed_x, s1.seed_y, s1.seed_z) = q ∧
      cellAt s1.matrix_ mid = some gen10.empty_value ∧
      cellAt s1.matrix_ q = some gen10.empty_value ∧
      (∀ a b c, (a, b, c) ≠ mid → (a, b, c) ≠ q →
        readCell s1.matrix_ a b c = readCell state555.matrix_ a b c) ∧
      Rect s1.matrix_ 5 5 5 ∧
      (dirTriple (-1, 0, 0) = (2 ^ 64 - 1, 0, 0) ∧ dirTriple (0, -1, 0) = (0, 2 ^ 64 - 1, 0) ∧
        dirTriple (0, 0, -1) = (0, 0, 2 ^ 64 - 1)) :=
  ⟨rect_boxOf 5 5 5 7, iterStart_state555 _, by decide,
    C12_dig_step gen10 (boxOf 5 5 5 7) 5 5 5 (rect_boxOf 5 5 5 7) (by norm_num) (by norm_num)
      (by norm_num) (fun _ => 4) 0 state555 (iterStart_state555 _)
      [(1, 0, 0), (0, 1, 0), (0, 0, 1)] (by decide) (by decide)⟩

/-- Claim C13, counterexample. On the 3x5x7 box, with the random choices `rndDeadEnd`, the
fourth iteration of the loop starts with the seed `(1, 3, 1)` in a dead end while two
respawn candidates exist: it moves the seed to `(1, 1, 3)`, converts no cell and leaves
`finish_flag` false. -/
theorem C13_counterexample :
    gen10.empty_value ≠ gen10.wall_value ∧ Rect (boxOf 3 5 7 0) 3 5 7 ∧
    ∃ s s1 : LoopState Nat, IterStart gen10 rndDeadEnd (boxOf 3 5 7 0) 3 s ∧
      s.matrix_ = deadEndGrid ∧ (s.seed_x, s.seed_y, s.seed_z) = (1, 3, 1) ∧
      GetCanDiggingDirs gen10 s.matrix_ s.seed_x s.seed_y s.seed_z = some [] ∧
      GetCanRespawnSeedPositions gen10 s.matrix_ = some [(1, 1, 3), (1, 3, 3)] ∧
      loopBody gen10 rndDeadEnd s = some s1 ∧
      s1.matrix_ = s.matrix_ ∧ (s1.seed_x, s1.seed_y, s1.seed_z) = (1, 1, 3) ∧
      s1.finish_flag = false :=
  ⟨by decide, rect_boxOf 3 5 7 0,
   { matrix_ := deadEndGrid, seed_x := 1, seed_y := 3, seed_z := 1, finish_flag := false,
     calls := 3 },
   { matrix_ := deadEndGrid, seed_x := 1, seed_y := 1, seed_z := 3, finish_flag := false,
     calls := 4 },
   ⟨_, rfl, rfl, rfl⟩, rfl, rfl, by decide, by decide, rfl, rfl, rfl, rfl⟩

/-- Claim C13 (progress per iteration), as amended. On a rectangular grid with all extents
above 2 (below `2 ^ 63`), with `empty_value ≠ wall_value`, every iteration of the loop of
`CreateMaze` does one of three things: for the chosen direction `d` it converts the two
cells at the integer coordinates `seed + d` and `seed + 2 d` from `wall_value` to
`empty_value`, changes no other cell and moves the seed to `seed + 2 d`; or, the seed having
no diggable direction and the list of respawn candidates being non-empty, it moves the seed
to a candidate, which has a diggable direction, and leaves the grid and `finish_flag` as
they are; or it finds zero respawn candidates and sets `finish_flag`. -/
theorem C13_progress (g : Digging3DMazeGenerator α) (hne : g.empty_value ≠ g.wall_value)
    (m : Matrix α) (Dx Dy Dz : Nat) (hr : Rect m Dx Dy Dz)
    (hDx : Dx < 2 ^ 63) (hDy : Dy < 2 ^ 63) (hDz : Dz < 2 ^ 63)
    (rnd : Nat → Nat) (k : Nat) (s : LoopState α) (hs : IterStart g rnd m k s) :
    ∃ s1, loopBody g rnd s = some s1 ∧
      ((∃ can, GetCanDiggingDirs g s.matrix_ s.seed_x s.seed_y s.seed_z = some can ∧ can ≠ [] ∧
          ∃ dir ∈ dirs, can[rnd s.calls % can.length]? = some (dirTriple dir) ∧
          ∃ mid q : Triple,
            mid = digMid s.seed_x s.seed_y s.seed_z (dirTriple dir) ∧
            q = digTarget s.seed_x s.seed_y s.seed_z (dirTriple dir) ∧
            ((mid.1 : Int) = s.seed_x + dir.1 ∧ (mid.2.1 : Int) = s.seed_y + dir.2.1 ∧
              (mid.2.2 : Int) = s.seed_z + dir.2.2) ∧
            ((q.1 : Int) = s.seed_x + 2 * dir.1 ∧ (q.2.1 : Int) = s.seed_y + 2 * dir.2.1 ∧
              (q.2.2 : Int) = s.seed_z + 2 * dir.2.2) ∧
            mid ≠ q ∧
            cellAt s.matrix_ mid = some g.wall_value ∧ cellAt s.matrix_ q = some g.wall_value ∧
            cellAt s1.matrix_ mid = some g.empty_value ∧
            cellAt s1.matrix_ q = some g.empty_value ∧
            (∀ a b c, (a, b, c) ≠ mid → (a, b, c) ≠ q →
              readCell s1.matrix_ a b c = readCell s.matrix_ a b c) ∧
            (s1.seed_x, s1.seed_y, s1.seed_z) = q ∧ s1.finish_flag = false) ∨
       (GetCanDiggingDirs g s.matrix_ s.seed_x s.seed_y s.seed_z = some [] ∧
          ∃ cands, GetCanRespawnSeedPositions g s.matrix_ = some cands ∧ cands ≠ [] ∧
            s1.matrix_ = s.matrix_ ∧ s1.finish_flag = false ∧
            (s1.seed_x, s1.seed_y, s1.seed_z) ∈ cands ∧
            ∃ can1, GetCanDiggingDirs g s1.matrix_ s1.seed_x s1.seed_y s1.seed_z = some can1 ∧
              can1 ≠ []) ∨
       (GetCanDiggingDirs g s.matrix_ s.seed_x s.seed_y s.seed_z = some [] ∧
          GetCanRespawnSeedPositions g s.matrix_ = some [] ∧
          s1.matrix_ = s.matrix_ ∧ s1.finish_flag = true)) := by
  have hI := iter_inv hne hr hDx hDy hDz hs
  have hf : s.finish_flag = false := hs.choose_spec.2.2
  refine ⟨stepPure g rnd s, loopBody_eq g rnd s, ?_⟩
  by_cases h1 : digDirs g s.matrix_ s.seed_x s.seed_y s.seed_z = []
  · by_cases h2 : respawnSeeds g s.matrix_ = []
    · right; right
      rw [stepPure_finish g rnd s h1 h2]
      exact ⟨by rw [GetCanDiggingDirs_eq, h1], by rw [GetCanRespawnSeedPositions_eq, h2],
        rfl, rfl⟩
    · right; left
      obtain ⟨p, hp, he⟩ := stepPure_respawn g rnd s h1 h2
      obtain ⟨_, hmat⟩ := inv_respawn hDx hDy hDz hI hf hp
      obtain ⟨_, _, hd⟩ := (mem_respawnSeeds g hI.rect hDx hDy hDz p).mp hp
      rw [he]
      refine ⟨by rw [GetCanDiggingDirs_eq, h1], respawnSeeds g s.matrix_,
        GetCanRespawnSeedPositions_eq g s.matrix_, h2, hmat, hf, hp, _,
        GetCanDiggingDirs_eq _ _ _ _ _, ?_⟩
      rw [hmat]
      exact hd
  · left
    have hi : rnd s.calls % (digDirs g s.matrix_ s.seed_x s.seed_y s.seed_z).length
        < (digDirs g s.matrix_ s.seed_x s.seed_y s.seed_z).length :=
      Nat.mod_lt _ (List.length_pos.mpr h1)
    have ht := getD_mem _ _ (0, 0, 0) hi
    obtain ⟨hl, _, _, hwq, hwm, _, _⟩ := dig_facts hne hDx hDy hDz hI ht
    have hB : Base g Dx Dy Dz s := ⟨hI.rect, hI.seed_room, inv_seed_lim hI, hI.seed_empty⟩
    obtain ⟨⟨dir, hd, htd, hmid, hq⟩, _, _, _, hread⟩ := base_dig hDx hDy hDz hB ht
    rw [stepPure_dig_eq g rnd s h1]
    refine ⟨_, GetCanDiggingDirs_eq g _ _ _ _, h1, dir, hd, ?_, _, _, rfl, rfl, ?_, ?_, ?_, ?_,
      ?_, ?_, ?_, ?_, ?_, hf⟩
    · rw [← htd]; exact getD_getElem? _ _ _ hi
    · rw [← htd]; exact hmid
    · rw [← htd]; exact hq
    · rw [← htd]; exact (link_ne hl).1
    · rw [← htd]; exact hwm
    · rw [← htd]; exact hwq
    · rw [← htd]; unfold cellAt; rw [hread]; simp
    · rw [← htd]; unfold cellAt; rw [hread]; simp
    · intro a b c h3 h4
      rw [← htd] at h3 h4
      rw [hread, if_neg]
      rintro (h | h)
      · exact h4 h
      · exact h3 h
    · rw [← htd]; rfl

/-- An instance of the amended claim C13: the first iteration on a 5x5x5 box. -/
theorem C13_progress_witness :
    gen10.empty_value ≠ gen10.wall_value ∧ Rect (boxOf 5 5 5 7) 5 5 5 ∧
    IterStart gen10 (fun _ => 4) (boxOf 5 5 5 7) 0 state555 ∧
    ∃ s1, loopBody gen10 (fun _ => 4) state555 = some s1 ∧
      ((∃ can, GetCanDiggingDirs gen10 state555.matrix_ state555.seed_x state555.seed_y
            state555.seed_z = some can ∧ can ≠ [] ∧
          ∃ dir ∈ dirs, can[(fun _ => 4) state555.calls % can.length]? = some (dirTriple dir) ∧
          ∃ mid q : Triple,
            mid = digMid state555.seed_x state555.seed_y state555.seed_z (dirTriple dir) ∧
            q = digTarget state555.seed_x state555.seed_y state555.seed_z (dirTriple dir) ∧
            ((mid.1 : Int) = state555.seed_x + dir.1 ∧
              (mid.2.1 : Int) = state555.seed_y + dir.2.1 ∧
              (mid.2.2 : Int) = state555.seed_z + dir.2.2) ∧
            ((q.1 : Int) = state555.seed_x + 2 * dir.1 ∧
              (q.2.1 : Int) = state555.seed_y + 2 * dir.2.1 ∧
              (q.2.2 : Int) = state555.seed_z + 2 * dir.2.2) ∧
            mid ≠ q ∧
            cellAt state555.matrix_ mid = some gen10.wall_value ∧
            cellAt state555.matrix_ q = some gen10.wall_value ∧
            cellAt s1.matrix_ mid = some gen10.empty_value ∧
            cellAt s1.matrix_ q = some gen10.empty_value ∧
            (∀ a b c, (a, b, c) ≠ mid → (a, b, c) ≠ q →
              readCell s1.matrix_ a b c = readCell state555.matrix_ a b c) ∧
            (s1.seed_x, s1.seed_y, s1.seed_z) = q ∧ s1.finish_flag = false) ∨
       (GetCanDiggingDirs gen10 state555.matrix_ state555.seed_x state555.seed_y
            state555.seed_z = some [] ∧
          ∃ cands, GetCanRespawnSeedPositions gen10 state555.matrix_ = some cands ∧ cands ≠ [] ∧
            s1.matrix_ = state555.matrix_ ∧ s1.finish_flag = false ∧
            (s1.seed_x, s1.seed_y, s1.seed_z) ∈ cands ∧
            ∃ can1, GetCanDiggingDirs gen10 s1.matrix_ s1.seed_x s1.seed_y s1.seed_z
              = some can1 ∧ can1 ≠ []) ∨
       (GetCanDiggingDirs gen10 state555.matrix_ state555.seed_x state555.seed_y
            state555.seed_z = some [] ∧
          GetCanRespawnSeedPositions gen10 state555.matrix_ = some [] ∧
          s1.matrix_ = state555.matrix_ ∧ s1.finish_flag = true)) :=
  ⟨by decide, rect_boxOf 5 5 5 7, iterStart_state555 _,
    C13_progress gen10 (by decide) (boxOf 5 5 5 7) 5 5 5 (rect_boxOf 5 5 5 7) (by norm_num)
      (by norm_num) (by norm_num) (fun _ => 4) 0 state555 (iterStart_state555 _)⟩

/-- Claim C14 (seed invariant). On a rectangular grid with all extents above 2 (below
`2 ^ 63`), whatever the two values and the random choices, at the start of every iteration
of the loop of `CreateMaze` the seed has all three components odd, lies inside the grid, and
the cell at the seed holds `empty_value`. -/
theorem C14_seed_invariant (g : Digging3DMazeGenerator α) (m : Matrix α) (Dx Dy Dz : Nat)
    (hr : Rect m Dx Dy Dz) (hDx : Dx < 2 ^ 63) (hDy : Dy < 2 ^ 63) (hDz : Dz < 2 ^ 63)
    (rnd : Nat → Nat) (k : Nat) (s : LoopState α) (hs : IterStart g rnd m k s) :
    isRoom s.seed_x s.seed_y s.seed_z ∧
      (s.seed_x < Dx ∧ s.seed_y < Dy ∧ s.seed_z < Dz) ∧
      readCell s.matrix_ s.seed_x s.seed_y s.seed_z = some g.empty_value := by
  have hB := iter_base hr hDx hDy hDz hs
  have hl := hB.seed_lim
  simp only [lim_lt] at hl
  exact ⟨hB.seed_room, ⟨hl.1.1, hl.2.1.1, hl.2.2.1⟩, hB.seed_empty⟩

/-- An instance of claim C14: the fourth iteration on the 3x5x7 box with the choices
`rndDeadEnd`. -/
theorem C14_seed_invariant_witness :
    Rect (boxOf 3 5 7 0) 3 5 7 ∧
    IterStart gen10 rndDeadEnd (boxOf 3 5 7 0) 3
      { matrix_ := deadEndGrid, seed_x := 1, seed_y := 3, seed_z := 1, finish_flag := false,
        calls := 3 } ∧
    (isRoom 1 3 1 ∧ (1 < 3 ∧ 3 < 5 ∧ 1 < 7) ∧
      readCell deadEndGrid 1 3 1 = some gen10.empty_value) :=
  ⟨rect_boxOf 3 5 7 0, ⟨_, rfl, rfl, rfl⟩,
    C14_seed_invariant gen10 (boxOf 3 5 7 0) 3 5 7 (rect_boxOf 3 5 7 0) (by norm_num)
      (by norm_num) (by norm_num) rndDeadEnd 3
      { matrix_ := deadEndGrid, seed_x := 1, seed_y := 3, seed_z := 1, finish_flag := false,
        calls := 3 } ⟨_, rfl, rfl, rfl⟩⟩

theorem setCell_keeps_empty (g : Digging3DMazeGenerator α) (m : Matrix α) (x y z a b c : Nat)
    (h : readCell m a b c = some g.empty_value) :
    readCell (setCell m x y z g.empty_value) a b c = some g.empty_value := by
  rw [readCell_setCell]
  split_ifs
  · rfl
  · exact h

theorem setCell_wall_before (g : Digging3DMazeGenerator α) (hne : g.empty_value ≠ g.wall_value)
    (m : Matrix α) (x y z a b c : Nat)
    (h : readCell (setCell m x y z g.empty_value) a b c = some g.wall_value) :
    readCell m a b c = some g.wall_value := by
  rw [readCell_setCell] at h
  split_ifs at h
  · exact absurd (Option.some.inj h) hne
  · exact h

theorem step_mono (g : Digging3DMazeGenerator α) (hne : g.empty_value ≠ g.wall_value)
    (rnd : Nat → Nat) (s : LoopState α) (a b c : Nat) :
    (readCell s.matrix_ a b c = some g.empty_value →
        readCell (stepPure g rnd s).matrix_ a b c = some g.empty_value) ∧
      (readCell (stepPure g rnd s).matrix_ a b c = some g.wall_value →
        readCell s.matrix_ a b c = some g.wall_value) := by
  unfold stepPure
  split_ifs
  · exact ⟨fun h => setCell_keeps_empty g _ _ _ _ _ _ _ (setCell_keeps_empty g _ _ _ _ _ _ _ h),
      fun h => setCell_wall_before g hne _ _ _ _ _ _ _ (setCell_wall_before g hne _ _ _ _ _ _ _ h)⟩
  · exact ⟨fun h => setCell_keeps_empty g _ _ _ _ _ _ _ h,
      fun h => setCell_wall_before g hne _ _ _ _ _ _ _ h⟩
  · exact ⟨fun h => h, fun h => h⟩

theorem run_mono (g : Digging3DMazeGenerator α) (hne : g.empty_value ≠ g.wall_value)
    (rnd : Nat → Nat) (s0 : LoopState α) (k j : Nat) (s s1 : LoopState α)
    (hk : stateAfter g rnd s0 k = some s) (hj : stateAfter g rnd s0 (k + j) = some s1)
    (a b c : Nat) :
    (readCell s.matrix_ a b c = some g.empty_value →
        readCell s1.matrix_ a b c = some g.empty_value) ∧
      (readCell s1.matrix_ a b c = some g.wall_value →
        readCell s.matrix_ a b c = some g.wall_value) := by
  induction j generalizing s1 with
  | zero =>
    rw [Nat.add_zero, hk] at hj
    rw [← Option.some.inj hj]
    exact ⟨fun h => h, fun h => h⟩
  | succ j ih =>
    obtain ⟨s2, h2, _, rfl⟩ := (stateAfter_succ g rnd s0 (k + j) s1).mp hj
    have h3 := ih s2 h2
    have h4 := step_mono g hne rnd s2 a b c
    exact ⟨fun h => h4.1 (h3.1 h), fun h => h3.2 (h4.2 h)⟩

theorem digDirs_subset (g : Digging3DMazeGenerator α) (m m1 : Matrix α)
    (h : ∀ a b c, readCell m1 a b c = some g.wall_value → readCell m a b c = some g.wall_value)
    (x y z : Nat) : digDirs g m1 x y z ⊆ digDirs g m x y z := by
  intro t ht
  obtain ⟨dir, hd, hc, rfl⟩ := (mem_digDirs g m1 x y z t).mp ht
  exact (mem_digDirs g m x y z _).mpr ⟨dir, hd, h _ _ _ hc, rfl⟩

/-- Claim C15 (monotonicity). With `empty_value ≠ wall_value`, across any number `j` of
iterations of the loop (in particular one), from any state: a cell holding `empty_value`
still holds it afterwards; for every position the list returned by `GetCanDiggingDirs`
afterwards is contained in the one returned before; and a position with no diggable
direction has none afterwards. -/
theorem C15_monotonicity (g : Digging3DMazeGenerator α) (hne : g.empty_value ≠ g.wall_value)
    (rnd : Nat → Nat) (s0 : LoopState α) (k j : Nat) (s s1 : LoopState α)
    (hk : stateAfter g rnd s0 k = some s) (hj : stateAfter g rnd s0 (k + j) = some s1) :
    (∀ a b c, readCell s.matrix_ a b c = some g.empty_value →
      readCell s1.matrix_ a b c = some g.empty_value) ∧
    (∀ x y z, ∃ can can1, GetCanDiggingDirs g s.matrix_ x y z = some can ∧
      GetCanDiggingDirs g s1.matrix_ x y z = some can1 ∧ can1 ⊆ can ∧
      (can = [] → can1 = [])) := by
  have hm := run_mono g hne rnd s0 k j s s1 hk hj
  refine ⟨fun a b c => (hm a b c).1, ?_⟩
  intro x y z
  have hsub := digDirs_subset g s.matrix_ s1.matrix_ (fun a b c => (hm a b c).2) x y z
  refine ⟨_, _, GetCanDiggingDirs_eq g _ x y z, GetCanDiggingDirs_eq g _ x y z, hsub, ?_⟩
  intro hnil
  rw [hnil] at hsub
  exact List.eq_nil_of_subset_nil hsub

/-- An instance of claim C15: the first three iterations on the 3x5x7 box with the choices
`rndDeadEnd`. -/
theorem C15_monotonicity_witness :
    gen10.empty_value ≠ gen10.wall_value ∧
    (∀ a b c, readCell (initState (setCell (boxOf 3 5 7 0) 1 1 1 1)).matrix_ a b c
        = some gen10.empty_value → readCell deadEndGrid a b c = some gen10.empty_value) ∧
    (∀ x y z, ∃ can can1,
      GetCanDiggingDirs gen10 (initState (setCell (boxOf 3 5 7 0) 1 1 1 1)).matrix_ x y z
        = some can ∧
      GetCanDiggingDirs gen10 deadEndGrid x y z = some can1 ∧ can1 ⊆ can ∧
      (can = [] → can1 = [])) :=
  ⟨by decide,
    C15_monotonicity gen10 (by decide) rndDeadEnd (initState (setCell (boxOf 3 5 7 0) 1 1 1 1))
      0 3 (initState (setCell (boxOf 3 5 7 0) 1 1 1 1))
      { matrix_ := deadEndGrid, seed_x := 1, seed_y := 3, seed_z := 1, finish_flag := false,
        calls := 3 } rfl rfl⟩

theorem respawnSeeds_empty (g : Digging3DMazeGenerator α) (m : Matrix α) (p : Triple)
    (hp : p ∈ respawnSeeds g m) : readCell m p.1 p.2.1 p.2.2 = some g.empty_value := by
  unfold respawnSeeds at hp
  simp only [List.mem_flatMap] at hp
  obtain ⟨z, _, y, _, x, _, hx⟩ := hp
  split_ifs at hx with hc
  · rw [List.mem_singleton.mp hx]
    exact hc.1
  · simp at hx

/-- Claim C16 (respawn step). In every iteration of the loop in which `GetCanDiggingDirs`
returns the empty list for the seed and the list of respawn candidates is non-empty, from
any state and on any grid: the grid is unchanged by the iteration (the chosen candidate
already holds `empty_value`), and the new seed is the chosen member of the list of
candidates. -/
theorem C16_respawn_step (g : Digging3DMazeGenerator α) (rnd : Nat → Nat) (s : LoopState α)
    (cands : List Triple)
    (h1 : GetCanDiggingDirs g s.matrix_ s.seed_x s.seed_y s.seed_z = some [])
    (h2 : GetCanRespawnSeedPositions g s.matrix_ = some cands) (h3 : cands ≠ []) :
    ∃ s1, loopBody g rnd s = some s1 ∧ s1.matrix_ = s.matrix_ ∧
      cands[rnd s.calls % cands.length]? = some (s1.seed_x, s1.seed_y, s1.seed_z) ∧
      (s1.seed_x, s1.seed_y, s1.seed_z) ∈ cands ∧
      readCell s.matrix_ s1.seed_x s1.seed_y s1.seed_z = some g.empty_value ∧
      s1.finish_flag = s.finish_flag := by
  rw [GetCanDiggingDirs_eq] at h1
  rw [GetCanRespawnSeedPositions_eq] at h2
  have h1a := Option.some.inj h1
  have h2a := Option.some.inj h2
  subst h2a
  have hi : rnd s.calls % (respawnSeeds g s.matrix_).length < (respawnSeeds g s.matrix_).length :=
    Nat.mod_lt _ (List.length_pos.mpr h3)
  have hmem := getD_mem (respawnSeeds g s.matrix_) _ (0, 0, 0) hi
  have hemp := respawnSeeds_empty g s.matrix_ _ hmem
  refine ⟨stepPure g rnd s, loopBody_eq g rnd s, ?_⟩
  rw [stepPure_respawn_eq g rnd s h1a h3]
  exact ⟨setCell_same _ _ _ _ _ hemp, getD_getElem? _ _ _ hi, hmem, hemp, rfl⟩

/-- An instance of claim C16: the dead end on the 3x5x7 box. -/
theorem C16_respawn_step_witness :
    GetCanDiggingDirs gen10 deadEndGrid 1 3 1 = some [] ∧
    GetCanRespawnSeedPositions gen10 deadEndGrid = some [(1, 1, 3), (1, 3, 3)] ∧
    ∃ s1, loopBody gen10 rndDeadEnd
        { matrix_ := deadEndGrid, seed_x := 1, seed_y := 3, seed_z := 1, finish_flag := false,
          calls := 3 } = some s1 ∧
      s1.matrix_ = deadEndGrid ∧
      [((1 : Nat), (1 : Nat), (3 : Nat)), (1, 3, 3)][rndDeadEnd 3
          % [((1 : Nat), (1 : Nat), (3 : Nat)), (1, 3, 3)].length]?
        = some (s1.seed_x, s1.seed_y, s1.seed_z) ∧
      (s1.seed_x, s1.seed_y, s1.seed_z) ∈ [((1 : Nat), (1 : Nat), (3 : Nat)), (1, 3, 3)] ∧
      readCell deadEndGrid s1.seed_x s1.seed_y s1.seed_z = some gen10.empty_value ∧
      s1.finish_flag = false :=
  ⟨by decide, by decide,
    C16_respawn_step gen10 rndDeadEnd
      { matrix_ := deadEndGrid, seed_x := 1, seed_y := 3, seed_z := 1, finish_flag := false,
        calls := 3 } [(1, 1, 3), (1, 3, 3)] (by decide) (by decide) (by decide)⟩

theorem room_bounds {x D : Nat} (hodd : x % 2 = 1) (hlt : x < D) :
    1 ≤ x ∧ x + 1 ≤ D ∧ (D % 2 = 1 → x + 2 ≤ D) := by
  omega

theorem between_bounds {a c b D : Nat} (h : Between a c b) (ha : a % 2 = 1) (hlt : a < D)
    (hb : b < D) : 1 ≤ c ∧ c + 1 ≤ D ∧ (D % 2 = 1 → c + 2 ≤ D) := by
  unfold Between at h
  omega

theorem inv_bounds {g : Digging3DMazeGenerator α} {Dx Dy Dz : Nat} {s : LoopState α}
    (hI : Inv g Dx Dy Dz s) (x y z : Nat)
    (he : readCell s.matrix_ x y z = some g.empty_value) :
    (1 ≤ x ∧ x + 1 ≤ Dx ∧ (Dx % 2 = 1 → x + 2 ≤ Dx)) ∧
      (1 ≤ y ∧ y + 1 ≤ Dy ∧ (Dy % 2 = 1 → y + 2 ≤ Dy)) ∧
      (1 ≤ z ∧ z + 1 ≤ Dz ∧ (Dz % 2 = 1 → z + 2 ≤ Dz)) := by
  have hb := rect_readCell_some hI.rect he
  have hnp := (hI.box x y z he).2.2.2
  by_cases hroom : isRoom x y z
  · exact ⟨room_bounds hroom.1 hb.1, room_bounds hroom.2.1 hb.2.1, room_bounds hroom.2.2 hb.2.2⟩
  · have hlink : isLink x y z := by
      simp only [isRoom, isLink, isPillar, evenCount] at *
      omega
    obtain ⟨p, q, hl, hp, hpe, hqe⟩ := hI.link_ends (x, y, z) hlink he
    have hpb := rect_readCell_some hI.rect hpe
    have hqb := rect_readCell_some hI.rect hqe
    obtain ⟨px, py, pz⟩ := p
    obtain ⟨qx, qy, qz⟩ := q
    simp only [Link, isRoom] at hl hp hpb hqb
    rcases hl with ⟨h1, h2, h3, h4, h5⟩ | ⟨h2, h3, h1, h4, h5⟩ | ⟨h2, h3, h4, h5, h1⟩
    · refine ⟨between_bounds h1 hp.1 hpb.1 hqb.1, ?_, ?_⟩
      · rw [h2]; exact room_bounds hp.2.1 hpb.2.1
      · rw [h4]; exact room_bounds hp.2.2 hpb.2.2
    · refine ⟨?_, between_bounds h1 hp.2.1 hpb.2.1 hqb.2.1, ?_⟩
      · rw [h2]; exact room_bounds hp.1 hpb.1
      · rw [h4]; exact room_bounds hp.2.2 hpb.2.2
    · refine ⟨?_, ?_, between_bounds h1 hp.2.2 hpb.2.2 hqb.2.2⟩
      · rw [h2]; exact room_bounds hp.1 hpb.1
      · rw [h4]; exact room_bounds hp.2.1 hpb.2.1

theorem inv_wall_of_not_empty {g : Digging3DMazeGenerator α} {Dx Dy Dz : Nat} {s : LoopState α}
    (hI : Inv g Dx Dy Dz s) {x y z : Nat} (hx : x < Dx) (hy : y < Dy) (hz : z < Dz)
    (h : readCell s.matrix_ x y z ≠ some g.empty_value) :
    readCell s.matrix_ x y z = some g.wall_value := by
  obtain ⟨v, hv⟩ := rect_readCell_exists hI.rect hx hy hz
  rcases hI.vals _ _ _ v hv with rfl | rfl
  · exact hv
  · exact absurd hv h

/-- Claim C17, counterexample. On the 4x4x4 box the room cell `(3, 3, 3)`, which lies on the
outer faces at coordinate `extent - 1 = 3`, holds `empty_value` when `CreateMaze` returns. -/
theorem C17_counterexample :
    gen10.empty_value ≠ gen10.wall_value ∧ Rect (boxOf 4 4 4 0) 4 4 4 ∧
    ∃ m1, CreateMaze gen10 (fun _ => 0) (4 * 4 * 4) (boxOf 4 4 4 0) = Outcome.returned m1 ∧
      readCell m1 3 3 3 = some gen10.empty_value ∧ ¬ (3 ≤ 4 - 2) ∧
      readCell m1 3 3 3 ≠ some gen10.wall_value := by
  have hne : gen10.empty_value ≠ gen10.wall_value := by decide
  have hr : Rect (boxOf 4 4 4 (0 : Nat)) 4 4 4 := rect_boxOf _ _ _ _
  have h4 : 4 < 2 ^ 63 := by norm_num
  refine ⟨hne, hr, ?_⟩
  obtain ⟨m1, hm1⟩ := CreateMaze_returns hne hr h4 h4 h4 (fun _ => 0)
  obtain ⟨s1, hI, hf, rfl⟩ := CreateMaze_final hne hr (by norm_num) (by norm_num) (by norm_num)
    h4 h4 h4 (fun _ => 0) _ hm1
  have hl : 3 < lim 4 := by rw [lim_lt]; norm_num
  have hcov := final_coverage h4 h4 h4 (by norm_num) (by norm_num) (by norm_num) hI hf 3 3 3
    (by decide) hl hl hl
  refine ⟨s1.matrix_, hm1, hcov, by decide, ?_⟩
  rw [hcov]
  decide

/-- Claim C17 (boundary clearance), as amended. On a rectangular grid with all three extents
above 2 (below `2 ^ 63`), with `empty_value ≠ wall_value` and any random choices,
`CreateMaze` returns, and in the grid it returns every coordinate `c` of a cell holding
`empty_value` satisfies `1 <= c <= extent - 1`, and `c <= extent - 2` on an axis of odd
extent; so the cells of the three faces at coordinate 0, and of the face at `extent - 1` of
an axis of odd extent, hold `wall_value`. -/
theorem C17_boundary_clearance (g : Digging3DMazeGenerator α)
    (hne : g.empty_value ≠ g.wall_value) (m : Matrix α) (Dx Dy Dz : Nat) (hr : Rect m Dx Dy Dz)
    (hx : 2 < Dx) (hy : 2 < Dy) (hz : 2 < Dz)
    (hDx : Dx < 2 ^ 63) (hDy : Dy < 2 ^ 63) (hDz : Dz < 2 ^ 63) (rnd : Nat → Nat) :
    AfterCreateMaze g rnd m fun m1 =>
      (∀ x y z, readCell m1 x y z = some g.empty_value →
        (1 ≤ x ∧ x ≤ Dx - 1 ∧ (Dx % 2 = 1 → x ≤ Dx - 2)) ∧
        (1 ≤ y ∧ y ≤ Dy - 1 ∧ (Dy % 2 = 1 → y ≤ Dy - 2)) ∧
        (1 ≤ z ∧ z ≤ Dz - 1 ∧ (Dz % 2 = 1 → z ≤ Dz - 2))) ∧
      (∀ x y z, x < Dx → y < Dy → z < Dz →
        (x = 0 ∨ y = 0 ∨ z = 0 ∨ (Dx % 2 = 1 ∧ x = Dx - 1) ∨ (Dy % 2 = 1 ∧ y = Dy - 1) ∨
          (Dz % 2 = 1 ∧ z = Dz - 1)) →
        readCell m1 x y z = some g.wall_value) :=
  after_of_inv hne hr hx hy hz hDx hDy hDz rnd _ fun s1 hI _ => by
    constructor
    · intro x y z he
      have := inv_bounds hI x y z he
      omega
    · intro x y z h1 h2 h3 hface
      apply inv_wall_of_not_empty hI h1 h2 h3
      intro he
      have := inv_bounds hI x y z he
      omega

/-- An instance of the amended claim C17: a 4x5x6 box with prior content 9. -/
theorem C17_boundary_clearance_witness :
    gen10.empty_value ≠ gen10.wall_value ∧ Rect (boxOf 4 5 6 9) 4 5 6 ∧
    AfterCreateMaze gen10 (fun k => k) (boxOf 4 5 6 9) fun m1 =>
      (∀ x y z, readCell m1 x y z = some gen10.empty_value →
        (1 ≤ x ∧ x ≤ 4 - 1 ∧ (4 % 2 = 1 → x ≤ 4 - 2)) ∧
        (1 ≤ y ∧ y ≤ 5 - 1 ∧ (5 % 2 = 1 → y ≤ 5 - 2)) ∧
        (1 ≤ z ∧ z ≤ 6 - 1 ∧ (6 % 2 = 1 → z ≤ 6 - 2))) ∧
      (∀ x y z, x < 4 → y < 5 → z < 6 →
        (x = 0 ∨ y = 0 ∨ z = 0 ∨ (4 % 2 = 1 ∧ x = 4 - 1) ∨ (5 % 2 = 1 ∧ y = 5 - 1) ∨
          (6 % 2 = 1 ∧ z = 6 - 1)) →
        readCell m1 x y z = some gen10.wall_value) :=
  ⟨by decide, rect_boxOf 4 5 6 9,
    C17_boundary_clearance gen10 (by decide) (boxOf 4 5 6 9) 4 5 6 (rect_boxOf 4 5 6 9)
      (by decide) (by decide) (by decide) (by norm_num) (by norm_num) (by norm_num) fun k => k⟩

/-- Claim C20 (closed outer shell). On a rectangular grid with all three extents above 2
(below `2 ^ 63`), with `empty_value ≠ wall_value` and any random choices, `CreateMaze`
returns, and in the grid it returns every cell with a coordinate equal to 0 holds
`wall_value`; when the three extents are odd, so does every cell with a coordinate equal to
0 or to `extent - 1`. -/
theorem C20_closed_shell (g : Digging3DMazeGenerator α)
    (hne : g.empty_value ≠ g.wall_value) (m : Matrix α) (Dx Dy Dz : Nat) (hr : Rect m Dx Dy Dz)
    (hx : 2 < Dx) (hy : 2 < Dy) (hz : 2 < Dz)
    (hDx : Dx < 2 ^ 63) (hDy : Dy < 2 ^ 63) (hDz : Dz < 2 ^ 63) (rnd : Nat → Nat) :
    AfterCreateMaze g rnd m fun m1 =>
      (∀ x y z, x < Dx → y < Dy → z < Dz → (x = 0 ∨ y = 0 ∨ z = 0) →
        readCell m1 x y z = some g.wall_value) ∧
      (Dx % 2 = 1 ∧ Dy % 2 = 1 ∧ Dz % 2 = 1 →
        ∀ x y z, x < Dx → y < Dy → z < Dz →
          (x = 0 ∨ x = Dx - 1 ∨ y = 0 ∨ y = Dy - 1 ∨ z = 0 ∨ z = Dz - 1) →
          readCell m1 x y z = some g.wall_value) :=
  after_of_inv hne hr hx hy hz hDx hDy hDz rnd _ fun s1 hI _ => by
    constructor
    · intro x y z h1 h2 h3 hface
      apply inv_wall_of_not_empty hI h1 h2 h3
      intro he
      have := inv_bounds hI x y z he
      omega
    · intro hodd x y z h1 h2 h3 hface
      apply inv_wall_of_not_empty hI h1 h2 h3
      intro he
      have := inv_bounds hI x y z he
      omega

/-- An instance of claim C20: a 5x7x3 box with prior content 2. -/
theorem C20_closed_shell_witness :
    gen10.empty_value ≠ gen10.wall_value ∧ Rect (boxOf 5 7 3 2) 5 7 3 ∧
    AfterCreateMaze gen10 (fun k => 5 * k) (boxOf 5 7 3 2) fun m1 =>
      (∀ x y z, x < 5 → y < 7 → z < 3 → (x = 0 ∨ y = 0 ∨ z = 0) →
        readCell m1 x y z = some gen10.wall_value) ∧
      (5 % 2 = 1 ∧ 7 % 2 = 1 ∧ 3 % 2 = 1 →
        ∀ x y z, x < 5 → y < 7 → z < 3 →
          (x = 0 ∨ x = 5 - 1 ∨ y = 0 ∨ y = 7 - 1 ∨ z = 0 ∨ z = 3 - 1) →
          readCell m1 x y z = some gen10.wall_value) :=
  ⟨by decide, rect_boxOf 5 7 3 2,
    C20_closed_shell gen10 (by decide) (boxOf 5 7 3 2) 5 7 3 (rect_boxOf 5 7 3 2)
      (by decide) (by decide) (by decide) (by norm_num) (by norm_num) (by norm_num)
      fun k => 5 * k⟩

theorem same_run {g : Digging3DMazeGenerator α} (heq : g.empty_value = g.wall_value)
    {m : Matrix α} {Dx Dy Dz : Nat} (hr : Rect m Dx Dy Dz)
    (hx : 2 < Dx) (hy : 2 < Dy) (hz : 2 < Dz) (h4 : 4 ≤ Dx ∨ 4 ≤ Dy ∨ 4 ≤ Dz)
    (hDx : Dx < 2 ^ 63) (hDy : Dy < 2 ^ 63) (hDz : Dz < 2 ^ 63) (rnd : Nat → Nat) (k : Nat) :
    ∃ s, stateAfter g rnd (initState (setCell (filled g m) 1 1 1 g.empty_value)) k = some s ∧
      s.finish_flag = false ∧ InvSame g Dx Dy Dz s := by
  induction k with
  | zero => exact ⟨_, rfl, rfl, invSame_init heq hr hx hy hz⟩
  | succ k ih =>
    obtain ⟨s, hs, hf, hI⟩ := ih
    refine ⟨stepPure g rnd s, (stateAfter_succ g rnd _ k _).mpr ⟨s, hs, hf, rfl⟩, ?_,
      invSame_step heq hDx hDy hDz rnd hI⟩
    obtain ⟨t, _, he⟩ := stepPure_dig g rnd s (same_not_stuck hI h4)
    rw [he]
    exact hf

/-- Claim C18 (no termination when the two values coincide). With
`empty_value = wall_value`, on a rectangular grid with all extents above 2 and one of at
least 4 (below `2 ^ 63`), whatever the random choices: every iteration of the loop of
`CreateMaze` is reached with `finish_flag` false and `GetCanDiggingDirs` returns a non-empty
list for its seed; so `CreateMaze` does not return, whatever the number of iterations
allowed. -/
theorem C18_no_termination (g : Digging3DMazeGenerator α) (heq : g.empty_value = g.wall_value)
    (m : Matrix α) (Dx Dy Dz : Nat) (hr : Rect m Dx Dy Dz)
    (hx : 2 < Dx) (hy : 2 < Dy) (hz : 2 < Dz) (h4 : 4 ≤ Dx ∨ 4 ≤ Dy ∨ 4 ≤ Dz)
    (hDx : Dx < 2 ^ 63) (hDy : Dy < 2 ^ 63) (hDz : Dz < 2 ^ 63) (rnd : Nat → Nat) :
    (∀ k, ∃ s, IterStart g rnd m k s ∧
      ∃ can, GetCanDiggingDirs g s.matrix_ s.seed_x s.seed_y s.seed_z = some can ∧ can ≠ []) ∧
    (∀ fuel, CreateMaze g rnd fuel m = Outcome.outOfFuel) ∧
    (∀ fuel m1, CreateMaze g rnd fuel m ≠ Outcome.returned m1) := by
  have hout : ∀ fuel, CreateMaze g rnd fuel m = Outcome.outOfFuel := by
    intro fuel
    obtain ⟨s, hs, hf, _⟩ := same_run heq hr hx hy hz h4 hDx hDy hDz rnd fuel
    rw [CreateMaze_big g rnd fuel hr hx hy hz]
    have := whileLoop_stateAfter g rnd _ fuel s hs 0
    rw [Nat.add_zero] at this
    rw [this, whileLoop_zero g rnd s hf]
  refine ⟨?_, hout, ?_⟩
  · intro k
    obtain ⟨s, hs, hf, hI⟩ := same_run heq hr hx hy hz h4 hDx hDy hDz rnd k
    exact ⟨s, iterStart_of_rect hr hx hy hz hs hf, _, GetCanDiggingDirs_eq g _ _ _ _,
      same_not_stuck hI h4⟩
  · intro fuel m1 h
    rw [hout fuel] at h
    cases h

/-- An instance of claim C18: a 3x3x4 box and a generator whose two values are both 0. -/
theorem C18_no_termination_witness :
    (⟨0, 0⟩ : Digging3DMazeGenerator Nat).empty_value
      = (⟨0, 0⟩ : Digging3DMazeGenerator Nat).wall_value ∧
    Rect (boxOf 3 3 4 7) 3 3 4 ∧
    (∀ k, ∃ s, IterStart ⟨0, 0⟩ (fun k => k) (boxOf 3 3 4 7) k s ∧
      ∃ can, GetCanDiggingDirs ⟨0, 0⟩ s.matrix_ s.seed_x s.seed_y s.seed_z = some can ∧
        can ≠ []) ∧
    (∀ fuel, CreateMaze ⟨0, 0⟩ (fun k => k) fuel (boxOf 3 3 4 7) = Outcome.outOfFuel) ∧
    (∀ fuel m1, CreateMaze ⟨0, 0⟩ (fun k => k) fuel (boxOf 3 3 4 7) ≠ Outcome.returned m1) :=
  ⟨rfl, rect_boxOf 3 3 4 7,
    C18_no_termination ⟨0, 0⟩ rfl (boxOf 3 3 4 7) 3 3 4 (rect_boxOf 3 3 4 7)
      (by decide) (by decide) (by decide) (Or.inr (Or.inr (by decide)))
      (by norm_num) (by norm_num) (by norm_num) fun k => k⟩

theorem card_roomsBox (Dx Dy Dz : Nat) :
    (roomsBox Dx Dy Dz).card = (lim Dx / 2) * ((lim Dy / 2) * (lim Dz / 2)) := by
  rw [← card_cells]
  apply Nat.le_antisymm
  · apply Finset.card_le_card_of_injOn (fun p : Triple => (p.1 / 2, p.2.1 / 2, p.2.2 / 2))
    · intro p hp
      simp only [roomsBox, Finset.mem_filter, mem_cells, isRoom] at hp
      simp only [mem_cells]
      omega
    · intro p hp q hq h
      simp only [roomsBox, Finset.coe_filter, Set.mem_setOf_eq, isRoom] at hp hq
      obtain ⟨px, py, pz⟩ := p
      obtain ⟨qx, qy, qz⟩ := q
      simp only [Prod.mk.injEq] at h hp hq ⊢
      omega
  · apply Finset.card_le_card_of_injOn
      (fun p : Triple => (p.1 * 2 + 1, p.2.1 * 2 + 1, p.2.2 * 2 + 1))
    · intro p hp
      simp only [mem_cells] at hp
      simp only [roomsBox, Finset.mem_filter, mem_cells, isRoom]
      omega
    · intro p _ q _ h
      obtain ⟨px, py, pz⟩ := p
      obtain ⟨qx, qy, qz⟩ := q
      simp only [Prod.mk.injEq] at h ⊢
      omega

theorem card_emptyCells {g : Digging3DMazeGenerator α} {Dx Dy Dz : Nat} {s : LoopState α}
    (hI : Inv g Dx Dy Dz s) :
    (emptyCells g s.matrix_ Dx Dy Dz).card + 1 = 2 * (emptyRooms g s.matrix_ Dx Dy Dz).card := by
  have hunion : emptyCells g s.matrix_ Dx Dy Dz
      = emptyRooms g s.matrix_ Dx Dy Dz ∪ emptyLinks g s.matrix_ Dx Dy Dz := by
    ext p
    simp only [emptyCells, emptyRooms, emptyLinks, Finset.mem_filter, Finset.mem_union]
    constructor
    · rintro ⟨h1, h2⟩
      have hnp := (hI.box _ _ _ h2).2.2.2
      by_cases hroom : isRoom p.1 p.2.1 p.2.2
      · exact Or.inl ⟨h1, hroom, h2⟩
      · refine Or.inr ⟨h1, ?_, h2⟩
        simp only [isRoom, isLink, isPillar, evenCount] at *
        omega
    · rintro (⟨h1, _, h2⟩ | ⟨h1, _, h2⟩) <;> exact ⟨h1, h2⟩
  have hdisj : Disjoint (emptyRooms g s.matrix_ Dx Dy Dz) (emptyLinks g s.matrix_ Dx Dy Dz) := by
    rw [Finset.disjoint_left]
    intro p hp hq
    simp only [emptyRooms, emptyLinks, Finset.mem_filter] at hp hq
    exact room_not_link hp.2.1 hq.2.1
  rw [hunion, Finset.card_union_of_disjoint hdisj]
  have := hI.count
  omega

theorem final_card_emptyCells {g : Digging3DMazeGenerator α}
    {Dx Dy Dz : Nat} (hDx : Dx < 2 ^ 63) (hDy : Dy < 2 ^ 63) (hDz : Dz < 2 ^ 63)
    (hx : 2 < Dx) (hy : 2 < Dy) (hz : 2 < Dz)
    {s : LoopState α} (hI : Inv g Dx Dy Dz s) (hf : s.finish_flag = true) :
    (emptyCells g s.matrix_ Dx Dy Dz).card + 1
      = 2 * ((lim Dx / 2) * ((lim Dy / 2) * (lim Dz / 2))) := by
  rw [card_emptyCells hI, final_emptyRooms hDx hDy hDz hx hy hz hI hf, card_roomsBox]

theorem lim_of_le {D : Nat} (h : D ≤ 2 ^ 31) : lim D = D := by
  unfold lim
  exact min_eq_left h

/-- Claim C19, failing input. On the box of extents `2 ^ 31 + 4`, 3, 3 the number of cells
holding `empty_value` when `CreateMaze` returns is `2 ^ 31 - 1`, not
`2 * floor(Dx / 2) * floor(Dy / 2) * floor(Dz / 2) - 1 = 2 ^ 31 + 3`: the rooms
`(2 ^ 31 + 1, 1, 1)` and `(2 ^ 31 + 3, 1, 1)` and the two corridor cells leading to them
keep `wall_value`, because `GetCanDiggingDirs` tests the `+x` target of the room
`(2 ^ 31 - 1, 1, 1)` through `(int)pos_x + 2`, which leaves the range of `int`. -/
theorem C19_failing_input :
    gen10.empty_value ≠ gen10.wall_value ∧ Rect (boxOf (2 ^ 31 + 4) 3 3 0) (2 ^ 31 + 4) 3 3 ∧
    ∃ m1, CreateMaze gen10 (fun _ => 0) ((2 ^ 31 + 4) * 3 * 3) (boxOf (2 ^ 31 + 4) 3 3 0)
        = Outcome.returned m1 ∧
      (emptyCells gen10 m1 (2 ^ 31 + 4) 3 3).card = 2 ^ 31 - 1 ∧
      (emptyCells gen10 m1 (2 ^ 31 + 4) 3 3).card
        ≠ 2 * ((2 ^ 31 + 4) / 2) * (3 / 2) * (3 / 2) - 1 ∧
      2 * ((2 ^ 31 + 4) / 2) * (3 / 2) * (3 / 2) - 1 = 2 ^ 31 + 3 ∧
      (∀ x, 2 ^ 31 ≤ x → x < 2 ^ 31 + 4 → readCell m1 x 1 1 = some gen10.wall_value) := by
  have hne : gen10.empty_value ≠ gen10.wall_value := by decide
  have hr : Rect (boxOf (2 ^ 31 + 4) 3 3 (0 : Nat)) (2 ^ 31 + 4) 3 3 := rect_boxOf _ _ _ _
  have hD : 2 ^ 31 + 4 < 2 ^ 63 := by norm_num
  have h3 : 3 < 2 ^ 63 := by norm_num
  refine ⟨hne, hr, ?_⟩
  obtain ⟨m1, hm1⟩ := CreateMaze_returns hne hr hD h3 h3 (fun _ => 0)
  obtain ⟨s1, hI, hf, rfl⟩ := CreateMaze_final hne hr (by norm_num) (by norm_num) (by norm_num)
    hD h3 h3 (fun _ => 0) _ hm1
  have hc := final_card_emptyCells hD h3 h3 (by norm_num) (by norm_num) (by norm_num) hI hf
  have e1 : lim (2 ^ 31 + 4) = 2 ^ 31 := by
    unfold lim
    exact min_eq_right (by norm_num)
  have e2 : lim 3 = 3 := lim_of_le (by norm_num)
  rw [e1, e2] at hc
  have hcard : (emptyCells gen10 s1.matrix_ (2 ^ 31 + 4) 3 3).card = 2 ^ 31 - 1 := by
    norm_num at hc ⊢
    omega
  refine ⟨s1.matrix_, hm1, hcard, ?_, by norm_num, ?_⟩
  · rw [hcard]
    norm_num
  · intro x hx1 hx2
    apply inv_wall_of_not_empty hI hx2 (by norm_num) (by norm_num)
    intro he
    have := (hI.box _ _ _ he).1
    omega

/-- Number of open cells within the range of `int`. On a rectangular grid with extents
`Dx`, `Dy`, `Dz` all above 2 and at most `2 ^ 31`, with `empty_value ≠ wall_value` and any
random choices, `CreateMaze` returns, and in the grid it returns the number of cells holding
`empty_value` is `2 * floor(Dx / 2) * floor(Dy / 2) * floor(Dz / 2) - 1`; every other cell
holds `wall_value`. -/
theorem open_cell_count_int_range (g : Digging3DMazeGenerator α)
    (hne : g.empty_value ≠ g.wall_value) (m : Matrix α) (Dx Dy Dz : Nat) (hr : Rect m Dx Dy Dz)
    (hx : 2 < Dx) (hy : 2 < Dy) (hz : 2 < Dz)
    (hDx : Dx ≤ 2 ^ 31) (hDy : Dy ≤ 2 ^ 31) (hDz : Dz ≤ 2 ^ 31) (rnd : Nat → Nat) :
    AfterCreateMaze g rnd m fun m1 =>
      (emptyCells g m1 Dx Dy Dz).card = 2 * (Dx / 2) * (Dy / 2) * (Dz / 2) - 1 ∧
      (∀ x y z, x < Dx → y < Dy → z < Dz → readCell m1 x y z ≠ some g.empty_value →
        readCell m1 x y z = some g.wall_value) :=
  have hDx1 : Dx < 2 ^ 63 := lt_of_le_of_lt hDx (by norm_num)
  have hDy1 : Dy < 2 ^ 63 := lt_of_le_of_lt hDy (by norm_num)
  have hDz1 : Dz < 2 ^ 63 := lt_of_le_of_lt hDz (by norm_num)
  after_of_inv hne hr hx hy hz hDx1 hDy1 hDz1 rnd _ fun s1 hI hf => by
    have hc := final_card_emptyCells hDx1 hDy1 hDz1 hx hy hz hI hf
    rw [lim_of_le hDx, lim_of_le hDy, lim_of_le hDz] at hc
    refine ⟨?_, fun x y z hx1 hy1 hz1 h => inv_wall_of_not_empty hI hx1 hy1 hz1 h⟩
    have e : 2 * (Dx / 2) * (Dy / 2) * (Dz / 2) = 2 * (Dx / 2 * (Dy / 2 * (Dz / 2))) := by ring
    rw [e]
    omega

/-- An instance of `open_cell_count_int_range`: a 7x7x7 box with prior content 3. -/
theorem open_cell_count_int_range_instance :
    AfterCreateMaze gen10 (fun k => k + 2) (boxOf 7 7 7 3) fun m1 =>
      (emptyCells gen10 m1 7 7 7).card = 2 * (7 / 2) * (7 / 2) * (7 / 2) - 1 ∧
      (∀ x y z, x < 7 → y < 7 → z < 7 → readCell m1 x y z ≠ some gen10.empty_value →
        readCell m1 x y z = some gen10.wall_value) :=
  open_cell_count_int_range gen10 (by decide) (boxOf 7 7 7 3) 7 7 7 (rect_boxOf 7 7 7 3)
    (by decide) (by decide) (by decide) (by norm_num) (by norm_num) (by norm_num)
    fun k => k + 2

end Maze
